import Mathlib

/-!
# Role assignment core (`src/pfs/role/roler.go`)

A shallow embedding of the roler of `src/pfs/role/roler.go` and theorems about it.

Modelling conventions.

* A Go `map` is an association list. The order of the list is the order in
  which a `range` loop over the map visits the entries; the theorems quantify
  over all lists, hence over all iteration orders. A lookup `m[k]` is
  `List.lookup`. The hypothesis `WF` says that the lists are maps: keys are
  pairwise distinct.
* The `counts` map built by `findRole` is iterated twice (`minCount`,
  `maxCount`); the order of each iteration is drawn from `Rand`, like the
  results of `rand.Perm`.
* Go `int` is `Int`. No arithmetic of the roler can overflow on a snapshot
  that fits in memory (counts are bounded by the number of map entries).
* The calls a function makes on the addresser and on the server are recorded
  in the `Outcome` it returns; the answers of the addresser and of the server
  are the fields of `Addresser` and `Server`.
-/

namespace Role

set_option linter.dupNamespace false

/-- Modelled from the spec: `route.Address` is declared outside `src/`; the
spec gives it as the pair `(node_id, backfilling)`. The source reads the field
`Address` and builds values positionally, `route.Address{r.localAddress, false}`. -/
structure Address where
  Address : String
  Backfilling : Bool
deriving DecidableEq

/-- The zero value `route.Address{}`. -/
def zeroAddress : Address := ⟨"", false⟩

/-- Modelled from the spec: a non-nil Go `error`. The spec tells the
claim-lost condition of a CAS apart from every other error (infrastructure
errors, server activation errors, errors built with `fmt.Errorf`). -/
inductive Error where
  | ClaimLost
  | Other (msg : String)
deriving DecidableEq

/-- The type `map[int]route.Address` of `shardToMasterAddress`. -/
abbrev MasterMap := List (Int × Address)

/-- The type `map[int]map[int]route.Address` of `shardToReplicaAddress`. -/
abbrev ReplicaMap := List (Int × List (Int × Address))

/-- The type `map[string]int` of `counts`. -/
abbrev Counts := List (String × Int)

/-- A call on the addresser or on the server. -/
inductive Call where
  | ClaimMasterAddress (shard : Int) (address prevAddress : Address)
  | ClaimReplicaAddress (shard index : Int) (address prevAddress : Address)
  | Master (shard : Int)
  | Replica (shard : Int)
  | HoldMasterAddress (shard : Int) (address : Address)
  | HoldReplicaAddress (shard index : Int) (address : Address)
  | Clear (shard : Int)
deriving DecidableEq

/-- What `beMaster`, `beReplica` and `findRole` return, `(uint64, error)`,
together with the calls made before returning (`calls`, in order) and the
goroutines started (`workers`, each with the calls it makes, in order). -/
structure Outcome where
  modifiedIndex : Nat
  err : Option Error
  calls : List Call
  workers : List (List Call)
deriving DecidableEq

/-- Modelled from the spec: the answers of the `route.Addresser` (declared
outside `src/`) to the two CAS operations, `(token, err)`. -/
structure Addresser where
  ClaimMasterAddress : Int → Address → Address → Nat × Option Error
  ClaimReplicaAddress : Int → Int → Address → Address → Nat × Option Error

/-- Modelled from the spec: the answers of the `Server` callbacks (declared
outside `src/`) `Master(shard)` and `Replica(shard)`. -/
structure Server where
  Master : Int → Option Error
  Replica : Int → Option Error

/-- The struct `roler`. `sharder` is the value of `r.sharder.NumShards()`
(`rand.Perm` panics on a negative argument); `cancel` is the number of times
the channel `cancel` has been closed. -/
structure roler where
  addresser : Addresser
  sharder : Nat
  server : Server
  localAddress : String
  cancel : Nat
  cancelled : Bool
  numReplicas : Int

/-- The random choices of one `findRole` call: the results of `rand.Perm` in
`openMasterRole` (`permMaster`) and in `openReplicaRole` (`permShard`, and
`permIndex shard` for the inner `rand.Perm(r.numReplicas)` at `shard`), and the
orders in which `minCount` and `maxCount` range over `counts`. -/
structure Rand where
  permMaster : List Int
  permShard : List Int
  permIndex : Int → List Int
  rangeMin : Counts → Counts
  rangeMax : Counts → Counts

/-- The value `math.MaxInt64`. -/
def MaxInt64 : Int := 9223372036854775807

/-- The list `0, 1, ..., n-1` of Go ints. -/
def intRange (n : Nat) : List Int := (List.range n).map (fun k : Nat => (k : Int))

/-- The read `counts[address]` of a `map[string]int`: 0 for a missing key. -/
def getCount (counts : Counts) (address : String) : Int :=
  (counts.lookup address).getD 0

/-- The statement `out[address]++`. -/
def incr : Counts → String → Counts
  | [], address => [(address, 1)]
  | (k, c) :: rest, address =>
    if k = address then (k, c + 1) :: rest else (k, c) :: incr rest address

def roler.localNormalAddress (r : roler) : Address := ⟨r.localAddress, false⟩

def roler.localBackfillingAddress (r : roler) : Address := ⟨r.localAddress, true⟩

def roler.hasRoleForShard (r : roler) (shard : Int) (shardToMasterAddress : MasterMap)
    (shardToReplicaAddress : ReplicaMap) : Bool :=
  let master :=
    match shardToMasterAddress.lookup shard with
    | some address => address.Address == r.localAddress
    | none => false
  if master then true
  else
    match shardToReplicaAddress.lookup shard with
    | some addresses => addresses.any (fun e => e.2.Address == r.localAddress)
    | none => false

def roler.openMasterRole (r : roler) (perm : List Int) (shardToMasterAddress : MasterMap)
    (shardToReplicaAddress : ReplicaMap) : Int × Bool :=
  match perm.find? (fun i => (shardToMasterAddress.lookup i).isNone
      && !r.hasRoleForShard i shardToMasterAddress shardToReplicaAddress) with
  | some i => (i, true)
  | none => (0, false)

def roler.openReplicaRole (r : roler) (permShard : List Int) (permIndex : Int → List Int)
    (shardToMasterAddress : MasterMap) (shardToReplicaAddress : ReplicaMap) :
    Int × Int × Bool :=
  match permShard.findSome? (fun shard =>
      let addresses := (shardToReplicaAddress.lookup shard).getD []
      if (addresses.length : Int) < r.numReplicas
          && !r.hasRoleForShard shard shardToMasterAddress shardToReplicaAddress then
        ((permIndex shard).find? (fun index => (addresses.lookup index).isNone)).map
          (fun index => (shard, index))
      else none) with
  | some (shard, index) => (shard, index, true)
  | none => (0, 0, false)

def roler.randomMasterRole (r : roler) (maxAddress : String)
    (shardToMasterAddress : MasterMap) (shardToReplicaAddress : ReplicaMap) :
    Address × Int × Bool :=
  match shardToMasterAddress.find? (fun e => e.2.Address == maxAddress
      && !r.hasRoleForShard e.1 shardToMasterAddress shardToReplicaAddress) with
  | some (shard, address) => (address, shard, true)
  | none => (zeroAddress, 0, false)

def roler.randomReplicaRole (r : roler) (maxAddress : String)
    (shardToMasterAddress : MasterMap) (shardToReplicaAddress : ReplicaMap) :
    Address × Int × Int × Bool :=
  match shardToReplicaAddress.findSome? (fun e =>
      (e.2.find? (fun a => a.2.Address == maxAddress
        && !r.hasRoleForShard e.1 shardToMasterAddress shardToReplicaAddress)).map
        (fun a => (a.2, e.1, a.1))) with
  | some (address, shard, index) => (address, shard, index, true)
  | none => (zeroAddress, 0, 0, false)

def roler.masterCounts (_r : roler) (shardToMasterAddress : MasterMap) (out : Counts) :
    Counts :=
  shardToMasterAddress.foldl (fun out e => incr out e.2.Address) out

def roler.replicaCounts (_r : roler) (shardToReplicaAddress : ReplicaMap) (out : Counts) :
    Counts :=
  shardToReplicaAddress.foldl
    (fun out e => e.2.foldl (fun out a => incr out a.2.Address) out) out

/-- The function `minCount`; `counts` is listed in the order of the `range`. -/
def roler.minCount (_r : roler) (counts : Counts) : String × Int :=
  counts.foldl (fun acc e => if e.2 < acc.2 then (e.1, e.2) else acc) ("", MaxInt64)

/-- The function `maxCount`; `counts` is listed in the order of the `range`. -/
def roler.maxCount (_r : roler) (counts : Counts) : String × Int :=
  counts.foldl (fun acc e => if e.2 > acc.2 then (e.1, e.2) else acc) ("", 0)

def roler.beMaster (r : roler) (shard : Int) (prevAddress : Address) : Outcome :=
  let claim := Call.ClaimMasterAddress shard r.localNormalAddress prevAddress
  match r.addresser.ClaimMasterAddress shard r.localNormalAddress prevAddress with
  | (_, some _) => ⟨0, none, [claim], []⟩
  | (modifiedIndex, none) =>
    match r.server.Master shard with
    | some err => ⟨0, some err, [claim, Call.Master shard], []⟩
    | none =>
      ⟨modifiedIndex, none, [claim, Call.Master shard],
        [[Call.HoldMasterAddress shard r.localNormalAddress, Call.Clear shard]]⟩

def roler.beReplica (r : roler) (shard : Int) (index : Int) (prevAddress : Address) :
    Outcome :=
  let claim := Call.ClaimReplicaAddress shard index r.localNormalAddress prevAddress
  match r.addresser.ClaimReplicaAddress shard index r.localNormalAddress prevAddress with
  | (_, some _) => ⟨0, none, [claim], []⟩
  | (modifiedIndex, none) =>
    match r.server.Replica shard with
    | some err => ⟨0, some err, [claim, Call.Replica shard], []⟩
    | none =>
      ⟨modifiedIndex, none, [claim, Call.Replica shard],
        [[Call.HoldReplicaAddress shard index r.localNormalAddress, Call.Clear shard]]⟩

/-- The map `counts` that `findRole` builds from a snapshot. -/
def roler.counts (r : roler) (shardToMasterAddress : MasterMap)
    (shardToReplicaAddress : ReplicaMap) : Counts :=
  r.replicaCounts shardToReplicaAddress (r.masterCounts shardToMasterAddress [])

def roler.findRole (r : roler) (rand : Rand) (shardToMasterAddress : MasterMap)
    (shardToReplicaAddress : ReplicaMap) : Outcome :=
  let counts := r.counts shardToMasterAddress shardToReplicaAddress
  let min := (r.minCount (rand.rangeMin counts)).2
  if getCount counts r.localAddress > min then
    ⟨0, none, [], []⟩
  else
    match r.openMasterRole rand.permMaster shardToMasterAddress shardToReplicaAddress with
    | (shard, true) => r.beMaster shard zeroAddress
    | (_, false) =>
      match r.openReplicaRole rand.permShard rand.permIndex shardToMasterAddress
          shardToReplicaAddress with
      | (shard, index, true) => r.beReplica shard index zeroAddress
      | (_, _, false) =>
        let maxAddress := (r.maxCount (rand.rangeMax counts)).1
        let max := (r.maxCount (rand.rangeMax counts)).2
        if getCount counts r.localAddress + 1 ≤ max - 1 then
          match r.randomReplicaRole maxAddress shardToMasterAddress
              shardToReplicaAddress with
          | (prevAddress, shard, index, true) => r.beReplica shard index prevAddress
          | (_, _, _, false) =>
            match r.randomMasterRole maxAddress shardToMasterAddress
                shardToReplicaAddress with
            | (prevAddress, shard, true) => r.beMaster shard prevAddress
            | (_, _, false) =>
              ⟨0, some (Error.Other "Error we need to be able to find a role here."), [], []⟩
        else
          ⟨0, none, [], []⟩

/-! ## Specification vocabulary -/

/-- The keys of an association list are pairwise distinct: the list is a map. -/
def NodupKeys {κ ν : Type} (m : List (κ × ν)) : Prop := (m.map Prod.fst).Nodup

/-- The snapshot is a pair of Go maps: no key occurs twice in `Masters`, in
`Replicas`, or in an inner map of `Replicas`. -/
def WF (Masters : MasterMap) (Replicas : ReplicaMap) : Prop :=
  NodupKeys Masters ∧ NodupKeys Replicas ∧ ∀ e ∈ Replicas, NodupKeys e.2

/-- The random choices are legal for roler `r` on the snapshot: each
`rand.Perm(n)` result is a permutation of `0, ..., n-1`, and each `range` over
`counts` visits every entry of `counts` once. -/
def Rand.Valid (rand : Rand) (r : roler) (Masters : MasterMap) (Replicas : ReplicaMap) :
    Prop :=
  rand.permMaster.Perm (intRange r.sharder) ∧
  rand.permShard.Perm (intRange r.sharder) ∧
  (∀ shard, (rand.permIndex shard).Perm (intRange r.numReplicas.toNat)) ∧
  (rand.rangeMin (r.counts Masters Replicas)).Perm (r.counts Masters Replicas) ∧
  (rand.rangeMax (r.counts Masters Replicas)).Perm (r.counts Masters Replicas)

/-- The number of roles of `node` in the snapshot: the master entries plus the
replica entries whose node id is `node`, whatever the backfilling flag. -/
def roleCount (node : String) (Masters : MasterMap) (Replicas : ReplicaMap) : Int :=
  ((Masters.countP (fun e => e.2.Address == node) : Nat) : Int) +
    (((Replicas.map (fun e => e.2.countP (fun a => a.2.Address == node))).sum : Nat) : Int)

/-- The node `node` is master of `shard` in the snapshot. -/
def isMasterOf (node : String) (shard : Int) (Masters : MasterMap) : Prop :=
  ∃ a, (shard, a) ∈ Masters ∧ a.Address = node

/-- The node `node` holds the replica slot `(shard, index)` in the snapshot. -/
def isReplicaAt (node : String) (shard index : Int) (Replicas : ReplicaMap) : Prop :=
  ∃ addresses a, (shard, addresses) ∈ Replicas ∧ (index, a) ∈ addresses ∧ a.Address = node

/-- The node `node` holds a role, master or replica, on `shard`. -/
def holdsRole (node : String) (shard : Int) (Masters : MasterMap) (Replicas : ReplicaMap) :
    Prop :=
  isMasterOf node shard Masters ∨ ∃ index, isReplicaAt node shard index Replicas

/-- Every key of `counts` occurs once and every count is positive. -/
def CountsOK (counts : Counts) : Prop := NodupKeys counts ∧ ∀ e ∈ counts, 0 < e.2

/-- The outcome of a `findRole` call that makes no call and returns `(0, nil)`. -/
def noop : Outcome := ⟨0, none, [], []⟩

/-- The outcome of the last branch of the steal: no call, and the error
`"Error we need to be able to find a role here."`. -/
def logicError : Outcome :=
  ⟨0, some (Error.Other "Error we need to be able to find a role here."), [], []⟩

/-- The test `counts[r.localAddress] > min` of `findRole`. -/
def roler.yields (r : roler) (rand : Rand) (Masters : MasterMap) (Replicas : ReplicaMap) :
    Prop :=
  getCount (r.counts Masters Replicas) r.localAddress >
    (r.minCount (rand.rangeMin (r.counts Masters Replicas))).2

/-- The address returned by the `maxCount` call of `findRole`. -/
def roler.maxAddress (r : roler) (rand : Rand) (Masters : MasterMap) (Replicas : ReplicaMap) :
    String :=
  (r.maxCount (rand.rangeMax (r.counts Masters Replicas))).1

/-- The test `counts[r.localAddress]+1 <= max-1` of `findRole`. -/
def roler.gap (r : roler) (rand : Rand) (Masters : MasterMap) (Replicas : ReplicaMap) :
    Prop :=
  getCount (r.counts Masters Replicas) r.localAddress + 1 ≤
    (r.maxCount (rand.rangeMax (r.counts Masters Replicas))).2 - 1

/-- The inner map `Replicas[shard]`: empty when `shard` is not a key. -/
def replicasOf (Replicas : ReplicaMap) (shard : Int) : List (Int × Address) :=
  (Replicas.lookup shard).getD []

/-- The master slot of `shard` is open for the local node: `shard` is in
`[0, N)`, has no entry in `Masters`, and the local node holds no role on it. -/
def OpenMaster (r : roler) (shard : Int) (Masters : MasterMap) (Replicas : ReplicaMap) :
    Prop :=
  (0 ≤ shard ∧ shard < (r.sharder : Int)) ∧ (∀ a, (shard, a) ∉ Masters) ∧
    ¬ holdsRole r.localAddress shard Masters Replicas

/-- A replica slot of `shard` is open for the local node: `shard` is in
`[0, N)`, `Replicas[shard]` has fewer than `R` entries, and the local node
holds no role on `shard`. -/
def OpenReplica (r : roler) (shard : Int) (Masters : MasterMap) (Replicas : ReplicaMap) :
    Prop :=
  (0 ≤ shard ∧ shard < (r.sharder : Int)) ∧
    ((replicasOf Replicas shard).length : Int) < r.numReplicas ∧
    ¬ holdsRole r.localAddress shard Masters Replicas

/-- The fairness gate passes for the local node: no node of the snapshot has
strictly fewer roles than the local node, and the local count does not exceed
`math.MaxInt64`, the value from which `minCount` starts (no snapshot in memory
has more entries). -/
def passesGate (r : roler) (Masters : MasterMap) (Replicas : ReplicaMap) : Prop :=
  roleCount r.localAddress Masters Replicas ≤ MaxInt64 ∧
    ∀ node, 0 < roleCount node Masters Replicas →
      roleCount r.localAddress Masters Replicas ≤ roleCount node Masters Replicas

/-- The call is a CAS on the addresser. -/
def Call.isClaim : Call → Bool
  | Call.ClaimMasterAddress _ _ _ => true
  | Call.ClaimReplicaAddress _ _ _ _ => true
  | _ => false

/-- The call is a steal: a CAS whose previous-address witness is not the zero
Address. -/
def Call.isSteal : Call → Bool
  | Call.ClaimMasterAddress _ _ prevAddress => prevAddress != zeroAddress
  | Call.ClaimReplicaAddress _ _ _ prevAddress => prevAddress != zeroAddress
  | _ => false

/-- The call is a Server activation callback, `Master` or `Replica`. -/
def Call.isActivation : Call → Bool
  | Call.Master _ => true
  | Call.Replica _ => true
  | _ => false

/-! ## Fixtures for the concrete instances -/

/-- An addresser on which every CAS succeeds, with token 7. -/
def okAddresser : Addresser := ⟨fun _ _ _ => (7, none), fun _ _ _ _ => (7, none)⟩

/-- A server whose activation callbacks succeed. -/
def okServer : Server := ⟨fun _ => none, fun _ => none⟩

/-- The choices that leave every order as it is: `rand.Perm(n)` gives
`0, ..., n-1` and `counts` is ranged over in the order it was built. -/
def idRand (N R : Nat) : Rand := ⟨intRange N, intRange N, fun _ => intRange R, id, id⟩

/-- A roler on `okAddresser` and `okServer`, not cancelled. -/
def mkRoler (localAddress : String) (N : Nat) (R : Int) : roler :=
  ⟨okAddresser, N, okServer, localAddress, 0, false, R⟩

/-- The normal address of node `A`. -/
def addrA : Address := ⟨"A", false⟩

/-- The normal address of node `B`. -/
def addrB : Address := ⟨"B", false⟩

/-- The shard a CAS targets; `none` for a call that is not a CAS. -/
def Call.claimShard : Call → Option Int
  | Call.ClaimMasterAddress shard _ _ => some shard
  | Call.ClaimReplicaAddress shard _ _ _ => some shard
  | _ => none

/-- The assignment `m[k] = v` on a map. -/
def setSlot {ν : Type} : List (Int × ν) → Int → ν → List (Int × ν)
  | [], k, v => [(k, v)]
  | (k', v') :: rest, k, v =>
    if k' = k then (k', v) :: rest else (k', v') :: setSlot rest k v

/-- Modelled from the spec: the effect on the assignment of a CAS that
succeeds (the addresser is outside `src/`): the new address is stored at the
targeted slot and nothing else changes. -/
def applyClaim (c : Call) (Masters : MasterMap) (Replicas : ReplicaMap) :
    MasterMap × ReplicaMap :=
  match c with
  | Call.ClaimMasterAddress shard address _ => (setSlot Masters shard address, Replicas)
  | Call.ClaimReplicaAddress shard index address _ =>
    (Masters, setSlot Replicas shard (setSlot (replicasOf Replicas shard) index address))
  | _ => (Masters, Replicas)

/-- The number of roles of `node` on `shard`: 1 if it is the master
`Masters[shard]`, plus the number of replica slots of `Replicas[shard]` it
holds. -/
def rolesOnShard (node : String) (shard : Int) (Masters : MasterMap)
    (Replicas : ReplicaMap) : Nat :=
  (match Masters.lookup shard with
    | some a => if a.Address = node then 1 else 0
    | none => 0) +
  (replicasOf Replicas shard).countP (fun a => a.2.Address == node)

/-- No node appears twice among the roles of one shard. -/
def NoSelfDup (Masters : MasterMap) (Replicas : ReplicaMap) : Prop :=
  ∀ node shard, rolesOnShard node shard Masters Replicas ≤ 1

/-- The normal address of node `C`. -/
def addrC : Address := ⟨"C", false⟩

/-- A balanced assignment of two nodes, `N = 2`, `R = 1`: masters `0:A, 1:B`. -/
def crossMasters : MasterMap := [(0, addrA), (1, addrB)]

/-- The replicas of the balanced assignment: `0:{0:B}, 1:{0:A}`. -/
def crossReplicas : ReplicaMap := [(0, [(0, addrB)]), (1, [(0, addrA)])]

/-- Three masters held by `A`, `N = 3`: `0:A, 1:A, 2:A`. -/
def allA : MasterMap := [(0, addrA), (1, addrA), (2, addrA)]

/-- The address the snapshot stores at the slot a CAS targets: `none` when
the slot is absent from the snapshot. -/
def Call.slot (c : Call) (Masters : MasterMap) (Replicas : ReplicaMap) : Option Address :=
  match c with
  | Call.ClaimMasterAddress shard _ _ => Masters.lookup shard
  | Call.ClaimReplicaAddress shard index _ _ => (replicasOf Replicas shard).lookup index
  | _ => none

/-- The new address a CAS writes. -/
def Call.newAddress : Call → Option Address
  | Call.ClaimMasterAddress _ address _ => some address
  | Call.ClaimReplicaAddress _ _ address _ => some address
  | _ => none

/-- The previous-address witness of a CAS. -/
def Call.witnessAddress : Call → Option Address
  | Call.ClaimMasterAddress _ _ prevAddress => some prevAddress
  | Call.ClaimReplicaAddress _ _ _ prevAddress => some prevAddress
  | _ => none

/-- The error with which the addresser of `r` answers a CAS. -/
def roler.claimErr (r : roler) : Call → Option Error
  | Call.ClaimMasterAddress shard address prevAddress =>
    (r.addresser.ClaimMasterAddress shard address prevAddress).2
  | Call.ClaimReplicaAddress shard index address prevAddress =>
    (r.addresser.ClaimReplicaAddress shard index address prevAddress).2
  | _ => none

/-- An addresser on which every CAS reports the claim-lost condition. -/
def lostAddresser : Addresser :=
  ⟨fun _ _ _ => (0, some Error.ClaimLost), fun _ _ _ _ => (0, some Error.ClaimLost)⟩

/-- An addresser that cannot reach its store: every CAS fails with an
infrastructure error. -/
def downAddresser : Addresser :=
  ⟨fun _ _ _ => (0, some (Error.Other "connection refused")),
    fun _ _ _ _ => (0, some (Error.Other "connection refused"))⟩

/-- The roler `mkRoler` on another addresser. -/
def mkRolerOn (addresser : Addresser) (localAddress : String) (N : Nat) (R : Int) : roler :=
  ⟨addresser, N, okServer, localAddress, 0, false, R⟩

/-- The error with which the server of `r` answers an activation callback. -/
def roler.activationErr (r : roler) : Call → Option Error
  | Call.Master shard => r.server.Master shard
  | Call.Replica shard => r.server.Replica shard
  | _ => none

/-- The call is an activation callback on `shard` that the server of `r`
answers without error. -/
def roler.activated (r : roler) (shard : Int) : Call → Bool
  | Call.Master s => decide (s = shard) && (r.server.Master s).isNone
  | Call.Replica s => decide (s = shard) && (r.server.Replica s).isNone
  | _ => false

/-- The calls of a hold worker started for a claim of the local node on
`shard`: a hold of the claimed slot followed by `Server.Clear(shard)`. -/
def roler.isHoldWorker (r : roler) (shard : Int) (w : List Call) : Prop :=
  w = [Call.HoldMasterAddress shard r.localNormalAddress, Call.Clear shard] ∨
    ∃ index, w = [Call.HoldReplicaAddress shard index r.localNormalAddress, Call.Clear shard]

/-- Activations and clears are paired in an outcome: the calls made before
returning contain no hold and no clear, every worker is a hold worker, and on
every shard the workers issue as many `Clear` as there are successful
activations among the calls. -/
def roler.Paired (r : roler) (o : Outcome) : Prop :=
  (∀ c ∈ o.calls, c.isClaim = true ∨ c.isActivation = true) ∧
  (∀ w ∈ o.workers, ∃ shard, r.isHoldWorker shard w) ∧
  (∀ shard, o.workers.flatten.count (Call.Clear shard) = o.calls.countP (r.activated shard))

/-- A server whose activation callbacks fail. -/
def failServer : Server :=
  ⟨fun _ => some (Error.Other "activation failed"),
    fun _ => some (Error.Other "activation failed")⟩

/-- The snapshot of the logic-inconsistency example, `N = 1`, `R = 3`: master
`0:A`. -/
def dupMasters : MasterMap := [(0, addrA)]

/-- The replicas of the logic-inconsistency example: `0:{0:A, 1:A, 2:B}`; node
`A` holds three roles on shard 0. -/
def dupReplicas : ReplicaMap := [(0, [(0, addrA), (1, addrA), (2, addrB)])]

/-- The function `newRoler`: the channel `cancel` is open and `cancelled` is
false. -/
def newRoler (addresser : Addresser) (sharder : Nat) (server : Server)
    (localAddress : String) (numReplicas : Int) : roler :=
  ⟨addresser, sharder, server, localAddress, 0, false, numReplicas⟩

/-- The method `Cancel`: `close(r.cancel)` adds one to the number of times the
channel has been closed. -/
def roler.Cancel (r : roler) : roler :=
  if !r.cancelled then
    ⟨r.addresser, r.sharder, r.server, r.localAddress, r.cancel + 1, true, r.numReplicas⟩
  else r

/-- The roler of the node `node` of the cluster: the roler `r` with
`localAddress` set to `node`. -/
def roler.atNode (r : roler) (node : String) : roler :=
  ⟨r.addresser, r.sharder, r.server, node, r.cancel, r.cancelled, r.numReplicas⟩

/-- The choices of `r` that leave every order as it is. -/
def roler.idRand (r : roler) : Rand :=
  ⟨intRange r.sharder, intRange r.sharder, fun _ => intRange r.numReplicas.toNat, id, id⟩

/-- The counts of the snapshot fit Go's `int`: no node has more than
`math.MaxInt64` roles (a Go map has at most `math.MaxInt64` entries). -/
def Fits (Masters : MasterMap) (Replicas : ReplicaMap) : Prop :=
  ∀ node, roleCount node Masters Replicas ≤ MaxInt64

/-! ## The cluster: nodes on an in-memory addresser -/

/-- The assignment held by the addresser: the masters and the replicas. -/
abbrev Store := MasterMap × ReplicaMap

/-- Modelled from the spec: the compare-and-swap of the addresser (outside
`src/`) on the assignment `store`. With the zero Address as witness a claim
succeeds only when the slot is unset; otherwise only when the slot holds the
witness. -/
def casOK (store : Store) (c : Call) : Bool :=
  match c with
  | Call.ClaimMasterAddress shard _ prevAddress =>
    if prevAddress = zeroAddress then (store.1.lookup shard).isNone
    else store.1.lookup shard == some prevAddress
  | Call.ClaimReplicaAddress shard index _ prevAddress =>
    if prevAddress = zeroAddress then ((replicasOf store.2 shard).lookup index).isNone
    else (replicasOf store.2 shard).lookup index == some prevAddress
  | _ => false

/-- Modelled from the spec: an addresser that accepts every CAS whose witness
matches the assignment `store` (token 1) and answers claim-lost otherwise. -/
def memAddresser (store : Store) : Addresser :=
  ⟨fun shard address prevAddress =>
      if casOK store (Call.ClaimMasterAddress shard address prevAddress) then (1, none)
      else (0, some Error.ClaimLost),
    fun shard index address prevAddress =>
      if casOK store (Call.ClaimReplicaAddress shard index address prevAddress) then (1, none)
      else (0, some Error.ClaimLost)⟩

/-- The roler of node `node` in a cluster of `N` shards and `R` replicas, on
the addresser holding `store`, with a server whose callbacks succeed. -/
def nodeRoler (store : Store) (node : String) (N : Nat) (R : Int) : roler :=
  ⟨memAddresser store, N, okServer, node, 0, false, R⟩

/-- The assignment after the calls of one `findRole` invocation: every CAS
that succeeds is written. -/
def commit (store : Store) (calls : List Call) : Store :=
  calls.foldl (fun s c => if casOK s c then applyClaim c s.1 s.2 else s) store

/-- Two replica maps hold the same entries, listed in any order. -/
def SameReplicas (Replicas Replicas2 : ReplicaMap) : Prop :=
  ∃ mid, List.Forall₂ (fun e e2 => e.1 = e2.1 ∧ e.2.Perm e2.2) Replicas mid ∧
    mid.Perm Replicas2

/-- The maps `Masters`, `Replicas` are a snapshot of `store`: they hold the
entries of the assignment, and a `range` over them may visit the entries in
any order. -/
def IsSnapshot (store : Store) (Masters : MasterMap) (Replicas : ReplicaMap) : Prop :=
  Masters.Perm store.1 ∧ SameReplicas store.2 Replicas

/-- One watch update in a cluster of nodes `nodes`: a node receives a snapshot
of the assignment and runs `findRole`, with any random choices; `calls` are
the calls it makes and the last argument is the assignment afterwards. -/
inductive Step (N : Nat) (R : Int) (nodes : List String) : Store → List Call → Store → Prop
  | mk (store : Store) (node : String) (hnode : node ∈ nodes) (Masters : MasterMap)
      (Replicas : ReplicaMap) (hsnap : IsSnapshot store Masters Replicas) (rand : Rand)
      (hv : rand.Valid (nodeRoler store node N R) Masters Replicas) :
      Step N R nodes store ((nodeRoler store node N R).findRole rand Masters Replicas).calls
        (commit store ((nodeRoler store node N R).findRole rand Masters Replicas).calls)

/-- A run of the cluster: a sequence of watch updates, with the calls of each. -/
inductive Run (N : Nat) (R : Int) (nodes : List String) :
    Store → List (List Call) → Store → Prop
  | nil (store : Store) : Run N R nodes store [] store
  | snoc (start : Store) (trace : List (List Call)) (store : Store) (calls : List Call)
      (next : Store) (hrun : Run N R nodes start trace store)
      (hstep : Step N R nodes store calls next) :
      Run N R nodes start (trace ++ [calls]) next

/-- The calls of an open master claim by node `a` on `shard` that succeeds. -/
def masterClaim (a : String) (shard : Int) : List Call :=
  [Call.ClaimMasterAddress shard ⟨a, false⟩ zeroAddress, Call.Master shard]

/-- The masters after node `A` has converged alone on four shards. -/
def masters4 : MasterMap := [(0, addrA), (1, addrA), (2, addrA), (3, addrA)]

/-- Scenario S2 when node `B` joins: `A` holds the four masters. -/
def s2Start : Store := (masters4, [])

/-- Scenario S2 at rest: `A` holds the four masters, `B` the four replicas. -/
def s2Final : Store :=
  (masters4, [(0, [(0, addrB)]), (1, [(0, addrB)]), (2, [(0, addrB)]), (3, [(0, addrB)])])

/-- The number of masters held by `node`. -/
def masterCount (node : String) (Masters : MasterMap) : Nat :=
  Masters.countP (fun e => e.2.Address == node)

/-- The number of replica slots held by `node`. -/
def replicaCount (node : String) (Replicas : ReplicaMap) : Nat :=
  (Replicas.map (fun e => e.2.countP (fun a => a.2.Address == node))).sum

/-- The assignments of scenario S2: the masters are those of `A` on the four
shards, and every replica slot listed is slot 0 of one of the four shards,
held by `B`. -/
def S2Inv (store : Store) : Prop :=
  WF store.1 store.2 ∧
  (∀ s a, (s, a) ∈ store.1 ↔ (0 ≤ s ∧ s < 4) ∧ a = addrA) ∧
  (∀ s l i a, (s, l) ∈ store.2 → (i, a) ∈ l → (0 ≤ s ∧ s < 4) ∧ i = 0 ∧ a = addrB)

/-- The open replica claim of `B` on `shard`, slot 0. -/
def replicaClaimB (shard : Int) : Call :=
  Call.ClaimReplicaAddress shard 0 addrB zeroAddress
/-- Every shard of scenario S2 has its replica slot 0 held by `B`. -/
def S2Full (store : Store) : Prop :=
  ∀ s, 0 ≤ s → s < 4 → ∃ l, (s, l) ∈ store.2 ∧ (0, addrB) ∈ l

/-- A snapshot in which a node with the empty id holds both masters
(`N = 2`, `R = 0`): the stored Address is the zero value `route.Address{}`. -/
def emptyIdMasters : MasterMap := [(0, zeroAddress), (1, zeroAddress)]

/-! ## Imbalance -/

/-- The node ids that occur in the snapshot, with repetitions. -/
def nodesOf (Masters : MasterMap) (Replicas : ReplicaMap) : List String :=
  Masters.map (fun e => e.2.Address) ++
    (Replicas.map (fun e => e.2.map (fun a => a.2.Address))).flatten

/-- The number of role entries of the snapshot, masters and replicas. -/
def totalRoles (Masters : MasterMap) (Replicas : ReplicaMap) : Nat :=
  Masters.length + (Replicas.map (fun e => e.2.length)).sum

/-- The imbalance of the snapshot: the sum, over the nodes that occur in it,
of the square of the number of roles of the node. -/
def imbalance (Masters : MasterMap) (Replicas : ReplicaMap) : Int :=
  ((nodesOf Masters Replicas).dedup.map (fun n => roleCount n Masters Replicas ^ 2)).sum

/-- One successful steal: some node, on some snapshot of the assignment `s` and
with some random choices, issues a steal in `findRole`, the CAS succeeds on `s`
(the CAS of the addresser as modelled by `casOK`), and `t` is the assignment
afterwards. -/
def StealStep (s t : Store) : Prop :=
  ∃ (r : roler) (rand : Rand) (Masters : MasterMap) (Replicas : ReplicaMap) (c : Call),
    IsSnapshot s Masters Replicas ∧ rand.Valid r Masters Replicas ∧
    c ∈ (r.findRole rand Masters Replicas).calls ∧ c.isSteal = true ∧ casOK s c = true ∧
    t = applyClaim c s.1 s.2

/-! ## Concurrent steals -/

/-- The normal address of node `D`. -/
def addrD : Address := ⟨"D", false⟩

/-- An assignment of four nodes, `N = 6`, `R = 0`: `A` is master of the shards
0, 1, 2 and `B`, `C`, `D` of one shard each. -/
def race0 : MasterMap :=
  [(0, addrA), (1, addrA), (2, addrA), (3, addrB), (4, addrC), (5, addrD)]

/-- The assignment `race0` after `C` has taken the master of shard 1 from `A`. -/
def race1 : MasterMap :=
  [(0, addrA), (1, addrC), (2, addrA), (3, addrB), (4, addrC), (5, addrD)]

/-- The assignment `race1` after `D` has taken the master of shard 2 from `A`. -/
def race2 : MasterMap :=
  [(0, addrA), (1, addrC), (2, addrD), (3, addrB), (4, addrC), (5, addrD)]

/-- The assignment `race2` after `B` has taken the master of shard 0 from `A`. -/
def race3 : MasterMap :=
  [(0, addrB), (1, addrC), (2, addrD), (3, addrB), (4, addrC), (5, addrD)]

/-- One successful steal whose snapshot may be out of date: some node, on some
snapshot of an assignment `s0` and with some random choices, issues a steal in
`findRole`; meanwhile the assignment has become `s`, the CAS succeeds on `s`
(it compares the targeted slot only, `casOK`), and `t` is the assignment
afterwards. `StealStep s t` is the case `s0 = s`. -/
def StealOn (s0 s t : Store) : Prop :=
  ∃ (r : roler) (rand : Rand) (Masters : MasterMap) (Replicas : ReplicaMap) (c : Call),
    IsSnapshot s0 Masters Replicas ∧ rand.Valid r Masters Replicas ∧
    c ∈ (r.findRole rand Masters Replicas).calls ∧ c.isSteal = true ∧ casOK s c = true ∧
    t = applyClaim c s.1 s.2

/-! ## Theorems -/

/-! ## Association lists -/

theorem lookup_eq_some_iff {κ ν : Type} [BEq κ] [LawfulBEq κ] {m : List (κ × ν)}
    (h : NodupKeys m) (k : κ) (v : ν) : m.lookup k = some v ↔ (k, v) ∈ m := by
  induction m with
  | nil => simp
  | cons e m ih =>
    obtain ⟨a, b⟩ := e
    have hnd : a ∉ m.map Prod.fst ∧ NodupKeys m := by
      simpa [NodupKeys] using h
    rw [List.lookup_cons]
    by_cases hk : k = a
    · subst hk
      simp only [beq_self_eq_true, List.mem_cons, Prod.mk.injEq, true_and, Option.some.injEq]
      constructor
      · intro hv; exact Or.inl hv.symm
      · rintro (hv | hv)
        · exact hv.symm
        · exact absurd (List.mem_map_of_mem Prod.fst hv) hnd.1
    · have hbeq : (k == a) = false := by simpa using hk
      simp only [hbeq, List.mem_cons, Prod.mk.injEq, hk, false_and, false_or]
      exact ih hnd.2

theorem lookup_eq_none_iff {κ ν : Type} [BEq κ] [LawfulBEq κ] (m : List (κ × ν)) (k : κ) :
    m.lookup k = none ↔ ∀ v, (k, v) ∉ m := by
  induction m with
  | nil => simp
  | cons e m ih =>
    obtain ⟨a, b⟩ := e
    rw [List.lookup_cons]
    by_cases hk : k = a
    · subst hk
      simp only [beq_self_eq_true, List.mem_cons, Prod.mk.injEq, true_and, not_or]
      constructor
      · intro h; cases h
      · intro h; exact absurd rfl (h b).1
    · have hbeq : (k == a) = false := by simpa using hk
      simp only [hbeq, List.mem_cons, Prod.mk.injEq, hk, false_and, false_or]
      exact ih

theorem hasRoleForShard_iff (r : roler) (shard : Int) {Masters : MasterMap}
    {Replicas : ReplicaMap} (hwf : WF Masters Replicas) :
    r.hasRoleForShard shard Masters Replicas = true ↔
      holdsRole r.localAddress shard Masters Replicas := by
  obtain ⟨hM, hR, _⟩ := hwf
  unfold roler.hasRoleForShard holdsRole isMasterOf isReplicaAt
  constructor
  · intro h
    cases hm : Masters.lookup shard with
    | some a =>
      by_cases ha : a.Address = r.localAddress
      · exact Or.inl ⟨a, (lookup_eq_some_iff hM _ _).1 hm, ha⟩
      · simp only [hm, beq_iff_eq, ha] at h
        cases hr : Replicas.lookup shard with
        | none => simp [hr] at h
        | some addresses =>
          simp only [hr, List.any_eq_true, beq_iff_eq] at h
          simp at h
          obtain ⟨i, a, hia, hal⟩ := h
          exact Or.inr ⟨i, addresses, a, (lookup_eq_some_iff hR _ _).1 hr, hia, hal⟩
    | none =>
      simp only [hm] at h
      cases hr : Replicas.lookup shard with
      | none => simp [hr] at h
      | some addresses =>
        simp only [hr, List.any_eq_true, beq_iff_eq] at h
        simp at h
        obtain ⟨i, a, hia, hal⟩ := h
        exact Or.inr ⟨i, addresses, a, (lookup_eq_some_iff hR _ _).1 hr, hia, hal⟩
  · rintro (⟨a, ha, hal⟩ | ⟨i, addresses, a, hs, hia, hal⟩)
    · rw [(lookup_eq_some_iff hM _ _).2 ha]
      simp [hal]
    · rw [(lookup_eq_some_iff hR _ _).2 hs]
      have : addresses.any (fun e => e.2.Address == r.localAddress) = true := by
        rw [List.any_eq_true]
        exact ⟨(i, a), hia, by simp [hal]⟩
      simp [this]

/-! ## The balance calculator -/

theorem getCount_incr (counts : Counts) (address node : String) :
    getCount (incr counts address) node =
      getCount counts node + (if address = node then 1 else 0) := by
  induction counts with
  | nil =>
    by_cases h : address = node
    · subst h; simp [incr, getCount, List.lookup_cons]
    · have : (node == address) = false := by simpa using fun h' => h h'.symm
      simp [incr, getCount, List.lookup_cons, h, this]
  | cons e rest ih =>
    obtain ⟨k, c⟩ := e
    unfold getCount at ih ⊢
    by_cases hk : k = address
    · subst hk
      by_cases hn : node = k
      · subst hn; simp [incr, List.lookup_cons]
      · have h1 : (node == k) = false := by simpa using hn
        have h2 : ¬ k = node := fun h => hn h.symm
        simp [incr, List.lookup_cons, h1, h2]
    · simp only [incr, hk, if_false, List.lookup_cons]
      by_cases hn : node = k
      · subst hn
        have h2 : ¬ address = node := fun h => hk h.symm
        simp [h2]
      · have h1 : (node == k) = false := by simpa using hn
        simp only [h1]
        exact ih

theorem keys_incr (counts : Counts) (address : String) :
    (incr counts address).map Prod.fst =
      if address ∈ counts.map Prod.fst then counts.map Prod.fst
      else counts.map Prod.fst ++ [address] := by
  induction counts with
  | nil => simp [incr]
  | cons e rest ih =>
    obtain ⟨k, c⟩ := e
    by_cases hk : k = address
    · subst hk; simp [incr]
    · have hk2 : ¬ address = k := fun h => hk h.symm
      simp only [incr, hk, if_false, List.map_cons, ih, List.mem_cons, hk2, false_or]
      split <;> simp

theorem countsOK_incr {counts : Counts} (h : CountsOK counts) (address : String) :
    CountsOK (incr counts address) := by
  constructor
  · unfold NodupKeys
    rw [keys_incr]
    split
    · exact h.1
    · next hmem =>
      have h1 : (counts.map Prod.fst).Nodup := h.1
      exact List.Nodup.append h1 (List.nodup_singleton _) (by
        intro x hx hx2
        simp only [List.mem_singleton] at hx2
        subst hx2
        exact hmem hx)
  · have hpos := h.2
    clear h
    induction counts with
    | nil => intro e he; simp [incr] at he; subst he; exact Int.one_pos
    | cons e rest ih =>
      obtain ⟨k, c⟩ := e
      intro x hx
      have hc : 0 < c := hpos (k, c) (List.mem_cons_self _ _)
      have hrest : ∀ e ∈ rest, 0 < e.2 := fun e he => hpos e (List.mem_cons_of_mem _ he)
      by_cases hk : k = address
      · simp only [incr, hk, if_true, List.mem_cons] at hx
        rcases hx with hx | hx
        · subst hx; show 0 < c + 1; omega
        · exact hrest x hx
      · simp only [incr, hk, if_false, List.mem_cons] at hx
        rcases hx with hx | hx
        · subst hx; exact hc
        · exact ih hrest x hx

theorem countsOK_nil : CountsOK [] := by
  constructor
  · simp [NodupKeys]
  · intro e he; cases he

theorem getCount_foldl_incr {α : Type} (f : α → String) (l : List α) (out : Counts)
    (node : String) :
    getCount (l.foldl (fun out e => incr out (f e)) out) node =
      getCount out node + ((l.countP (fun e => f e == node) : Nat) : Int) := by
  induction l generalizing out with
  | nil => simp
  | cons e l ih =>
    rw [List.foldl_cons, ih, getCount_incr, List.countP_cons]
    by_cases h : f e = node
    · simp [h]; ring
    · simp [h]

theorem countsOK_foldl_incr {α : Type} (f : α → String) (l : List α) {out : Counts}
    (h : CountsOK out) : CountsOK (l.foldl (fun out e => incr out (f e)) out) := by
  induction l generalizing out with
  | nil => exact h
  | cons e l ih => exact ih (countsOK_incr h _)

theorem getCount_masterCounts (r : roler) (Masters : MasterMap) (out : Counts)
    (node : String) :
    getCount (r.masterCounts Masters out) node =
      getCount out node + ((Masters.countP (fun e => e.2.Address == node) : Nat) : Int) :=
  getCount_foldl_incr (fun e : Int × Address => e.2.Address) Masters out node

theorem getCount_replicaCounts (r : roler) (Replicas : ReplicaMap) (out : Counts)
    (node : String) :
    getCount (r.replicaCounts Replicas out) node =
      getCount out node +
        (((Replicas.map (fun e => e.2.countP (fun a => a.2.Address == node))).sum : Nat) :
          Int) := by
  unfold roler.replicaCounts
  induction Replicas generalizing out with
  | nil => simp
  | cons e l ih =>
    rw [List.foldl_cons, ih,
      getCount_foldl_incr (fun a : Int × Address => a.2.Address) e.2 out node]
    simp only [List.map_cons, List.sum_cons, Nat.cast_add]
    ring

theorem countsOK_counts (r : roler) (Masters : MasterMap) (Replicas : ReplicaMap) :
    CountsOK (r.counts Masters Replicas) := by
  unfold roler.counts roler.replicaCounts roler.masterCounts
  have h0 : CountsOK (Masters.foldl (fun out e => incr out e.2.Address) []) :=
    countsOK_foldl_incr (fun e : Int × Address => e.2.Address) Masters countsOK_nil
  generalize Masters.foldl (fun out e => incr out e.2.Address) [] = out at h0
  induction Replicas generalizing out with
  | nil => exact h0
  | cons e l ih =>
    rw [List.foldl_cons]
    exact ih _ (countsOK_foldl_incr (fun a : Int × Address => a.2.Address) e.2 h0)

/-- The entry of `counts` for a node is its number of roles (the read
`counts[node]` gives 0 for a node without role). -/
theorem getCount_counts (r : roler) (Masters : MasterMap) (Replicas : ReplicaMap)
    (node : String) :
    getCount (r.counts Masters Replicas) node = roleCount node Masters Replicas := by
  unfold roler.counts
  rw [getCount_replicaCounts, getCount_masterCounts]
  simp [getCount, roleCount]

/-- The entries of `counts` are the nodes with at least one role, each with
its number of roles. -/
theorem mem_counts_iff (r : roler) (Masters : MasterMap) (Replicas : ReplicaMap)
    (node : String) (c : Int) :
    (node, c) ∈ r.counts Masters Replicas ↔
      c = roleCount node Masters Replicas ∧ 0 < roleCount node Masters Replicas := by
  have hok := countsOK_counts r Masters Replicas
  have hget := getCount_counts r Masters Replicas node
  constructor
  · intro hmem
    have hl := (lookup_eq_some_iff hok.1 node c).2 hmem
    have hc : c = roleCount node Masters Replicas := by
      rw [← hget]; simp [getCount, hl]
    exact ⟨hc, hc ▸ hok.2 _ hmem⟩
  · rintro ⟨hc, hpos⟩
    cases hl : (r.counts Masters Replicas).lookup node with
    | none =>
      rw [← hget] at hpos
      simp [getCount, hl] at hpos
    | some c2 =>
      have : c2 = roleCount node Masters Replicas := by
        rw [← hget]; simp [getCount, hl]
      rw [hc, ← this]
      exact (lookup_eq_some_iff hok.1 node c2).1 hl

theorem roleCount_nonneg (node : String) (Masters : MasterMap) (Replicas : ReplicaMap) :
    0 ≤ roleCount node Masters Replicas := by
  unfold roleCount; omega

theorem minCount_foldl (l : Counts) (acc : String × Int) :
    let res := l.foldl (fun acc e => if e.2 < acc.2 then (e.1, e.2) else acc) acc
    res.2 ≤ acc.2 ∧ (∀ e ∈ l, res.2 ≤ e.2) ∧ (res = acc ∨ res ∈ l) := by
  induction l generalizing acc with
  | nil => simp
  | cons e l ih =>
    simp only [List.foldl_cons]
    by_cases h : e.2 < acc.2
    · obtain ⟨h1, h2, h3⟩ := ih (e.1, e.2)
      simp only [h, if_true]
      refine ⟨by simp only at h1; omega, ?_, ?_⟩
      · intro x hx
        rcases List.mem_cons.1 hx with hx | hx
        · subst hx; exact h1
        · exact h2 x hx
      · rcases h3 with h3 | h3
        · exact Or.inr (by rw [h3]; exact List.mem_cons_self _ _)
        · exact Or.inr (List.mem_cons_of_mem _ h3)
    · obtain ⟨h1, h2, h3⟩ := ih acc
      simp only [h, if_false]
      refine ⟨h1, ?_, ?_⟩
      · intro x hx
        rcases List.mem_cons.1 hx with hx | hx
        · subst hx; omega
        · exact h2 x hx
      · rcases h3 with h3 | h3
        · exact Or.inl h3
        · exact Or.inr (List.mem_cons_of_mem _ h3)

theorem maxCount_foldl (l : Counts) (acc : String × Int) :
    let res := l.foldl (fun acc e => if e.2 > acc.2 then (e.1, e.2) else acc) acc
    acc.2 ≤ res.2 ∧ (∀ e ∈ l, e.2 ≤ res.2) ∧ (res = acc ∨ res ∈ l) := by
  induction l generalizing acc with
  | nil => simp
  | cons e l ih =>
    simp only [List.foldl_cons]
    by_cases h : e.2 > acc.2
    · obtain ⟨h1, h2, h3⟩ := ih (e.1, e.2)
      simp only [h, if_true]
      refine ⟨by simp only at h1; omega, ?_, ?_⟩
      · intro x hx
        rcases List.mem_cons.1 hx with hx | hx
        · subst hx; exact h1
        · exact h2 x hx
      · rcases h3 with h3 | h3
        · exact Or.inr (by rw [h3]; exact List.mem_cons_self _ _)
        · exact Or.inr (List.mem_cons_of_mem _ h3)
    · obtain ⟨h1, h2, h3⟩ := ih acc
      simp only [h, if_false]
      refine ⟨h1, ?_, ?_⟩
      · intro x hx
        rcases List.mem_cons.1 hx with hx | hx
        · subst hx; omega
        · exact h2 x hx
      · rcases h3 with h3 | h3
        · exact Or.inl h3
        · exact Or.inr (List.mem_cons_of_mem _ h3)

/-- The count returned by `minCount` over `counts`, in any order of the
`range`, is below the number of roles of every node that has a role. -/
theorem minCount_le_roleCount (r : roler) {Masters : MasterMap} {Replicas : ReplicaMap}
    {order : Counts} (hperm : order.Perm (r.counts Masters Replicas)) (node : String)
    (hnode : 0 < roleCount node Masters Replicas) :
    (r.minCount order).2 ≤ roleCount node Masters Replicas := by
  have hmem : (node, roleCount node Masters Replicas) ∈ order :=
    hperm.mem_iff.2 ((mem_counts_iff r Masters Replicas node _).2 ⟨rfl, hnode⟩)
  exact (minCount_foldl order ("", MaxInt64)).2.1 _ hmem

/-- The count returned by `minCount` is `math.MaxInt64` or the number of
roles of a node that has a role. -/
theorem minCount_eq (r : roler) {Masters : MasterMap} {Replicas : ReplicaMap}
    {order : Counts} (hperm : order.Perm (r.counts Masters Replicas)) :
    (r.minCount order).2 = MaxInt64 ∨
      ∃ node, 0 < roleCount node Masters Replicas ∧
        (r.minCount order).2 = roleCount node Masters Replicas := by
  rcases (minCount_foldl order ("", MaxInt64)).2.2 with h | h
  · left; unfold roler.minCount; rw [h]
  · right
    have hmem := hperm.mem_iff.1 h
    obtain ⟨h1, h2⟩ := (mem_counts_iff r Masters Replicas _ _).1 hmem
    exact ⟨_, h2, h1⟩

/-- The count returned by `maxCount` over `counts`, in any order of the
`range`, is above the number of roles of every node. -/
theorem roleCount_le_maxCount (r : roler) {Masters : MasterMap} {Replicas : ReplicaMap}
    {order : Counts} (hperm : order.Perm (r.counts Masters Replicas)) (node : String) :
    roleCount node Masters Replicas ≤ (r.maxCount order).2 := by
  have h := maxCount_foldl order ("", 0)
  by_cases hnode : 0 < roleCount node Masters Replicas
  · have hmem : (node, roleCount node Masters Replicas) ∈ order :=
      hperm.mem_iff.2 ((mem_counts_iff r Masters Replicas node _).2 ⟨rfl, hnode⟩)
    exact h.2.1 _ hmem
  · have := h.1
    unfold roler.maxCount
    simp only at this
    omega

/-- When `maxCount` returns a positive count, the address it returns is a
node with that number of roles. -/
theorem maxCount_eq (r : roler) {Masters : MasterMap} {Replicas : ReplicaMap}
    {order : Counts} (hperm : order.Perm (r.counts Masters Replicas))
    (hpos : 0 < (r.maxCount order).2) :
    roleCount (r.maxCount order).1 Masters Replicas = (r.maxCount order).2 := by
  rcases (maxCount_foldl order ("", 0)).2.2 with h | h
  · unfold roler.maxCount at hpos
    rw [h] at hpos
    exact absurd hpos (by decide)
  · have hmem := hperm.mem_iff.1 h
    exact ((mem_counts_iff r Masters Replicas _ _).1 hmem).1.symm

/-! ## The branches of `findRole` -/

/-- The path `findRole` takes, read off its text: one case for each `return`. -/
theorem findRole_cases (r : roler) (rand : Rand) (Masters : MasterMap)
    (Replicas : ReplicaMap) :
    (r.yields rand Masters Replicas ∧ r.findRole rand Masters Replicas = noop) ∨
    (¬ r.yields rand Masters Replicas ∧ ∃ shard,
      r.openMasterRole rand.permMaster Masters Replicas = (shard, true) ∧
      r.findRole rand Masters Replicas = r.beMaster shard zeroAddress) ∨
    (¬ r.yields rand Masters Replicas ∧
      (r.openMasterRole rand.permMaster Masters Replicas).2 = false ∧ ∃ shard index,
      r.openReplicaRole rand.permShard rand.permIndex Masters Replicas =
        (shard, index, true) ∧
      r.findRole rand Masters Replicas = r.beReplica shard index zeroAddress) ∨
    (¬ r.yields rand Masters Replicas ∧
      (r.openMasterRole rand.permMaster Masters Replicas).2 = false ∧
      (r.openReplicaRole rand.permShard rand.permIndex Masters Replicas).2.2 = false ∧
      ¬ r.gap rand Masters Replicas ∧ r.findRole rand Masters Replicas = noop) ∨
    (¬ r.yields rand Masters Replicas ∧
      (r.openMasterRole rand.permMaster Masters Replicas).2 = false ∧
      (r.openReplicaRole rand.permShard rand.permIndex Masters Replicas).2.2 = false ∧
      r.gap rand Masters Replicas ∧ ∃ prevAddress shard index,
      r.randomReplicaRole (r.maxAddress rand Masters Replicas) Masters Replicas =
        (prevAddress, shard, index, true) ∧
      r.findRole rand Masters Replicas = r.beReplica shard index prevAddress) ∨
    (¬ r.yields rand Masters Replicas ∧
      (r.openMasterRole rand.permMaster Masters Replicas).2 = false ∧
      (r.openReplicaRole rand.permShard rand.permIndex Masters Replicas).2.2 = false ∧
      r.gap rand Masters Replicas ∧
      (r.randomReplicaRole (r.maxAddress rand Masters Replicas) Masters Replicas).2.2.2 =
        false ∧ ∃ prevAddress shard,
      r.randomMasterRole (r.maxAddress rand Masters Replicas) Masters Replicas =
        (prevAddress, shard, true) ∧
      r.findRole rand Masters Replicas = r.beMaster shard prevAddress) ∨
    (¬ r.yields rand Masters Replicas ∧
      (r.openMasterRole rand.permMaster Masters Replicas).2 = false ∧
      (r.openReplicaRole rand.permShard rand.permIndex Masters Replicas).2.2 = false ∧
      r.gap rand Masters Replicas ∧
      (r.randomReplicaRole (r.maxAddress rand Masters Replicas) Masters Replicas).2.2.2 =
        false ∧
      (r.randomMasterRole (r.maxAddress rand Masters Replicas) Masters Replicas).2.2 =
        false ∧
      r.findRole rand Masters Replicas = logicError) := by
  unfold roler.findRole roler.yields roler.gap roler.maxAddress noop logicError
  simp only
  by_cases hy : getCount (r.counts Masters Replicas) r.localAddress >
      (r.minCount (rand.rangeMin (r.counts Masters Replicas))).2
  · left; exact ⟨hy, by rw [if_pos hy]⟩
  · right
    rw [if_neg hy]
    rcases hom : r.openMasterRole rand.permMaster Masters Replicas with ⟨s, _ | _⟩
    · right
      rcases hor : r.openReplicaRole rand.permShard rand.permIndex Masters Replicas with
        ⟨s2, i2, _ | _⟩
      · right
        by_cases hg : getCount (r.counts Masters Replicas) r.localAddress + 1 ≤
            (r.maxCount (rand.rangeMax (r.counts Masters Replicas))).2 - 1
        · right
          simp only [if_pos hg]
          rcases hrr : r.randomReplicaRole
              (r.maxCount (rand.rangeMax (r.counts Masters Replicas))).1 Masters Replicas with
            ⟨p, s3, i3, _ | _⟩
          · right
            rcases hrm : r.randomMasterRole
                (r.maxCount (rand.rangeMax (r.counts Masters Replicas))).1 Masters
                Replicas with ⟨p4, s4, _ | _⟩
            · right; exact ⟨hy, by simp, by simp, hg, by simp, by simp, by simp⟩
            · left; exact ⟨hy, by simp, by simp, hg, by simp, p4, s4, by simp⟩
          · left; exact ⟨hy, by simp, by simp, hg, p, s3, i3, by simp⟩
        · left; simp only [if_neg hg]; exact ⟨hy, by simp, by simp, hg, by simp⟩
      · left; exact ⟨hy, by simp, s2, i2, by simp⟩
    · left; exact ⟨hy, by simp⟩

/-! ## The searches -/

theorem mem_intRange (n : Nat) (s : Int) : s ∈ intRange n ↔ 0 ≤ s ∧ s < (n : Int) := by
  unfold intRange
  simp only [List.mem_map, List.mem_range]
  constructor
  · rintro ⟨k, hk, rfl⟩
    exact ⟨by omega, by omega⟩
  · rintro ⟨h0, hn⟩
    refine ⟨s.toNat, ?_, ?_⟩
    · omega
    · omega

theorem nodup_intRange (n : Nat) : (intRange n).Nodup := by
  unfold intRange
  exact (List.nodup_range n).map (fun a b h => by simpa using h)

theorem length_intRange (n : Nat) : (intRange n).length = n := by
  simp [intRange]

theorem hasRoleForShard_eq_false_iff (r : roler) (shard : Int) {Masters : MasterMap}
    {Replicas : ReplicaMap} (hwf : WF Masters Replicas) :
    r.hasRoleForShard shard Masters Replicas = false ↔
      ¬ holdsRole r.localAddress shard Masters Replicas := by
  rw [← hasRoleForShard_iff r shard hwf]
  simp

theorem openMasterRole_true (r : roler) (perm : List Int) (Masters : MasterMap)
    (Replicas : ReplicaMap) (shard : Int)
    (h : r.openMasterRole perm Masters Replicas = (shard, true)) :
    shard ∈ perm ∧ Masters.lookup shard = none ∧
      r.hasRoleForShard shard Masters Replicas = false := by
  unfold roler.openMasterRole at h
  split at h
  · next i hi =>
    have hs : i = shard := by simpa using congrArg Prod.fst h
    subst hs
    have h1 := List.find?_some hi
    have h2 := List.mem_of_find?_eq_some hi
    simp only [Bool.and_eq_true, Option.isNone_iff_eq_none, Bool.not_eq_true'] at h1
    exact ⟨h2, h1.1, h1.2⟩
  · simp at h

theorem openMasterRole_false (r : roler) (perm : List Int) (Masters : MasterMap)
    (Replicas : ReplicaMap) (h : (r.openMasterRole perm Masters Replicas).2 = false) :
    ∀ shard ∈ perm, ¬ (Masters.lookup shard = none ∧
      r.hasRoleForShard shard Masters Replicas = false) := by
  unfold roler.openMasterRole at h
  split at h
  · simp at h
  · next hnone =>
    intro shard hs hc
    have := List.find?_eq_none.1 hnone shard hs
    simp [hc.1, hc.2] at this

theorem openMasterRole_snd (r : roler) (perm : List Int) (Masters : MasterMap)
    (Replicas : ReplicaMap) :
    (r.openMasterRole perm Masters Replicas).2 = false ∨
      r.openMasterRole perm Masters Replicas =
        ((r.openMasterRole perm Masters Replicas).1, true) := by
  unfold roler.openMasterRole
  split <;> simp

theorem openMaster_iff (r : roler) (shard : Int) {Masters : MasterMap}
    {Replicas : ReplicaMap} (hwf : WF Masters Replicas) {perm : List Int}
    (hperm : perm.Perm (intRange r.sharder)) :
    OpenMaster r shard Masters Replicas ↔
      shard ∈ perm ∧ Masters.lookup shard = none ∧
        r.hasRoleForShard shard Masters Replicas = false := by
  unfold OpenMaster
  rw [hperm.mem_iff, mem_intRange, lookup_eq_none_iff, hasRoleForShard_eq_false_iff r shard hwf]

theorem pigeonhole_index (addresses : List (Int × Address)) (perm : List Int) (n : Nat)
    (hperm : perm.Perm (intRange n)) (hlen : addresses.length < n) :
    ∃ index ∈ perm, addresses.lookup index = none := by
  by_contra hcon
  have hsub : perm ⊆ addresses.map Prod.fst := by
    intro i hi
    have hne : addresses.lookup i ≠ none := fun h => hcon ⟨i, hi, h⟩
    rw [Ne, lookup_eq_none_iff] at hne
    push_neg at hne
    obtain ⟨v, hv⟩ := hne
    exact List.mem_map_of_mem Prod.fst hv
  have hnd : perm.Nodup := hperm.nodup_iff.2 (nodup_intRange n)
  have hle := (List.subperm_of_subset hnd hsub).length_le
  rw [hperm.length_eq, length_intRange, List.length_map] at hle
  omega

theorem openReplicaRole_true (r : roler) (permShard : List Int) (permIndex : Int → List Int)
    (Masters : MasterMap) (Replicas : ReplicaMap) (shard index : Int)
    (h : r.openReplicaRole permShard permIndex Masters Replicas = (shard, index, true)) :
    shard ∈ permShard ∧ ((replicasOf Replicas shard).length : Int) < r.numReplicas ∧
      r.hasRoleForShard shard Masters Replicas = false ∧ index ∈ permIndex shard ∧
      (replicasOf Replicas shard).lookup index = none := by
  unfold roler.openReplicaRole at h
  split at h
  · next s i hsome =>
    have hs : s = shard := by simpa using congrArg Prod.fst h
    have hi : i = index := by simpa using congrArg (fun x => x.2.1) h
    subst hs; subst hi
    obtain ⟨s2, hs2, hf⟩ := List.exists_of_findSome?_eq_some hsome
    simp only at hf
    split at hf
    · next hcond =>
      simp only [Option.map_eq_some'] at hf
      obtain ⟨i2, hfind, heq⟩ := hf
      simp only [Prod.mk.injEq] at heq
      obtain ⟨rfl, rfl⟩ := heq
      simp only [Bool.and_eq_true, decide_eq_true_eq, Bool.not_eq_true'] at hcond
      have h1 := List.find?_some hfind
      have h2 := List.mem_of_find?_eq_some hfind
      simp only [Option.isNone_iff_eq_none] at h1
      exact ⟨hs2, hcond.1, hcond.2, h2, h1⟩
    · cases hf
  · simp at h

theorem openReplicaRole_false (r : roler) (permShard : List Int) (permIndex : Int → List Int)
    (Masters : MasterMap) (Replicas : ReplicaMap)
    (hidx : ∀ shard, (permIndex shard).Perm (intRange r.numReplicas.toNat))
    (h : (r.openReplicaRole permShard permIndex Masters Replicas).2.2 = false) :
    ∀ shard ∈ permShard, ¬ (((replicasOf Replicas shard).length : Int) < r.numReplicas ∧
      r.hasRoleForShard shard Masters Replicas = false) := by
  unfold roler.openReplicaRole at h
  split at h
  · simp at h
  · next hnone =>
    intro shard hs hc
    have hn := List.findSome?_eq_none_iff.1 hnone shard hs
    have hcond : (decide (((Replicas.lookup shard).getD []).length < r.numReplicas)
        && !r.hasRoleForShard shard Masters Replicas) = true := by
      have h1 := hc.1
      unfold replicasOf at h1
      simp [h1, hc.2]
    simp only [hcond, if_true, Option.map_eq_none'] at hn
    have hlen : ((Replicas.lookup shard).getD []).length < r.numReplicas.toNat := by
      have h1 := hc.1
      unfold replicasOf at h1
      omega
    obtain ⟨i, hi, hl⟩ := pigeonhole_index _ _ _ (hidx shard) hlen
    have := List.find?_eq_none.1 hn i hi
    simp [hl] at this

theorem openReplicaRole_snd (r : roler) (permShard : List Int) (permIndex : Int → List Int)
    (Masters : MasterMap) (Replicas : ReplicaMap) :
    (r.openReplicaRole permShard permIndex Masters Replicas).2.2 = false ∨
      r.openReplicaRole permShard permIndex Masters Replicas =
        ((r.openReplicaRole permShard permIndex Masters Replicas).1,
          (r.openReplicaRole permShard permIndex Masters Replicas).2.1, true) := by
  unfold roler.openReplicaRole
  split <;> simp

theorem openReplica_iff (r : roler) (shard : Int) {Masters : MasterMap}
    {Replicas : ReplicaMap} (hwf : WF Masters Replicas) {perm : List Int}
    (hperm : perm.Perm (intRange r.sharder)) :
    OpenReplica r shard Masters Replicas ↔
      shard ∈ perm ∧ ((replicasOf Replicas shard).length : Int) < r.numReplicas ∧
        r.hasRoleForShard shard Masters Replicas = false := by
  unfold OpenReplica
  rw [hperm.mem_iff, mem_intRange, hasRoleForShard_eq_false_iff r shard hwf]

theorem randomMasterRole_true (r : roler) (maxAddress : String) (Masters : MasterMap)
    (Replicas : ReplicaMap) (prevAddress : Address) (shard : Int)
    (h : r.randomMasterRole maxAddress Masters Replicas = (prevAddress, shard, true)) :
    (shard, prevAddress) ∈ Masters ∧ prevAddress.Address = maxAddress ∧
      r.hasRoleForShard shard Masters Replicas = false := by
  unfold roler.randomMasterRole at h
  split at h
  · next s a hfind =>
    simp only [Prod.mk.injEq, and_true] at h
    obtain ⟨rfl, rfl⟩ := h
    have h1 := List.find?_some hfind
    have h2 := List.mem_of_find?_eq_some hfind
    simp only [Bool.and_eq_true, beq_iff_eq, Bool.not_eq_true'] at h1
    exact ⟨h2, h1.1, h1.2⟩
  · simp at h

theorem randomMasterRole_false (r : roler) (maxAddress : String) (Masters : MasterMap)
    (Replicas : ReplicaMap)
    (h : (r.randomMasterRole maxAddress Masters Replicas).2.2 = false) :
    ∀ shard a, (shard, a) ∈ Masters → ¬ (a.Address = maxAddress ∧
      r.hasRoleForShard shard Masters Replicas = false) := by
  unfold roler.randomMasterRole at h
  split at h
  · simp at h
  · next hnone =>
    intro shard a hmem hc
    have := List.find?_eq_none.1 hnone (shard, a) hmem
    simp [hc.1, hc.2] at this

theorem randomReplicaRole_true (r : roler) (maxAddress : String) (Masters : MasterMap)
    (Replicas : ReplicaMap) (prevAddress : Address) (shard index : Int)
    (h : r.randomReplicaRole maxAddress Masters Replicas =
      (prevAddress, shard, index, true)) :
    (∃ addresses, (shard, addresses) ∈ Replicas ∧ (index, prevAddress) ∈ addresses) ∧
      prevAddress.Address = maxAddress ∧
      r.hasRoleForShard shard Masters Replicas = false := by
  unfold roler.randomReplicaRole at h
  split at h
  · next a s i hsome =>
    simp only [Prod.mk.injEq, and_true] at h
    obtain ⟨rfl, rfl, rfl⟩ := h
    obtain ⟨e, he, hf⟩ := List.exists_of_findSome?_eq_some hsome
    simp only [Option.map_eq_some'] at hf
    obtain ⟨x, hfind, heq⟩ := hf
    simp only [Prod.mk.injEq] at heq
    obtain ⟨rfl, rfl, rfl⟩ := heq
    have h1 := List.find?_some hfind
    have h2 := List.mem_of_find?_eq_some hfind
    simp only [Bool.and_eq_true, beq_iff_eq, Bool.not_eq_true'] at h1
    exact ⟨⟨e.2, he, h2⟩, h1.1, h1.2⟩
  · simp at h

theorem randomReplicaRole_false (r : roler) (maxAddress : String) (Masters : MasterMap)
    (Replicas : ReplicaMap)
    (h : (r.randomReplicaRole maxAddress Masters Replicas).2.2.2 = false) :
    ∀ shard addresses index a, (shard, addresses) ∈ Replicas → (index, a) ∈ addresses →
      ¬ (a.Address = maxAddress ∧ r.hasRoleForShard shard Masters Replicas = false) := by
  unfold roler.randomReplicaRole at h
  split at h
  · simp at h
  · next hnone =>
    intro shard addresses index a hmem hia hc
    have hn := List.findSome?_eq_none_iff.1 hnone (shard, addresses) hmem
    simp only [Option.map_eq_none'] at hn
    have := List.find?_eq_none.1 hn (index, a) hia
    simp [hc.1, hc.2] at this

/-! ## The fairness gate -/

/-- The test of the fairness gate fails exactly when the gate passes. -/
theorem not_yields_iff (r : roler) (rand : Rand) (Masters : MasterMap)
    (Replicas : ReplicaMap) (hv : rand.Valid r Masters Replicas) :
    ¬ r.yields rand Masters Replicas ↔ passesGate r Masters Replicas := by
  obtain ⟨_, _, _, hmin, _⟩ := hv
  unfold roler.yields passesGate
  rw [getCount_counts]
  constructor
  · intro h
    have hle : (r.minCount (rand.rangeMin (r.counts Masters Replicas))).2 ≤ MaxInt64 :=
      (minCount_foldl (rand.rangeMin (r.counts Masters Replicas)) ("", MaxInt64)).1
    refine ⟨by omega, fun node hnode => ?_⟩
    have := minCount_le_roleCount r hmin node hnode
    omega
  · rintro ⟨hfit, hall⟩
    rcases minCount_eq r hmin with h | ⟨node, hnode, h⟩
    · omega
    · have := hall node hnode
      omega

/-- The choices `idRand N R` are legal for the fixture roler on every snapshot. -/
theorem idRand_valid (localAddress : String) (N R : Nat) (Masters : MasterMap)
    (Replicas : ReplicaMap) :
    (idRand N R).Valid (mkRoler localAddress N R) Masters Replicas :=
  ⟨List.Perm.refl _, List.Perm.refl _, fun _ => by simp [mkRoler, idRand],
    List.Perm.refl _, List.Perm.refl _⟩

/-- C1 (fairness gate): on every snapshot and for every local address and
every random choice, if some node that appears in the snapshot holds strictly
fewer roles than the local node, then `findRole` returns `(0, nil)`, makes no
call on the addresser or on the server, and starts no worker. -/
theorem findRole_fairness_gate (r : roler) (rand : Rand) (Masters : MasterMap)
    (Replicas : ReplicaMap) (hv : rand.Valid r Masters Replicas) (node : String)
    (hnode : 0 < roleCount node Masters Replicas)
    (hlt : roleCount node Masters Replicas < roleCount r.localAddress Masters Replicas) :
    r.findRole rand Masters Replicas = ⟨0, none, [], []⟩ := by
  rcases findRole_cases r rand Masters Replicas with h | h | h | h | h | h | h
  · exact h.2
  all_goals
    exfalso
    have hg := (not_yields_iff r rand Masters Replicas hv).1 h.1
    have := hg.2 node hnode
    omega

/-- C1 at a concrete snapshot: masters `0:A, 1:A, 2:B`, local node `A`; node
`B` has one role, `A` has two, and `A` yields. -/
theorem findRole_fairness_gate_witness :
    0 < roleCount "B" [(0, addrA), (1, addrA), (2, addrB)] [] ∧
    roleCount "B" [(0, addrA), (1, addrA), (2, addrB)] [] <
      roleCount (mkRoler "A" 3 0).localAddress [(0, addrA), (1, addrA), (2, addrB)] [] ∧
    (mkRoler "A" 3 0).findRole (idRand 3 0) [(0, addrA), (1, addrA), (2, addrB)] [] =
      ⟨0, none, [], []⟩ :=
  ⟨by decide, by decide,
    findRole_fairness_gate (mkRoler "A" 3 0) (idRand 3 0) [(0, addrA), (1, addrA), (2, addrB)]
      [] (idRand_valid "A" 3 0 _ _) "B" (by decide) (by decide)⟩

/-! ## The gap guard -/

theorem mem_beMaster_calls (r : roler) (shard : Int) (prevAddress : Address) (c : Call)
    (h : c ∈ (r.beMaster shard prevAddress).calls) :
    c = Call.ClaimMasterAddress shard r.localNormalAddress prevAddress ∨
      c = Call.Master shard := by
  unfold roler.beMaster at h
  simp only at h
  split at h
  · left; simpa using h
  · split at h <;> simpa using h

theorem mem_beReplica_calls (r : roler) (shard index : Int) (prevAddress : Address)
    (c : Call) (h : c ∈ (r.beReplica shard index prevAddress).calls) :
    c = Call.ClaimReplicaAddress shard index r.localNormalAddress prevAddress ∨
      c = Call.Replica shard := by
  unfold roler.beReplica at h
  simp only at h
  split at h
  · left; simpa using h
  · split at h <;> simpa using h

/-- When the gap test of `findRole` succeeds, the address returned by
`maxCount` is a node with the largest number of roles, and the local node has
at least two roles fewer. -/
theorem gap_spec (r : roler) (rand : Rand) (Masters : MasterMap) (Replicas : ReplicaMap)
    (hv : rand.Valid r Masters Replicas) (hg : r.gap rand Masters Replicas) :
    (∀ node, roleCount node Masters Replicas ≤
      roleCount (r.maxAddress rand Masters Replicas) Masters Replicas) ∧
    roleCount r.localAddress Masters Replicas + 1 ≤
      roleCount (r.maxAddress rand Masters Replicas) Masters Replicas - 1 := by
  obtain ⟨_, _, _, _, hmax⟩ := hv
  unfold roler.gap at hg
  rw [getCount_counts] at hg
  have h0 := roleCount_nonneg r.localAddress Masters Replicas
  have heq := maxCount_eq r hmax (by omega)
  unfold roler.maxAddress
  rw [heq]
  exact ⟨fun node => roleCount_le_maxCount r hmax node, hg⟩

/-- The gap test of `findRole` fails exactly when no node has two roles more
than the local node. -/
theorem not_gap_iff (r : roler) (rand : Rand) (Masters : MasterMap) (Replicas : ReplicaMap)
    (hv : rand.Valid r Masters Replicas) :
    ¬ r.gap rand Masters Replicas ↔
      ∀ node, roleCount node Masters Replicas - 1 <
        roleCount r.localAddress Masters Replicas + 1 := by
  constructor
  · intro hg node
    have hmax := hv.2.2.2.2
    have h1 := roleCount_le_maxCount r hmax node
    unfold roler.gap at hg
    rw [getCount_counts] at hg
    omega
  · intro hall hg
    have h := (gap_spec r rand Masters Replicas hv hg).2
    have := hall (r.maxAddress rand Masters Replicas)
    omega

/-- C2 (gap guard): on every snapshot, a steal (a claim call whose
previous-address witness is not the zero Address) is issued by `findRole` only
if `counts[me] + 1 <= max(counts) - 1`, the maximum being the number of roles
of a node `hi` that no node exceeds; and when the fairness gate passes, no
open master or replica slot is available to the local node and
`counts[me] + 1 > max(counts) - 1`, `findRole` returns `(0, nil)` without any
call. -/
theorem findRole_gap_guard (r : roler) (rand : Rand) (Masters : MasterMap)
    (Replicas : ReplicaMap) (hwf : WF Masters Replicas)
    (hv : rand.Valid r Masters Replicas) :
    (∀ c ∈ (r.findRole rand Masters Replicas).calls, c.isSteal = true →
      ∃ hi, (∀ node, roleCount node Masters Replicas ≤ roleCount hi Masters Replicas) ∧
        roleCount r.localAddress Masters Replicas + 1 ≤
          roleCount hi Masters Replicas - 1) ∧
    (passesGate r Masters Replicas →
      (∀ shard, ¬ OpenMaster r shard Masters Replicas) →
      (∀ shard, ¬ OpenReplica r shard Masters Replicas) →
      (∀ node, roleCount node Masters Replicas - 1 <
        roleCount r.localAddress Masters Replicas + 1) →
      r.findRole rand Masters Replicas = ⟨0, none, [], []⟩) := by
  have hzero : (zeroAddress != zeroAddress) = false := by decide
  constructor
  · intro c hc hsteal
    rcases findRole_cases r rand Masters Replicas with h | h | h | h | h | h | h
    · rw [h.2] at hc; cases hc
    · obtain ⟨_, shard, _, heq⟩ := h
      rw [heq] at hc
      rcases mem_beMaster_calls r _ _ c hc with rfl | rfl
      · simp [Call.isSteal, hzero] at hsteal
      · simp [Call.isSteal] at hsteal
    · obtain ⟨_, _, shard, index, _, heq⟩ := h
      rw [heq] at hc
      rcases mem_beReplica_calls r _ _ _ c hc with rfl | rfl
      · simp [Call.isSteal, hzero] at hsteal
      · simp [Call.isSteal] at hsteal
    · rw [h.2.2.2.2] at hc; cases hc
    · exact ⟨_, gap_spec r rand Masters Replicas hv h.2.2.2.1⟩
    · exact ⟨_, gap_spec r rand Masters Replicas hv h.2.2.2.1⟩
    · exact ⟨_, gap_spec r rand Masters Replicas hv h.2.2.2.1⟩
  · intro hgate hom hor hngap
    have hny := (not_yields_iff r rand Masters Replicas hv).2 hgate
    have hng := (not_gap_iff r rand Masters Replicas hv).2 hngap
    rcases findRole_cases r rand Masters Replicas with h | h | h | h | h | h | h
    · exact h.2
    · obtain ⟨_, shard, hs, _⟩ := h
      exact absurd ((openMaster_iff r shard hwf hv.1).2
        (openMasterRole_true r _ _ _ _ hs)) (hom shard)
    · obtain ⟨_, _, shard, index, hs, _⟩ := h
      have h5 := openReplicaRole_true r _ _ _ _ _ _ hs
      exact absurd ((openReplica_iff r shard hwf hv.2.1).2 ⟨h5.1, h5.2.1, h5.2.2.1⟩)
        (hor shard)
    · exact h.2.2.2.2
    · exact absurd h.2.2.2.1 hng
    · exact absurd h.2.2.2.1 hng
    · exact absurd h.2.2.2.1 hng

/-- C2 at concrete snapshots. Counts `A:2, B:1` (masters `0:A, 1:A, 2:B`,
`N = 3`, `R = 0`), local node `B`: the gate passes, no slot is open, and `B`
does not steal. Masters `0:A, 1:A, 2:A`, local node `B` without role: `B`
steals the master of shard 0 from `A`, and the gap holds. -/
theorem findRole_gap_guard_witness :
    (mkRoler "B" 3 0).findRole (idRand 3 0) [(0, addrA), (1, addrA), (2, addrB)] [] =
      ⟨0, none, [], []⟩ ∧
    (Call.ClaimMasterAddress 0 addrB addrA ∈
      ((mkRoler "B" 3 0).findRole (idRand 3 0) [(0, addrA), (1, addrA), (2, addrA)] []).calls ∧
    ∃ hi, (∀ node, roleCount node [(0, addrA), (1, addrA), (2, addrA)] [] ≤
        roleCount hi [(0, addrA), (1, addrA), (2, addrA)] []) ∧
      roleCount (mkRoler "B" 3 0).localAddress [(0, addrA), (1, addrA), (2, addrA)] [] + 1 ≤
        roleCount hi [(0, addrA), (1, addrA), (2, addrA)] [] - 1) :=
  ⟨(findRole_gap_guard (mkRoler "B" 3 0) (idRand 3 0) [(0, addrA), (1, addrA), (2, addrB)] []
      (by simp [WF, NodupKeys]) (idRand_valid "B" 3 0 _ _)).2
      (by
        refine ⟨by decide, fun node _ => ?_⟩
        by_cases hA : "A" = node
        · subst hA; decide
        · by_cases hB : "B" = node
          · subst hB; decide
          · simp [roleCount, addrA, addrB, hA, hB, mkRoler] at *)
      (by
        intro shard h
        obtain ⟨⟨h0, h3⟩, hno, _⟩ := h
        have h3 : shard < 3 := h3
        have : shard = 0 ∨ shard = 1 ∨ shard = 2 := by omega
        rcases this with rfl | rfl | rfl
        · exact hno addrA (by simp)
        · exact hno addrA (by simp)
        · exact hno addrB (by simp))
      (by
        intro shard h
        have h1 : ((replicasOf [] shard).length : Int) < 0 := h.2.1
        simp [replicasOf] at h1)
      (by
        intro node
        by_cases hA : "A" = node
        · subst hA; decide
        · by_cases hB : "B" = node
          · subst hB; decide
          · simp [roleCount, addrA, addrB, hA, hB, mkRoler]),
    by decide,
    (findRole_gap_guard (mkRoler "B" 3 0) (idRand 3 0) [(0, addrA), (1, addrA), (2, addrA)] []
      (by simp [WF, NodupKeys]) (idRand_valid "B" 3 0 _ _)).1
      (Call.ClaimMasterAddress 0 addrB addrA) (by decide) (by decide)⟩

/-! ## No self-duplication -/

theorem lookup_setSlot {ν : Type} (m : List (Int × ν)) (k : Int) (v : ν) (k2 : Int) :
    (setSlot m k v).lookup k2 = if k2 = k then some v else m.lookup k2 := by
  induction m with
  | nil =>
    by_cases h : k2 = k
    · subst h; simp [setSlot, List.lookup_cons]
    · have : (k2 == k) = false := by simpa using h
      simp [setSlot, List.lookup_cons, h, this]
  | cons e rest ih =>
    obtain ⟨a, b⟩ := e
    by_cases ha : a = k
    · subst ha
      by_cases h : k2 = a
      · subst h; simp [setSlot, List.lookup_cons]
      · have : (k2 == a) = false := by simpa using h
        simp [setSlot, List.lookup_cons, h, this]
    · simp only [setSlot, ha, if_false, List.lookup_cons]
      by_cases h : k2 = a
      · subst h
        have h2 : ¬ k2 = k := ha
        simp [h2]
      · have : (k2 == a) = false := by simpa using h
        simp only [this]
        exact ih

theorem keys_setSlot {ν : Type} (m : List (Int × ν)) (k : Int) (v : ν) :
    (setSlot m k v).map Prod.fst =
      if k ∈ m.map Prod.fst then m.map Prod.fst else m.map Prod.fst ++ [k] := by
  induction m with
  | nil => simp [setSlot]
  | cons e rest ih =>
    obtain ⟨a, b⟩ := e
    by_cases ha : a = k
    · subst ha; simp [setSlot]
    · have ha2 : ¬ k = a := fun h => ha h.symm
      simp only [setSlot, ha, if_false, List.map_cons, ih, List.mem_cons, ha2, false_or]
      split <;> simp

theorem nodupKeys_setSlot {ν : Type} {m : List (Int × ν)} (h : NodupKeys m) (k : Int)
    (v : ν) : NodupKeys (setSlot m k v) := by
  unfold NodupKeys at h ⊢
  rw [keys_setSlot]
  split
  · exact h
  · next hmem =>
    exact List.Nodup.append h (List.nodup_singleton _) (by
      intro x hx hx2
      simp only [List.mem_singleton] at hx2
      subst hx2
      exact hmem hx)

theorem mem_setSlot {ν : Type} (m : List (Int × ν)) (k : Int) (v : ν) (e : Int × ν)
    (h : e ∈ setSlot m k v) : e ∈ m ∨ e = (k, v) := by
  induction m with
  | nil => right; simpa [setSlot] using h
  | cons x rest ih =>
    obtain ⟨a, b⟩ := x
    by_cases ha : a = k
    · subst ha
      simp only [setSlot, if_true, List.mem_cons] at h
      rcases h with h | h
      · right; exact h
      · left; exact List.mem_cons_of_mem _ h
    · simp only [setSlot, ha, if_false, List.mem_cons] at h
      rcases h with h | h
      · left; rw [h]; exact List.mem_cons_self _ _
      · rcases ih h with h2 | h2
        · left; exact List.mem_cons_of_mem _ h2
        · right; exact h2

theorem countP_setSlot_le (m : List (Int × Address)) (k : Int) (v : Address)
    (p : Int × Address → Bool) :
    (setSlot m k v).countP p ≤ m.countP p + (if p (k, v) then 1 else 0) := by
  induction m with
  | nil => simp [setSlot, List.countP_cons]
  | cons x rest ih =>
    obtain ⟨a, b⟩ := x
    by_cases ha : a = k
    · subst ha
      simp only [setSlot, if_true, List.countP_cons]
      split <;> split <;> omega
    · simp only [setSlot, ha, if_false, List.countP_cons]
      omega

theorem nodupKeys_replicasOf {Replicas : ReplicaMap}
    (h : ∀ e ∈ Replicas, NodupKeys e.2) (shard : Int) :
    NodupKeys (replicasOf Replicas shard) := by
  unfold replicasOf
  cases hl : Replicas.lookup shard with
  | none => simp [NodupKeys]
  | some addresses =>
    have hmem : (shard, addresses) ∈ Replicas := by
      by_contra hcon
      induction Replicas with
      | nil => simp at hl
      | cons x rest ih =>
        obtain ⟨a, b⟩ := x
        rw [List.lookup_cons] at hl
        by_cases hk : shard = a
        · subst hk
          simp only [beq_self_eq_true, Option.some.injEq] at hl
          subst hl
          exact hcon (List.mem_cons_self _ _)
        · have hb : (shard == a) = false := by simpa using hk
          simp only [hb] at hl
          exact ih (fun e he => h e (List.mem_cons_of_mem _ he)) hl
            (fun hm => hcon (List.mem_cons_of_mem _ hm))
    exact h _ hmem

/-- The assignment after a successful CAS is again a pair of maps. -/
theorem wf_applyClaim (c : Call) {Masters : MasterMap} {Replicas : ReplicaMap}
    (hwf : WF Masters Replicas) :
    WF (applyClaim c Masters Replicas).1 (applyClaim c Masters Replicas).2 := by
  obtain ⟨hM, hR, hI⟩ := hwf
  cases c with
  | ClaimMasterAddress shard address prev =>
    exact ⟨nodupKeys_setSlot hM _ _, hR, hI⟩
  | ClaimReplicaAddress shard index address prev =>
    refine ⟨hM, nodupKeys_setSlot hR _ _, ?_⟩
    intro e he
    rcases mem_setSlot _ _ _ _ he with h | h
    · exact hI e h
    · rw [h]
      exact nodupKeys_setSlot (nodupKeys_replicasOf hI shard) _ _
  | Master shard => exact ⟨hM, hR, hI⟩
  | Replica shard => exact ⟨hM, hR, hI⟩
  | HoldMasterAddress shard address => exact ⟨hM, hR, hI⟩
  | HoldReplicaAddress shard index address => exact ⟨hM, hR, hI⟩
  | Clear shard => exact ⟨hM, hR, hI⟩

/-- A node for which `hasRoleForShard` is false has no role on the shard. -/
theorem rolesOnShard_eq_zero (r : roler) (shard : Int) (Masters : MasterMap)
    (Replicas : ReplicaMap) (h : r.hasRoleForShard shard Masters Replicas = false) :
    rolesOnShard r.localAddress shard Masters Replicas = 0 := by
  unfold roler.hasRoleForShard at h
  unfold rolesOnShard replicasOf
  cases hm : Masters.lookup shard with
  | none =>
    simp only [hm] at h
    cases hr : Replicas.lookup shard with
    | none => simp
    | some addresses =>
      simp only [hr] at h
      simp only [Option.getD_some, zero_add, List.countP_eq_zero]
      intro a ha
      simp only [Bool.false_eq_true, if_false, List.any_eq_false] at h
      exact h a ha
  | some a =>
    simp only [hm] at h
    by_cases ha : a.Address = r.localAddress
    · simp [ha] at h
    · simp only [beq_iff_eq, ha, decide_False, Bool.false_eq_true, if_false] at h
      cases hr : Replicas.lookup shard with
      | none => simp [ha]
      | some addresses =>
        simp only [hr, List.any_eq_false] at h
        simp only [ha, if_false, Option.getD_some, zero_add, List.countP_eq_zero]
        intro a ha
        exact h a ha

/-- A master claim by a node without role on the shard keeps the roles of
every shard free of duplicates. -/
theorem noSelfDup_claimMaster (r : roler) (shard : Int)
    (Masters : MasterMap) (Replicas : ReplicaMap)
    (h : r.hasRoleForShard shard Masters Replicas = false)
    (hno : NoSelfDup Masters Replicas) :
    NoSelfDup (setSlot Masters shard r.localNormalAddress) Replicas := by
  intro node s
  have hold := hno node s
  have hzero := rolesOnShard_eq_zero r shard Masters Replicas h
  unfold rolesOnShard at hold hzero ⊢
  rw [lookup_setSlot]
  by_cases hs : s = shard
  · subst hs
    simp only [if_true, roler.localNormalAddress]
    by_cases hn : r.localAddress = node
    · subst hn
      simp only [if_true]
      omega
    · simp only [hn, if_false]
      omega
  · simp only [hs, if_false]
    exact hold

/-- A replica claim by a node without role on the shard keeps the roles of
every shard free of duplicates. -/
theorem noSelfDup_claimReplica (r : roler) (shard index : Int) (Masters : MasterMap)
    (Replicas : ReplicaMap) (h : r.hasRoleForShard shard Masters Replicas = false)
    (hno : NoSelfDup Masters Replicas) :
    NoSelfDup Masters
      (setSlot Replicas shard (setSlot (replicasOf Replicas shard) index
        r.localNormalAddress)) := by
  intro node s
  have hold := hno node s
  have hzero := rolesOnShard_eq_zero r shard Masters Replicas h
  unfold rolesOnShard at hold hzero ⊢
  have hrep : replicasOf (setSlot Replicas shard (setSlot (replicasOf Replicas shard) index
      r.localNormalAddress)) s =
      if s = shard then setSlot (replicasOf Replicas shard) index r.localNormalAddress
      else replicasOf Replicas s := by
    unfold replicasOf
    rw [lookup_setSlot]
    split <;> simp
  rw [hrep]
  by_cases hs : s = shard
  · subst hs
    simp only [if_true]
    have hle := countP_setSlot_le (replicasOf Replicas s) index r.localNormalAddress
      (fun a => a.2.Address == node)
    by_cases hn : r.localAddress = node
    · subst hn
      have hb : (r.localNormalAddress.Address == r.localAddress) = true := by
        simp [roler.localNormalAddress]
      simp only [hb, if_true] at hle
      omega
    · have hb : (r.localNormalAddress.Address == node) = false := by
        simpa [roler.localNormalAddress] using hn
      simp only [hb, Bool.false_eq_true, if_false] at hle
      omega
  · simp only [hs, if_false]
    exact hold

/-- Every CAS issued by `findRole` targets a shard for which
`hasRoleForShard` is false, and its new address is the local normal address. -/
theorem findRole_claim_target (r : roler) (rand : Rand) (Masters : MasterMap)
    (Replicas : ReplicaMap) (c : Call) (hc : c ∈ (r.findRole rand Masters Replicas).calls)
    (hclaim : c.isClaim = true) :
    ∃ shard, r.hasRoleForShard shard Masters Replicas = false ∧
      ((∃ prev, c = Call.ClaimMasterAddress shard r.localNormalAddress prev) ∨
        ∃ index prev, c = Call.ClaimReplicaAddress shard index r.localNormalAddress prev) := by
  rcases findRole_cases r rand Masters Replicas with h | h | h | h | h | h | h
  · rw [h.2] at hc; cases hc
  · obtain ⟨_, shard, hs, heq⟩ := h
    rw [heq] at hc
    rcases mem_beMaster_calls r _ _ c hc with rfl | rfl
    · exact ⟨shard, (openMasterRole_true r _ _ _ _ hs).2.2, Or.inl ⟨_, rfl⟩⟩
    · simp [Call.isClaim] at hclaim
  · obtain ⟨_, _, shard, index, hs, heq⟩ := h
    rw [heq] at hc
    rcases mem_beReplica_calls r _ _ _ c hc with rfl | rfl
    · exact ⟨shard, (openReplicaRole_true r _ _ _ _ _ _ hs).2.2.1, Or.inr ⟨_, _, rfl⟩⟩
    · simp [Call.isClaim] at hclaim
  · rw [h.2.2.2.2] at hc; cases hc
  · obtain ⟨_, _, _, _, prev, shard, index, hs, heq⟩ := h
    rw [heq] at hc
    rcases mem_beReplica_calls r _ _ _ c hc with rfl | rfl
    · exact ⟨shard, (randomReplicaRole_true r _ _ _ _ _ _ hs).2.2, Or.inr ⟨_, _, rfl⟩⟩
    · simp [Call.isClaim] at hclaim
  · obtain ⟨_, _, _, _, _, prev, shard, hs, heq⟩ := h
    rw [heq] at hc
    rcases mem_beMaster_calls r _ _ c hc with rfl | rfl
    · exact ⟨shard, (randomMasterRole_true r _ _ _ _ _ hs).2.2, Or.inl ⟨_, rfl⟩⟩
    · simp [Call.isClaim] at hclaim
  · rw [h.2.2.2.2.2.2] at hc; cases hc

/-- C3 (no self-duplication): on every snapshot and for every random choice,
every claim call issued by `findRole` (open master, open replica, replica
steal, master steal) targets a shard on which the local node is neither master
nor replica; and if no node appears twice among the roles of one shard in the
snapshot, the same holds of the assignment obtained by applying the claim,
which is again a pair of maps. -/
theorem findRole_no_self_duplication (r : roler) (rand : Rand) (Masters : MasterMap)
    (Replicas : ReplicaMap) (hwf : WF Masters Replicas) (c : Call)
    (hc : c ∈ (r.findRole rand Masters Replicas).calls) (shard : Int)
    (hshard : c.claimShard = some shard) :
    ¬ holdsRole r.localAddress shard Masters Replicas ∧
    (NoSelfDup Masters Replicas →
      NoSelfDup (applyClaim c Masters Replicas).1 (applyClaim c Masters Replicas).2 ∧
      WF (applyClaim c Masters Replicas).1 (applyClaim c Masters Replicas).2) := by
  have hclaim : c.isClaim = true := by
    cases c <;> simp [Call.claimShard] at hshard <;> rfl
  obtain ⟨s, hs, hform⟩ := findRole_claim_target r rand Masters Replicas c hc hclaim
  rcases hform with ⟨prev, rfl⟩ | ⟨index, prev, rfl⟩
  · have : s = shard := by simpa [Call.claimShard] using hshard
    subst this
    refine ⟨(hasRoleForShard_eq_false_iff r s hwf).1 hs, fun hno => ⟨?_, wf_applyClaim _ hwf⟩⟩
    exact noSelfDup_claimMaster r s Masters Replicas hs hno
  · have : s = shard := by simpa [Call.claimShard] using hshard
    subst this
    refine ⟨(hasRoleForShard_eq_false_iff r s hwf).1 hs, fun hno => ⟨?_, wf_applyClaim _ hwf⟩⟩
    exact noSelfDup_claimReplica r s index Masters Replicas hs hno

/-- Without replicas, duplicates among the roles of a shard are impossible. -/
theorem noSelfDup_no_replicas (Masters : MasterMap) : NoSelfDup Masters [] := by
  intro node shard
  unfold rolesOnShard replicasOf
  simp only [List.lookup_nil, Option.getD_none, List.countP_nil, add_zero]
  split
  · split <;> omega
  · omega

/-- C3 at a concrete snapshot: masters `0:A, 1:A, 2:A`, no replica, local node
`B`. `B` steals the master of shard 0, on which it holds no role, and the
assignment `0:B, 1:A, 2:A` has no node twice on a shard. -/
theorem findRole_no_self_duplication_witness :
    ¬ holdsRole (mkRoler "B" 3 0).localAddress 0 [(0, addrA), (1, addrA), (2, addrA)] [] ∧
    NoSelfDup [(0, addrB), (1, addrA), (2, addrA)] [] ∧
    WF [(0, addrB), (1, addrA), (2, addrA)] [] :=
  ⟨(findRole_no_self_duplication (mkRoler "B" 3 0) (idRand 3 0)
      [(0, addrA), (1, addrA), (2, addrA)] [] (by simp [WF, NodupKeys])
      (Call.ClaimMasterAddress 0 addrB addrA) (by decide) 0 rfl).1,
    (findRole_no_self_duplication (mkRoler "B" 3 0) (idRand 3 0)
      [(0, addrA), (1, addrA), (2, addrA)] [] (by simp [WF, NodupKeys])
      (Call.ClaimMasterAddress 0 addrB addrA) (by decide) 0 rfl).2
      (noSelfDup_no_replicas _)⟩

/-! ## Open master claim -/

theorem beMaster_claims (r : roler) (shard : Int) (prevAddress : Address) :
    (r.beMaster shard prevAddress).calls.filter Call.isClaim =
      [Call.ClaimMasterAddress shard r.localNormalAddress prevAddress] := by
  unfold roler.beMaster
  simp only
  split
  · simp [Call.isClaim]
  · split <;> simp [Call.isClaim]

theorem beReplica_claims (r : roler) (shard index : Int) (prevAddress : Address) :
    (r.beReplica shard index prevAddress).calls.filter Call.isClaim =
      [Call.ClaimReplicaAddress shard index r.localNormalAddress prevAddress] := by
  unfold roler.beReplica
  simp only
  split
  · simp [Call.isClaim]
  · split <;> simp [Call.isClaim]

/-- The search `openMasterRole` fails exactly when no master slot is open for
the local node. -/
theorem openMasterRole_false_iff (r : roler) (Masters : MasterMap) (Replicas : ReplicaMap)
    (hwf : WF Masters Replicas) {perm : List Int} (hperm : perm.Perm (intRange r.sharder)) :
    (r.openMasterRole perm Masters Replicas).2 = false ↔
      ∀ shard, ¬ OpenMaster r shard Masters Replicas := by
  constructor
  · intro h shard ho
    have h3 := (openMaster_iff r shard hwf hperm).1 ho
    exact openMasterRole_false r perm Masters Replicas h shard h3.1 h3.2
  · intro h
    rcases openMasterRole_snd r perm Masters Replicas with h2 | h2
    · exact h2
    · exact absurd ((openMaster_iff r _ hwf hperm).2 (openMasterRole_true r _ _ _ _ h2)) (h _)

/-- C4 (open master claim): for every snapshot, shard count `N` and
permutation of `[0, N)`, `openMasterRole` reports a shard iff some shard in
`[0, N)` has no entry in `Masters` and no role of the local node, and the shard
it reports is such a shard; when the fairness gate passes and such a shard
exists, `findRole` returns what `beMaster(s, zero)` returns for such a shard
`s`, and its only claim call is
`ClaimMasterAddress(s, (localAddress, false), zero)`. -/
theorem findRole_open_master (r : roler) (rand : Rand) (Masters : MasterMap)
    (Replicas : ReplicaMap) (hwf : WF Masters Replicas)
    (hv : rand.Valid r Masters Replicas) :
    ((r.openMasterRole rand.permMaster Masters Replicas).2 = true ↔
      ∃ shard, OpenMaster r shard Masters Replicas) ∧
    ((r.openMasterRole rand.permMaster Masters Replicas).2 = true →
      OpenMaster r (r.openMasterRole rand.permMaster Masters Replicas).1 Masters Replicas) ∧
    (passesGate r Masters Replicas → (∃ shard, OpenMaster r shard Masters Replicas) →
      ∃ shard, OpenMaster r shard Masters Replicas ∧
        r.findRole rand Masters Replicas = r.beMaster shard zeroAddress ∧
        (r.findRole rand Masters Replicas).calls.filter Call.isClaim =
          [Call.ClaimMasterAddress shard ⟨r.localAddress, false⟩ zeroAddress]) := by
  have hiff := openMasterRole_false_iff r Masters Replicas hwf hv.1
  refine ⟨?_, ?_, ?_⟩
  · constructor
    · intro h
      by_contra hcon
      push_neg at hcon
      rw [hiff.2 hcon] at h
      cases h
    · rintro ⟨shard, hs⟩
      by_contra hcon
      have hf : (r.openMasterRole rand.permMaster Masters Replicas).2 = false := by
        simpa using hcon
      exact hiff.1 hf shard hs
  · intro h
    rcases openMasterRole_snd r rand.permMaster Masters Replicas with h2 | h2
    · rw [h2] at h; cases h
    · exact (openMaster_iff r _ hwf hv.1).2 (openMasterRole_true r _ _ _ _ h2)
  · rintro hgate ⟨shard, hs⟩
    have hny := (not_yields_iff r rand Masters Replicas hv).2 hgate
    rcases findRole_cases r rand Masters Replicas with h | h | h | h | h | h | h
    · exact absurd h.1 hny
    · obtain ⟨_, s, hsome, heq⟩ := h
      refine ⟨s, (openMaster_iff r _ hwf hv.1).2 (openMasterRole_true r _ _ _ _ hsome), heq, ?_⟩
      rw [heq, beMaster_claims]
      rfl
    all_goals exact absurd hs (hiff.1 h.2.1 shard)

/-- C4 at a concrete snapshot: `N = 4`, `R = 1`, empty addresser, local node
`A`, shards scanned in the order `0, 1, 2, 3`: `A` claims the master of a
shard with the zero witness. -/
theorem findRole_open_master_witness :
    ∃ shard, OpenMaster (mkRoler "A" 4 1) shard [] [] ∧
      (mkRoler "A" 4 1).findRole (idRand 4 1) [] [] =
        (mkRoler "A" 4 1).beMaster shard zeroAddress ∧
      ((mkRoler "A" 4 1).findRole (idRand 4 1) [] []).calls.filter Call.isClaim =
        [Call.ClaimMasterAddress shard ⟨(mkRoler "A" 4 1).localAddress, false⟩ zeroAddress] :=
  (findRole_open_master (mkRoler "A" 4 1) (idRand 4 1) [] [] (by simp [WF, NodupKeys])
    (idRand_valid "A" 4 1 _ _)).2.2
    ⟨by decide, fun node h => by simp [roleCount] at h⟩
    ⟨0, ⟨by decide, by decide⟩, (fun a h => by cases h),
      (fun h => by
        rcases h with ⟨a, h, _⟩ | ⟨i, l, a, h, _⟩
        · cases h
        · cases h)⟩

/-! ## Open replica claim -/

/-- The search `openReplicaRole` fails exactly when no replica slot is open
for the local node. -/
theorem openReplicaRole_false_iff (r : roler) (Masters : MasterMap) (Replicas : ReplicaMap)
    (hwf : WF Masters Replicas) {perm : List Int} (hperm : perm.Perm (intRange r.sharder))
    {permIndex : Int → List Int}
    (hidx : ∀ shard, (permIndex shard).Perm (intRange r.numReplicas.toNat)) :
    (r.openReplicaRole perm permIndex Masters Replicas).2.2 = false ↔
      ∀ shard, ¬ OpenReplica r shard Masters Replicas := by
  constructor
  · intro h shard ho
    have h3 := (openReplica_iff r shard hwf hperm).1 ho
    exact openReplicaRole_false r perm permIndex Masters Replicas hidx h shard h3.1 h3.2
  · intro h
    rcases openReplicaRole_snd r perm permIndex Masters Replicas with h2 | h2
    · exact h2
    · have h5 := openReplicaRole_true r _ _ _ _ _ _ h2
      exact absurd ((openReplica_iff r _ hwf hperm).2 ⟨h5.1, h5.2.1, h5.2.2.1⟩) (h _)

/-- A slot found by `openReplicaRole` is on a shard with an open replica slot,
its index is in `[0, R)` and is not a key of `Replicas[shard]`. -/
theorem openReplicaRole_slot (r : roler) (Masters : MasterMap) (Replicas : ReplicaMap)
    (hwf : WF Masters Replicas) {perm : List Int} (hperm : perm.Perm (intRange r.sharder))
    {permIndex : Int → List Int}
    (hidx : ∀ shard, (permIndex shard).Perm (intRange r.numReplicas.toNat))
    (shard index : Int)
    (h : r.openReplicaRole perm permIndex Masters Replicas = (shard, index, true)) :
    OpenReplica r shard Masters Replicas ∧ (0 ≤ index ∧ index < r.numReplicas) ∧
      ∀ a, (index, a) ∉ replicasOf Replicas shard := by
  have h5 := openReplicaRole_true r _ _ _ _ _ _ h
  refine ⟨(openReplica_iff r _ hwf hperm).2 ⟨h5.1, h5.2.1, h5.2.2.1⟩, ?_,
    (lookup_eq_none_iff _ _).1 h5.2.2.2.2⟩
  have hmem := ((hidx shard).mem_iff.1 h5.2.2.2.1)
  rw [mem_intRange] at hmem
  omega

/-- C5 (open replica claim): for every snapshot, `N`, `R` and every choice of
permutations, `openReplicaRole` reports a slot iff some shard in `[0, N)` has
fewer than `R` entries in `Replicas[s]` (0 entries when the inner map is
missing) and no role of the local node; the reported `(s, i)` has `s` such a
shard, `0 <= i < R` and `i` not a key of `Replicas[s]`; every shard with fewer
than `R` entries has an absent index in `[0, R)`; and when the fairness gate
passes, no master slot is open and a replica slot is, `findRole` returns what
`beReplica(s, i, zero)` returns for such a slot, its only claim call being
`ClaimReplicaAddress(s, i, (localAddress, false), zero)`: no steal is
considered. -/
theorem findRole_open_replica (r : roler) (rand : Rand) (Masters : MasterMap)
    (Replicas : ReplicaMap) (hwf : WF Masters Replicas)
    (hv : rand.Valid r Masters Replicas) :
    ((r.openReplicaRole rand.permShard rand.permIndex Masters Replicas).2.2 = true ↔
      ∃ shard, OpenReplica r shard Masters Replicas) ∧
    (∀ shard index,
      r.openReplicaRole rand.permShard rand.permIndex Masters Replicas =
        (shard, index, true) →
      OpenReplica r shard Masters Replicas ∧ (0 ≤ index ∧ index < r.numReplicas) ∧
        ∀ a, (index, a) ∉ replicasOf Replicas shard) ∧
    (∀ shard, ((replicasOf Replicas shard).length : Int) < r.numReplicas →
      ∃ index, (0 ≤ index ∧ index < r.numReplicas) ∧
        ∀ a, (index, a) ∉ replicasOf Replicas shard) ∧
    (passesGate r Masters Replicas → (∀ shard, ¬ OpenMaster r shard Masters Replicas) →
      (∃ shard, OpenReplica r shard Masters Replicas) →
      ∃ shard index, OpenReplica r shard Masters Replicas ∧
        (0 ≤ index ∧ index < r.numReplicas) ∧
        (∀ a, (index, a) ∉ replicasOf Replicas shard) ∧
        r.findRole rand Masters Replicas = r.beReplica shard index zeroAddress ∧
        (r.findRole rand Masters Replicas).calls.filter Call.isClaim =
          [Call.ClaimReplicaAddress shard index ⟨r.localAddress, false⟩ zeroAddress]) := by
  have hiff := openReplicaRole_false_iff r Masters Replicas hwf hv.2.1 hv.2.2.1
  refine ⟨?_, ?_, ?_, ?_⟩
  · constructor
    · intro h
      by_contra hcon
      push_neg at hcon
      rw [hiff.2 hcon] at h
      cases h
    · rintro ⟨shard, hs⟩
      by_contra hcon
      have hf : (r.openReplicaRole rand.permShard rand.permIndex Masters Replicas).2.2 =
          false := by simpa using hcon
      exact hiff.1 hf shard hs
  · intro shard index h
    exact openReplicaRole_slot r Masters Replicas hwf hv.2.1 hv.2.2.1 shard index h
  · intro shard hlen
    have hlen2 : (replicasOf Replicas shard).length < r.numReplicas.toNat := by omega
    obtain ⟨i, hi, hl⟩ := pigeonhole_index _ _ _ (List.Perm.refl _) hlen2
    rw [mem_intRange] at hi
    exact ⟨i, by omega, (lookup_eq_none_iff _ _).1 hl⟩
  · rintro hgate hom ⟨shard, hs⟩
    have hny := (not_yields_iff r rand Masters Replicas hv).2 hgate
    rcases findRole_cases r rand Masters Replicas with h | h | h | h | h | h | h
    · exact absurd h.1 hny
    · obtain ⟨_, s, hsome, _⟩ := h
      exact absurd ((openMaster_iff r _ hwf hv.1).2 (openMasterRole_true r _ _ _ _ hsome))
        (hom s)
    · obtain ⟨_, _, s, i, hsome, heq⟩ := h
      obtain ⟨h1, h2, h3⟩ :=
        openReplicaRole_slot r Masters Replicas hwf hv.2.1 hv.2.2.1 s i hsome
      refine ⟨s, i, h1, h2, h3, heq, ?_⟩
      rw [heq, beReplica_claims]
      rfl
    all_goals exact absurd hs (hiff.1 h.2.2.1 shard)

/-- The fairness gate passes for a local node without role. -/
theorem passesGate_of_no_role (r : roler) (Masters : MasterMap) (Replicas : ReplicaMap)
    (h : roleCount r.localAddress Masters Replicas = 0) : passesGate r Masters Replicas := by
  refine ⟨by rw [h]; decide, fun node hnode => ?_⟩
  rw [h]
  exact le_of_lt hnode

/-- C5 at the snapshot of scenario S3: `N = 2`, `R = 1`, `A` holds the masters
of shards 0 and 1, local node `B` without role. The first claim of `B` is an
open replica with the zero witness, not a master steal. -/
theorem findRole_open_replica_witness :
    (∃ shard index, OpenReplica (mkRoler "B" 2 1) shard [(0, addrA), (1, addrA)] [] ∧
      (0 ≤ index ∧ index < (mkRoler "B" 2 1).numReplicas) ∧
      (∀ a, (index, a) ∉ replicasOf [] shard) ∧
      (mkRoler "B" 2 1).findRole (idRand 2 1) [(0, addrA), (1, addrA)] [] =
        (mkRoler "B" 2 1).beReplica shard index zeroAddress ∧
      ((mkRoler "B" 2 1).findRole (idRand 2 1) [(0, addrA), (1, addrA)] []).calls.filter
          Call.isClaim =
        [Call.ClaimReplicaAddress shard index ⟨(mkRoler "B" 2 1).localAddress, false⟩
          zeroAddress]) ∧
    ((mkRoler "B" 2 1).findRole (idRand 2 1) [(0, addrA), (1, addrA)] []).calls =
      [Call.ClaimReplicaAddress 0 0 addrB zeroAddress, Call.Replica 0] :=
  ⟨(findRole_open_replica (mkRoler "B" 2 1) (idRand 2 1) [(0, addrA), (1, addrA)] []
      (by simp [WF, NodupKeys]) (idRand_valid "B" 2 1 _ _)).2.2.2
      (passesGate_of_no_role _ _ _ (by decide))
      (by
        intro shard h
        obtain ⟨⟨h0, h3⟩, hno, _⟩ := h
        have h3 : shard < 2 := h3
        have : shard = 0 ∨ shard = 1 := by omega
        rcases this with rfl | rfl
        · exact hno addrA (by simp)
        · exact hno addrA (by simp))
      ⟨0, ⟨by decide, by decide⟩, by decide,
        (hasRoleForShard_eq_false_iff (mkRoler "B" 2 1) 0
          (by simp [WF, NodupKeys])).1 (by decide)⟩,
    by decide⟩

/-! ## Stealing -/

/-- The gap test of `findRole` in terms of role counts: the local node has at
least two roles fewer than the node selected by `maxCount`. -/
theorem gap_iff (r : roler) (rand : Rand) (Masters : MasterMap) (Replicas : ReplicaMap)
    (hv : rand.Valid r Masters Replicas) :
    r.gap rand Masters Replicas ↔
      roleCount r.localAddress Masters Replicas + 1 ≤
        roleCount (r.maxAddress rand Masters Replicas) Masters Replicas - 1 := by
  constructor
  · intro hg
    exact (gap_spec r rand Masters Replicas hv hg).2
  · intro h
    have h1 := roleCount_le_maxCount r hv.2.2.2.2 (r.maxAddress rand Masters Replicas)
    unfold roler.gap
    rw [getCount_counts]
    omega

/-- The inner map of an entry of `Replicas` is `Replicas[shard]`. -/
theorem replicasOf_eq_of_mem {Replicas : ReplicaMap} (hnd : NodupKeys Replicas)
    {shard : Int} {addresses : List (Int × Address)} (h : (shard, addresses) ∈ Replicas) :
    replicasOf Replicas shard = addresses := by
  unfold replicasOf
  rw [(lookup_eq_some_iff hnd _ _).2 h]
  rfl

/-- The replica steal search fails exactly when the node holds no replica slot
on a shard where the local node has no role. -/
theorem randomReplicaRole_false_iff (r : roler) (maxAddress : String)
    (Masters : MasterMap) (Replicas : ReplicaMap) (hwf : WF Masters Replicas) :
    (r.randomReplicaRole maxAddress Masters Replicas).2.2.2 = false ↔
      ¬ ∃ shard index, isReplicaAt maxAddress shard index Replicas ∧
        ¬ holdsRole r.localAddress shard Masters Replicas := by
  constructor
  · rintro h ⟨shard, index, ⟨addresses, a, hs, hia, ha⟩, hno⟩
    exact randomReplicaRole_false r maxAddress Masters Replicas h shard addresses index a hs
      hia ⟨ha, (hasRoleForShard_eq_false_iff r shard hwf).2 hno⟩
  · intro h
    by_contra hcon
    have ht : (r.randomReplicaRole maxAddress Masters Replicas).2.2.2 = true := by
      simpa using hcon
    have heq : r.randomReplicaRole maxAddress Masters Replicas =
        ((r.randomReplicaRole maxAddress Masters Replicas).1,
          (r.randomReplicaRole maxAddress Masters Replicas).2.1,
          (r.randomReplicaRole maxAddress Masters Replicas).2.2.1, true) := by
      rw [← ht]
    obtain ⟨⟨addresses, hs, hia⟩, ha, hrole⟩ := randomReplicaRole_true r _ _ _ _ _ _ heq
    exact h ⟨_, _, ⟨addresses, _, hs, hia, ha⟩,
      (hasRoleForShard_eq_false_iff r _ hwf).1 hrole⟩

/-- C6 (stealing prefers replicas): on every snapshot on which the fairness
gate passes, no open role is found and the gap condition holds for the node
`hi` selected by `maxCount`: if `hi` holds a replica slot on a shard where the
local node holds no role, `findRole` returns what `beReplica` returns on such a
slot, with the stored address as witness, and its only claim call is that
`ClaimReplicaAddress` (no `ClaimMasterAddress`); and a
`ClaimMasterAddress(shard, new, prev)` is issued only when no such replica slot
exists, `hi` is the master of `shard`, the local node holds no role on
`shard`, `new` is the local normal address and `prev` is `Masters[shard]`. -/
theorem findRole_steal_prefers_replicas (r : roler) (rand : Rand) (Masters : MasterMap)
    (Replicas : ReplicaMap) (hwf : WF Masters Replicas)
    (hv : rand.Valid r Masters Replicas) (hgate : passesGate r Masters Replicas)
    (hom : ∀ shard, ¬ OpenMaster r shard Masters Replicas)
    (hor : ∀ shard, ¬ OpenReplica r shard Masters Replicas)
    (hgap : roleCount r.localAddress Masters Replicas + 1 ≤
      roleCount (r.maxAddress rand Masters Replicas) Masters Replicas - 1) :
    ((∃ shard index, isReplicaAt (r.maxAddress rand Masters Replicas) shard index Replicas ∧
        ¬ holdsRole r.localAddress shard Masters Replicas) →
      ∃ shard index prevAddress,
        isReplicaAt (r.maxAddress rand Masters Replicas) shard index Replicas ∧
        ¬ holdsRole r.localAddress shard Masters Replicas ∧
        (replicasOf Replicas shard).lookup index = some prevAddress ∧
        r.findRole rand Masters Replicas = r.beReplica shard index prevAddress ∧
        (r.findRole rand Masters Replicas).calls.filter Call.isClaim =
          [Call.ClaimReplicaAddress shard index ⟨r.localAddress, false⟩ prevAddress]) ∧
    (∀ shard address prevAddress,
      Call.ClaimMasterAddress shard address prevAddress ∈
        (r.findRole rand Masters Replicas).calls →
      (¬ ∃ shard index, isReplicaAt (r.maxAddress rand Masters Replicas) shard index Replicas ∧
        ¬ holdsRole r.localAddress shard Masters Replicas) ∧
      isMasterOf (r.maxAddress rand Masters Replicas) shard Masters ∧
      ¬ holdsRole r.localAddress shard Masters Replicas ∧
      address = ⟨r.localAddress, false⟩ ∧ Masters.lookup shard = some prevAddress) := by
  have hny := (not_yields_iff r rand Masters Replicas hv).2 hgate
  have hg := (gap_iff r rand Masters Replicas hv).2 hgap
  have hno1 := (openMasterRole_false_iff r Masters Replicas hwf hv.1).2 hom
  have hno2 := (openReplicaRole_false_iff r Masters Replicas hwf hv.2.1 hv.2.2.1).2 hor
  have hrr := randomReplicaRole_false_iff r (r.maxAddress rand Masters Replicas) Masters
    Replicas hwf
  rcases findRole_cases r rand Masters Replicas with h | h | h | h | h | h | h
  · exact absurd h.1 hny
  · obtain ⟨_, s, hsome, _⟩ := h
    rw [hsome] at hno1
    cases hno1
  · obtain ⟨_, _, s, i, hsome, _⟩ := h
    rw [hsome] at hno2
    cases hno2
  · exact absurd hg h.2.2.2.1
  · obtain ⟨_, _, _, _, prev, s, i, hsome, heq⟩ := h
    obtain ⟨⟨addresses, hs, hia⟩, ha, hrole⟩ := randomReplicaRole_true r _ _ _ _ _ _ hsome
    have hrep : isReplicaAt (r.maxAddress rand Masters Replicas) s i Replicas :=
      ⟨addresses, prev, hs, hia, ha⟩
    have hnr := (hasRoleForShard_eq_false_iff r s hwf).1 hrole
    constructor
    · intro _
      refine ⟨s, i, prev, hrep, hnr, ?_, heq, ?_⟩
      · rw [replicasOf_eq_of_mem hwf.2.1 hs]
        exact (lookup_eq_some_iff (hwf.2.2 _ hs) _ _).2 hia
      · rw [heq, beReplica_claims]
        rfl
    · intro shard address prevAddress hc
      rw [heq] at hc
      rcases mem_beReplica_calls r _ _ _ _ hc with h2 | h2 <;> cases h2
  · obtain ⟨_, _, _, _, hfalse, prev, s, hsome, heq⟩ := h
    have hnone := hrr.1 hfalse
    obtain ⟨hmem, ha, hrole⟩ := randomMasterRole_true r _ _ _ _ _ hsome
    constructor
    · intro hex
      exact absurd hex hnone
    · intro shard address prevAddress hc
      rw [heq] at hc
      rcases mem_beMaster_calls r _ _ _ hc with h2 | h2
      · simp only [Call.ClaimMasterAddress.injEq] at h2
        obtain ⟨rfl, rfl, rfl⟩ := h2
        exact ⟨hnone, ⟨_, hmem, ha⟩, (hasRoleForShard_eq_false_iff r _ hwf).1 hrole, rfl,
          (lookup_eq_some_iff hwf.1 _ _).2 hmem⟩
      · cases h2
  · obtain ⟨_, _, _, _, hfalse, _, heq⟩ := h
    have hnone := hrr.1 hfalse
    constructor
    · intro hex
      exact absurd hex hnone
    · intro shard address prevAddress hc
      rw [heq] at hc
      cases hc
/-- C6 at concrete snapshots. Masters `0:A, 1:B`, replicas
`0:{0:B}, 1:{0:A}` (`N = 2`, `R = 1`), local node `C` without role: `maxCount`
selects `A`, and `C` steals the replica slot `(1, 0)` of `A`, not the master
of shard 0. Masters `0:A, 1:A, 2:A` without replicas (`R = 0`), local node
`B`: the master steal of shard 0 happens with no replica slot to steal. -/
theorem findRole_steal_prefers_replicas_witness :
    (∃ shard index prevAddress,
      isReplicaAt ((mkRoler "C" 2 1).maxAddress (idRand 2 1) crossMasters crossReplicas)
        shard index crossReplicas ∧
      ¬ holdsRole (mkRoler "C" 2 1).localAddress shard crossMasters crossReplicas ∧
      (replicasOf crossReplicas shard).lookup index = some prevAddress ∧
      (mkRoler "C" 2 1).findRole (idRand 2 1) crossMasters crossReplicas =
        (mkRoler "C" 2 1).beReplica shard index prevAddress ∧
      ((mkRoler "C" 2 1).findRole (idRand 2 1) crossMasters crossReplicas).calls.filter
          Call.isClaim =
        [Call.ClaimReplicaAddress shard index ⟨(mkRoler "C" 2 1).localAddress, false⟩
          prevAddress]) ∧
    ((¬ ∃ shard index,
        isReplicaAt ((mkRoler "B" 3 0).maxAddress (idRand 3 0) allA []) shard index [] ∧
        ¬ holdsRole (mkRoler "B" 3 0).localAddress shard allA []) ∧
      isMasterOf ((mkRoler "B" 3 0).maxAddress (idRand 3 0) allA []) 0 allA ∧
      ¬ holdsRole (mkRoler "B" 3 0).localAddress 0 allA [] ∧
      addrB = ⟨(mkRoler "B" 3 0).localAddress, false⟩ ∧ allA.lookup 0 = some addrA) :=
  ⟨(findRole_steal_prefers_replicas (mkRoler "C" 2 1) (idRand 2 1) crossMasters crossReplicas
      (by simp [WF, NodupKeys, crossMasters, crossReplicas]) (idRand_valid "C" 2 1 _ _)
      (passesGate_of_no_role _ _ _ (by decide))
      ((openMasterRole_false_iff (mkRoler "C" 2 1) crossMasters crossReplicas
        (by simp [WF, NodupKeys, crossMasters, crossReplicas]) (List.Perm.refl _)).1
        (by decide))
      ((openReplicaRole_false_iff (mkRoler "C" 2 1) crossMasters crossReplicas
        (by simp [WF, NodupKeys, crossMasters, crossReplicas]) (List.Perm.refl _)
        (fun _ => List.Perm.refl _)).1 (by decide))
      (by decide)).1
      ⟨1, 0, ⟨[(0, addrA)], addrA, by simp [crossReplicas], by simp, by decide⟩,
        (hasRoleForShard_eq_false_iff (mkRoler "C" 2 1) 1
          (by simp [WF, NodupKeys, crossMasters, crossReplicas])).1 (by decide)⟩,
    (findRole_steal_prefers_replicas (mkRoler "B" 3 0) (idRand 3 0) allA []
      (by simp [WF, NodupKeys, allA]) (idRand_valid "B" 3 0 _ _)
      (passesGate_of_no_role _ _ _ (by decide))
      ((openMasterRole_false_iff (mkRoler "B" 3 0) allA []
        (by simp [WF, NodupKeys, allA]) (List.Perm.refl _)).1 (by decide))
      ((openReplicaRole_false_iff (mkRoler "B" 3 0) allA []
        (by simp [WF, NodupKeys, allA]) (List.Perm.refl _)
        (fun _ => List.Perm.refl _)).1 (by decide))
      (by decide)).2 0 addrB addrA (by decide)⟩

/-! ## The CAS witness -/

/-- The witness of a claim call of `findRole` and the targeted slot of the
snapshot: the slot is absent and the witness is the zero Address, or the slot
holds an Address of the node selected by `maxCount`, not the local node, and
the witness is that Address. -/
theorem findRole_cas_slot (r : roler) (rand : Rand) (Masters : MasterMap)
    (Replicas : ReplicaMap) (hwf : WF Masters Replicas)
    (hv : rand.Valid r Masters Replicas) (c : Call)
    (hc : c ∈ (r.findRole rand Masters Replicas).calls) (hclaim : c.isClaim = true) :
    c.newAddress = some ⟨r.localAddress, false⟩ ∧
    ((c.slot Masters Replicas = none ∧ c.witnessAddress = some zeroAddress) ∨
      (∃ a, c.slot Masters Replicas = some a ∧ c.witnessAddress = some a ∧
        a.Address = r.maxAddress rand Masters Replicas ∧
        r.maxAddress rand Masters Replicas ≠ r.localAddress)) := by
  have hne : r.gap rand Masters Replicas →
      r.maxAddress rand Masters Replicas ≠ r.localAddress := by
    intro hg heq
    have h := (gap_spec r rand Masters Replicas hv hg).2
    rw [heq] at h
    omega
  rcases findRole_cases r rand Masters Replicas with h | h | h | h | h | h | h
  · rw [h.2] at hc; cases hc
  · obtain ⟨_, shard, hs, heq⟩ := h
    rw [heq] at hc
    rcases mem_beMaster_calls r _ _ c hc with rfl | rfl
    · exact ⟨rfl, Or.inl ⟨(openMasterRole_true r _ _ _ _ hs).2.1, rfl⟩⟩
    · simp [Call.isClaim] at hclaim
  · obtain ⟨_, _, shard, index, hs, heq⟩ := h
    rw [heq] at hc
    rcases mem_beReplica_calls r _ _ _ c hc with rfl | rfl
    · exact ⟨rfl, Or.inl ⟨(openReplicaRole_true r _ _ _ _ _ _ hs).2.2.2.2, rfl⟩⟩
    · simp [Call.isClaim] at hclaim
  · rw [h.2.2.2.2] at hc; cases hc
  · obtain ⟨_, _, _, hg, prev, shard, index, hs, heq⟩ := h
    rw [heq] at hc
    rcases mem_beReplica_calls r _ _ _ c hc with rfl | rfl
    · obtain ⟨⟨addresses, hmem, hia⟩, ha, _⟩ := randomReplicaRole_true r _ _ _ _ _ _ hs
      refine ⟨rfl, Or.inr ⟨prev, ?_, rfl, ha, hne hg⟩⟩
      show (replicasOf Replicas shard).lookup index = some prev
      rw [replicasOf_eq_of_mem hwf.2.1 hmem]
      exact (lookup_eq_some_iff (hwf.2.2 _ hmem) _ _).2 hia
    · simp [Call.isClaim] at hclaim
  · obtain ⟨_, _, _, hg, _, prev, shard, hs, heq⟩ := h
    rw [heq] at hc
    rcases mem_beMaster_calls r _ _ c hc with rfl | rfl
    · obtain ⟨hmem, ha, _⟩ := randomMasterRole_true r _ _ _ _ _ hs
      exact ⟨rfl, Or.inr ⟨prev, (lookup_eq_some_iff hwf.1 _ _).2 hmem, rfl, ha, hne hg⟩⟩
    · simp [Call.isClaim] at hclaim
  · rw [h.2.2.2.2.2.2] at hc; cases hc

/-- C7 (CAS witness correctness, amended): on every snapshot, every claim call
issued by `findRole` writes the address `(localAddress, false)`, and its
previous-address witness is the zero Address when the targeted slot is absent
from the snapshot (the open claims) and otherwise is exactly the Address the
snapshot stores at the targeted slot (the steals); in the latter case that
Address is of the node selected by `maxCount`, which is not the local node.
The witness is the zero Address exactly when the targeted slot is absent or
stores the zero Address (node id "", not backfilling); unless the snapshot
stores the zero Address at the targeted slot, the witness is the zero Address
exactly when the slot is absent. -/
theorem findRole_cas_previous_address (r : roler) (rand : Rand) (Masters : MasterMap)
    (Replicas : ReplicaMap) (hwf : WF Masters Replicas)
    (hv : rand.Valid r Masters Replicas) (c : Call)
    (hc : c ∈ (r.findRole rand Masters Replicas).calls) (hclaim : c.isClaim = true) :
    c.newAddress = some ⟨r.localAddress, false⟩ ∧
    ((c.slot Masters Replicas = none ∧ c.witnessAddress = some zeroAddress) ∨
      (∃ a, c.slot Masters Replicas = some a ∧ c.witnessAddress = some a ∧
        a.Address = r.maxAddress rand Masters Replicas ∧
        r.maxAddress rand Masters Replicas ≠ r.localAddress)) ∧
    (c.witnessAddress = some zeroAddress ↔
      c.slot Masters Replicas = none ∨ c.slot Masters Replicas = some zeroAddress) ∧
    (c.slot Masters Replicas ≠ some zeroAddress →
      (c.witnessAddress = some zeroAddress ↔ c.slot Masters Replicas = none)) := by
  obtain ⟨h1, h2⟩ := findRole_cas_slot r rand Masters Replicas hwf hv c hc hclaim
  refine ⟨h1, h2, ?_, ?_⟩
  · rcases h2 with ⟨hs, hw⟩ | ⟨a, hs, hw, _, _⟩
    · rw [hs, hw]
      simp
    · rw [hs, hw]
      simp
  · intro hne
    rcases h2 with ⟨hs, hw⟩ | ⟨a, hs, hw, _, _⟩
    · rw [hs, hw]
      simp
    · rw [hs] at hne
      rw [hs, hw]
      simp only [reduceCtorEq, iff_false]
      exact hne

/-- C7 at a concrete snapshot: masters `0:A, 1:B`, replicas
`0:{0:B}, 1:{0:A}`, local node `C`. The steal of the replica slot `(1, 0)`
passes the stored address of `A` as witness. -/
theorem findRole_cas_previous_address_witness :
    (Call.ClaimReplicaAddress 1 0 addrC addrA).newAddress =
      some ⟨(mkRoler "C" 2 1).localAddress, false⟩ ∧
    (((Call.ClaimReplicaAddress 1 0 addrC addrA).slot crossMasters crossReplicas = none ∧
        (Call.ClaimReplicaAddress 1 0 addrC addrA).witnessAddress = some zeroAddress) ∨
      (∃ a, (Call.ClaimReplicaAddress 1 0 addrC addrA).slot crossMasters crossReplicas =
          some a ∧
        (Call.ClaimReplicaAddress 1 0 addrC addrA).witnessAddress = some a ∧
        a.Address = (mkRoler "C" 2 1).maxAddress (idRand 2 1) crossMasters crossReplicas ∧
        (mkRoler "C" 2 1).maxAddress (idRand 2 1) crossMasters crossReplicas ≠
          (mkRoler "C" 2 1).localAddress)) ∧
    ((Call.ClaimReplicaAddress 1 0 addrC addrA).witnessAddress = some zeroAddress ↔
      (Call.ClaimReplicaAddress 1 0 addrC addrA).slot crossMasters crossReplicas = none ∨
      (Call.ClaimReplicaAddress 1 0 addrC addrA).slot crossMasters crossReplicas =
        some zeroAddress) ∧
    ((Call.ClaimReplicaAddress 1 0 addrC addrA).slot crossMasters crossReplicas ≠
        some zeroAddress →
      ((Call.ClaimReplicaAddress 1 0 addrC addrA).witnessAddress = some zeroAddress ↔
        (Call.ClaimReplicaAddress 1 0 addrC addrA).slot crossMasters crossReplicas = none)) :=
  findRole_cas_previous_address (mkRoler "C" 2 1) (idRand 2 1) crossMasters crossReplicas
    (by simp [WF, NodupKeys, crossMasters, crossReplicas]) (idRand_valid "C" 2 1 _ _)
    (Call.ClaimReplicaAddress 1 0 addrC addrA) (by decide) rfl

/-- C7, as stated, fails on a snapshot that stores the zero
Address: with masters `0:("", false), 1:("", false)` (`N = 2`, `R = 0`) and
local node `B`, nothing is open, the gap test `0 + 1 <= 2 - 1` holds,
`randomMasterRole` returns the Address stored at shard 0, and `findRole` issues
`ClaimMasterAddress(0, B, route.Address{})`: the witness is the zero Address
although the targeted slot is present in the snapshot. -/
theorem zero_witness_on_occupied_slot :
    (WF emptyIdMasters [] ∧ (idRand 2 0).Valid (mkRoler "B" 2 0) emptyIdMasters [] ∧
      Call.ClaimMasterAddress 0 addrB zeroAddress ∈
        ((mkRoler "B" 2 0).findRole (idRand 2 0) emptyIdMasters []).calls ∧
      (Call.ClaimMasterAddress 0 addrB zeroAddress).isClaim = true ∧
      (Call.ClaimMasterAddress 0 addrB zeroAddress).witnessAddress = some zeroAddress ∧
      (Call.ClaimMasterAddress 0 addrB zeroAddress).slot emptyIdMasters [] =
        some zeroAddress) ∧
    ¬ ∀ (r : roler) (rand : Rand) (Masters : MasterMap) (Replicas : ReplicaMap) (c : Call),
      WF Masters Replicas → rand.Valid r Masters Replicas →
      c ∈ (r.findRole rand Masters Replicas).calls → c.isClaim = true →
      (c.witnessAddress = some zeroAddress ↔ c.slot Masters Replicas = none) := by
  have hwf : WF emptyIdMasters [] := by simp [WF, NodupKeys, emptyIdMasters]
  have hv := idRand_valid "B" 2 0 emptyIdMasters []
  have hc : Call.ClaimMasterAddress 0 addrB zeroAddress ∈
      ((mkRoler "B" 2 0).findRole (idRand 2 0) emptyIdMasters []).calls := by decide
  refine ⟨⟨hwf, hv, hc, rfl, rfl, by decide⟩, ?_⟩
  intro h
  have h2 := (h (mkRoler "B" 2 0) (idRand 2 0) emptyIdMasters []
    (Call.ClaimMasterAddress 0 addrB zeroAddress) hwf hv hc rfl).1 rfl
  revert h2
  decide

/-! ## One CAS for each snapshot -/

theorem beMaster_calls (r : roler) (shard : Int) (prevAddress : Address) :
    (r.beMaster shard prevAddress).calls =
        [Call.ClaimMasterAddress shard r.localNormalAddress prevAddress] ∨
      (r.beMaster shard prevAddress).calls =
        [Call.ClaimMasterAddress shard r.localNormalAddress prevAddress, Call.Master shard] := by
  unfold roler.beMaster
  simp only
  split
  · left; rfl
  · split <;> right <;> rfl

theorem beReplica_calls (r : roler) (shard index : Int) (prevAddress : Address) :
    (r.beReplica shard index prevAddress).calls =
        [Call.ClaimReplicaAddress shard index r.localNormalAddress prevAddress] ∨
      (r.beReplica shard index prevAddress).calls =
        [Call.ClaimReplicaAddress shard index r.localNormalAddress prevAddress,
          Call.Replica shard] := by
  unfold roler.beReplica
  simp only
  split
  · left; rfl
  · split <;> right <;> rfl

/-- The calls of one `findRole` invocation: none, one CAS, or one CAS followed
by the activation callback of the same kind on the same shard. -/
theorem findRole_calls (r : roler) (rand : Rand) (Masters : MasterMap)
    (Replicas : ReplicaMap) :
    (r.findRole rand Masters Replicas).calls = [] ∨
    (∃ shard prev, (r.findRole rand Masters Replicas).calls =
        [Call.ClaimMasterAddress shard r.localNormalAddress prev] ∨
      (r.findRole rand Masters Replicas).calls =
        [Call.ClaimMasterAddress shard r.localNormalAddress prev, Call.Master shard]) ∨
    (∃ shard index prev, (r.findRole rand Masters Replicas).calls =
        [Call.ClaimReplicaAddress shard index r.localNormalAddress prev] ∨
      (r.findRole rand Masters Replicas).calls =
        [Call.ClaimReplicaAddress shard index r.localNormalAddress prev,
          Call.Replica shard]) := by
  rcases findRole_cases r rand Masters Replicas with h | h | h | h | h | h | h
  · left; rw [h.2]; rfl
  · obtain ⟨_, shard, _, heq⟩ := h
    right; left
    rw [heq]
    exact ⟨shard, zeroAddress, beMaster_calls r _ _⟩
  · obtain ⟨_, _, shard, index, _, heq⟩ := h
    right; right
    rw [heq]
    exact ⟨shard, index, zeroAddress, beReplica_calls r _ _ _⟩
  · left; rw [h.2.2.2.2]; rfl
  · obtain ⟨_, _, _, _, prev, shard, index, _, heq⟩ := h
    right; right
    rw [heq]
    exact ⟨shard, index, prev, beReplica_calls r _ _ _⟩
  · obtain ⟨_, _, _, _, _, prev, shard, _, heq⟩ := h
    right; left
    rw [heq]
    exact ⟨shard, prev, beMaster_calls r _ _⟩
  · left; rw [h.2.2.2.2.2.2]; rfl

/-- C8 (at most one CAS per snapshot): for every snapshot, every random
choice and every answer of the addresser and of the server, one `findRole`
invocation issues at most one claim call (`ClaimMasterAddress` or
`ClaimReplicaAddress`) and at most one Server activation callback; an
invocation that issues a `ClaimReplicaAddress`, a failed replica steal
included, issues no `ClaimMasterAddress`. -/
theorem findRole_at_most_one_cas (r : roler) (rand : Rand) (Masters : MasterMap)
    (Replicas : ReplicaMap) :
    ((r.findRole rand Masters Replicas).calls.filter Call.isClaim).length ≤ 1 ∧
    ((r.findRole rand Masters Replicas).calls.filter Call.isActivation).length ≤ 1 ∧
    (∀ shard index address prev,
      Call.ClaimReplicaAddress shard index address prev ∈
        (r.findRole rand Masters Replicas).calls →
      ∀ shard2 address2 prev2,
        Call.ClaimMasterAddress shard2 address2 prev2 ∉
          (r.findRole rand Masters Replicas).calls) := by
  rcases findRole_calls r rand Masters Replicas with h | ⟨s, p, h | h⟩ | ⟨s, i, p, h | h⟩ <;>
    rw [h] <;> simp [Call.isClaim, Call.isActivation]

/-! ## Errors of the CAS -/

/-- The first `if err != nil` of `beMaster`: whatever the error of
`ClaimMasterAddress`, `beMaster` returns `(0, nil)` after that single call. -/
theorem beMaster_of_err (r : roler) (shard : Int) (prevAddress : Address) (e : Error)
    (h : (r.addresser.ClaimMasterAddress shard r.localNormalAddress prevAddress).2 = some e) :
    r.beMaster shard prevAddress =
      ⟨0, none, [Call.ClaimMasterAddress shard r.localNormalAddress prevAddress], []⟩ := by
  unfold roler.beMaster
  simp only
  split
  · rfl
  · next heq => rw [heq] at h; cases h

/-- The first `if err != nil` of `beReplica`: whatever the error of
`ClaimReplicaAddress`, `beReplica` returns `(0, nil)` after that single call. -/
theorem beReplica_of_err (r : roler) (shard index : Int) (prevAddress : Address)
    (e : Error)
    (h : (r.addresser.ClaimReplicaAddress shard index r.localNormalAddress prevAddress).2 =
      some e) :
    r.beReplica shard index prevAddress =
      ⟨0, none, [Call.ClaimReplicaAddress shard index r.localNormalAddress prevAddress],
        []⟩ := by
  unfold roler.beReplica
  simp only
  split
  · rfl
  · next heq => rw [heq] at h; cases h

/-- A `findRole` invocation whose CAS fails returns `(0, nil)` after that
single call. -/
theorem findRole_of_err (r : roler) (rand : Rand) (Masters : MasterMap)
    (Replicas : ReplicaMap) (c : Call) (e : Error)
    (hc : c ∈ (r.findRole rand Masters Replicas).calls) (herr : r.claimErr c = some e) :
    r.findRole rand Masters Replicas = ⟨0, none, [c], []⟩ := by
  have hM : ∀ shard prev, c ∈ (r.beMaster shard prev).calls →
      r.beMaster shard prev = ⟨0, none, [c], []⟩ := by
    intro shard prev hmem
    rcases mem_beMaster_calls r _ _ c hmem with rfl | rfl
    · exact beMaster_of_err r shard prev e herr
    · cases herr
  have hR : ∀ shard index prev, c ∈ (r.beReplica shard index prev).calls →
      r.beReplica shard index prev = ⟨0, none, [c], []⟩ := by
    intro shard index prev hmem
    rcases mem_beReplica_calls r _ _ _ c hmem with rfl | rfl
    · exact beReplica_of_err r shard index prev e herr
    · cases herr
  rcases findRole_cases r rand Masters Replicas with h | h | h | h | h | h | h
  · rw [h.2] at hc; cases hc
  · obtain ⟨_, shard, _, heq⟩ := h
    rw [heq] at hc ⊢
    exact hM _ _ hc
  · obtain ⟨_, _, shard, index, _, heq⟩ := h
    rw [heq] at hc ⊢
    exact hR _ _ _ hc
  · rw [h.2.2.2.2] at hc; cases hc
  · obtain ⟨_, _, _, _, prev, shard, index, _, heq⟩ := h
    rw [heq] at hc ⊢
    exact hR _ _ _ hc
  · obtain ⟨_, _, _, _, _, prev, shard, _, heq⟩ := h
    rw [heq] at hc ⊢
    exact hM _ _ hc
  · rw [h.2.2.2.2.2.2] at hc; cases hc

/-- C9 (claim-lost is a no-op): for every shard, index and witness, if
`ClaimMasterAddress` (resp. `ClaimReplicaAddress`) reports the claim-lost
condition, `beMaster` (resp. `beReplica`) returns `(0, nil)`, its only call is
the CAS (no `Server.Master`, `Server.Replica` or `Server.Clear`) and it starts
no hold worker; a `findRole` invocation whose CAS is lost returns that
`(0, nil)`, with the CAS as its only call and no worker. -/
theorem claim_lost_is_noop (r : roler) :
    (∀ shard prevAddress,
      (r.addresser.ClaimMasterAddress shard r.localNormalAddress prevAddress).2 =
        some Error.ClaimLost →
      r.beMaster shard prevAddress =
        ⟨0, none, [Call.ClaimMasterAddress shard r.localNormalAddress prevAddress], []⟩) ∧
    (∀ shard index prevAddress,
      (r.addresser.ClaimReplicaAddress shard index r.localNormalAddress prevAddress).2 =
        some Error.ClaimLost →
      r.beReplica shard index prevAddress =
        ⟨0, none, [Call.ClaimReplicaAddress shard index r.localNormalAddress prevAddress],
          []⟩) ∧
    (∀ rand Masters Replicas c, c ∈ (r.findRole rand Masters Replicas).calls →
      r.claimErr c = some Error.ClaimLost →
      r.findRole rand Masters Replicas = ⟨0, none, [c], []⟩) :=
  ⟨fun shard prev h => beMaster_of_err r shard prev _ h,
    fun shard index prev h => beReplica_of_err r shard index prev _ h,
    fun rand Masters Replicas c hc h => findRole_of_err r rand Masters Replicas c _ hc h⟩

/-- C9 on an addresser that loses every CAS (scenario S6, the losing node):
`beMaster`, `beReplica` and `findRole` on the empty snapshot return `(0, nil)`
after the CAS alone. -/
theorem claim_lost_is_noop_witness :
    (mkRolerOn lostAddresser "A" 1 1).beMaster 0 zeroAddress =
      ⟨0, none, [Call.ClaimMasterAddress 0 addrA zeroAddress], []⟩ ∧
    (mkRolerOn lostAddresser "A" 1 1).beReplica 0 0 addrB =
      ⟨0, none, [Call.ClaimReplicaAddress 0 0 addrA addrB], []⟩ ∧
    (mkRolerOn lostAddresser "A" 1 1).findRole (idRand 1 1) [] [] =
      ⟨0, none, [Call.ClaimMasterAddress 0 addrA zeroAddress], []⟩ :=
  ⟨(claim_lost_is_noop (mkRolerOn lostAddresser "A" 1 1)).1 0 zeroAddress rfl,
    (claim_lost_is_noop (mkRolerOn lostAddresser "A" 1 1)).2.1 0 0 addrB rfl,
    (claim_lost_is_noop (mkRolerOn lostAddresser "A" 1 1)).2.2 (idRand 1 1) [] []
      (Call.ClaimMasterAddress 0 addrA zeroAddress) (by decide) rfl⟩

/-- C10, as stated, fails: on an addresser whose CAS fails with the
infrastructure error `connection refused`, `beMaster`, `beReplica` and
`findRole` return a nil error, not that error. -/
theorem infra_error_not_returned :
    (downAddresser.ClaimMasterAddress 0 addrA zeroAddress).2 =
      some (Error.Other "connection refused") ∧
    ((mkRolerOn downAddresser "A" 1 1).beMaster 0 zeroAddress).err = none ∧
    (downAddresser.ClaimReplicaAddress 0 0 addrA zeroAddress).2 =
      some (Error.Other "connection refused") ∧
    ((mkRolerOn downAddresser "A" 1 1).beReplica 0 0 zeroAddress).err = none ∧
    (mkRolerOn downAddresser "A" 1 1).findRole (idRand 1 1) [] [] =
      ⟨0, none, [Call.ClaimMasterAddress 0 addrA zeroAddress], []⟩ := by
  decide

/-- C10, amended: for every shard and witness, if `ClaimMasterAddress` (resp.
`ClaimReplicaAddress`) fails with an error that is not the claim-lost
condition, `beMaster` (resp. `beReplica`) drops that error and returns
`(0, nil)` after the CAS alone, with no Server callback and no hold worker,
and a `findRole` invocation whose CAS fails so returns `(0, nil)` up the watch
callback. -/
theorem infra_error_is_dropped (r : roler) :
    (∀ shard prevAddress e,
      (r.addresser.ClaimMasterAddress shard r.localNormalAddress prevAddress).2 = some e →
      e ≠ Error.ClaimLost →
      r.beMaster shard prevAddress =
        ⟨0, none, [Call.ClaimMasterAddress shard r.localNormalAddress prevAddress], []⟩) ∧
    (∀ shard index prevAddress e,
      (r.addresser.ClaimReplicaAddress shard index r.localNormalAddress prevAddress).2 =
        some e →
      e ≠ Error.ClaimLost →
      r.beReplica shard index prevAddress =
        ⟨0, none, [Call.ClaimReplicaAddress shard index r.localNormalAddress prevAddress],
          []⟩) ∧
    (∀ rand Masters Replicas c e, c ∈ (r.findRole rand Masters Replicas).calls →
      r.claimErr c = some e → e ≠ Error.ClaimLost →
      r.findRole rand Masters Replicas = ⟨0, none, [c], []⟩) :=
  ⟨fun shard prev e h _ => beMaster_of_err r shard prev e h,
    fun shard index prev e h _ => beReplica_of_err r shard index prev e h,
    fun rand Masters Replicas c e hc h _ => findRole_of_err r rand Masters Replicas c e hc h⟩

/-- C10, amended, on an addresser whose store is unreachable. -/
theorem infra_error_is_dropped_witness :
    (mkRolerOn downAddresser "A" 1 1).beMaster 0 zeroAddress =
      ⟨0, none, [Call.ClaimMasterAddress 0 addrA zeroAddress], []⟩ ∧
    (mkRolerOn downAddresser "A" 1 1).beReplica 0 0 addrB =
      ⟨0, none, [Call.ClaimReplicaAddress 0 0 addrA addrB], []⟩ ∧
    (mkRolerOn downAddresser "A" 1 1).findRole (idRand 1 1) [] [] =
      ⟨0, none, [Call.ClaimMasterAddress 0 addrA zeroAddress], []⟩ :=
  ⟨(infra_error_is_dropped (mkRolerOn downAddresser "A" 1 1)).1 0 zeroAddress
      (Error.Other "connection refused") rfl (by decide),
    (infra_error_is_dropped (mkRolerOn downAddresser "A" 1 1)).2.1 0 0 addrB
      (Error.Other "connection refused") rfl (by decide),
    (infra_error_is_dropped (mkRolerOn downAddresser "A" 1 1)).2.2 (idRand 1 1) [] []
      (Call.ClaimMasterAddress 0 addrA zeroAddress) (Error.Other "connection refused")
      (by decide) rfl (by decide)⟩

/-! ## Server activation and hold workers -/

/-- The outcome of `beMaster`, by the answers of the addresser and of the
server. -/
theorem beMaster_eq (r : roler) (shard : Int) (prevAddress : Address) :
    r.beMaster shard prevAddress =
      match (r.addresser.ClaimMasterAddress shard r.localNormalAddress prevAddress).2,
        r.server.Master shard with
      | some _, _ =>
        ⟨0, none, [Call.ClaimMasterAddress shard r.localNormalAddress prevAddress], []⟩
      | none, some e =>
        ⟨0, some e, [Call.ClaimMasterAddress shard r.localNormalAddress prevAddress,
          Call.Master shard], []⟩
      | none, none =>
        ⟨(r.addresser.ClaimMasterAddress shard r.localNormalAddress prevAddress).1, none,
          [Call.ClaimMasterAddress shard r.localNormalAddress prevAddress, Call.Master shard],
          [[Call.HoldMasterAddress shard r.localNormalAddress, Call.Clear shard]]⟩ := by
  unfold roler.beMaster
  rcases h : r.addresser.ClaimMasterAddress shard r.localNormalAddress prevAddress with
    ⟨t, _ | e⟩
  · cases h2 : r.server.Master shard <;> simp
  · simp

/-- The outcome of `beReplica`, by the answers of the addresser and of the
server. -/
theorem beReplica_eq (r : roler) (shard index : Int) (prevAddress : Address) :
    r.beReplica shard index prevAddress =
      match (r.addresser.ClaimReplicaAddress shard index r.localNormalAddress prevAddress).2,
        r.server.Replica shard with
      | some _, _ =>
        ⟨0, none, [Call.ClaimReplicaAddress shard index r.localNormalAddress prevAddress],
          []⟩
      | none, some e =>
        ⟨0, some e, [Call.ClaimReplicaAddress shard index r.localNormalAddress prevAddress,
          Call.Replica shard], []⟩
      | none, none =>
        ⟨(r.addresser.ClaimReplicaAddress shard index r.localNormalAddress prevAddress).1,
          none,
          [Call.ClaimReplicaAddress shard index r.localNormalAddress prevAddress,
            Call.Replica shard],
          [[Call.HoldReplicaAddress shard index r.localNormalAddress, Call.Clear shard]]⟩ := by
  unfold roler.beReplica
  rcases h : r.addresser.ClaimReplicaAddress shard index r.localNormalAddress prevAddress with
    ⟨t, _ | e⟩
  · cases h2 : r.server.Replica shard <;> simp
  · simp

/-- The outcome of `findRole` is `noop`, `logicError`, or the outcome of one
`beMaster` or `beReplica` call. -/
theorem findRole_outcome (r : roler) (rand : Rand) (Masters : MasterMap)
    (Replicas : ReplicaMap) :
    r.findRole rand Masters Replicas = noop ∨
    r.findRole rand Masters Replicas = logicError ∨
    (∃ shard prev, r.findRole rand Masters Replicas = r.beMaster shard prev) ∨
    (∃ shard index prev, r.findRole rand Masters Replicas = r.beReplica shard index prev) := by
  rcases findRole_cases r rand Masters Replicas with h | h | h | h | h | h | h
  · exact Or.inl h.2
  · obtain ⟨_, shard, _, heq⟩ := h
    exact Or.inr (Or.inr (Or.inl ⟨_, _, heq⟩))
  · obtain ⟨_, _, shard, index, _, heq⟩ := h
    exact Or.inr (Or.inr (Or.inr ⟨_, _, _, heq⟩))
  · exact Or.inl h.2.2.2.2
  · obtain ⟨_, _, _, _, prev, shard, index, _, heq⟩ := h
    exact Or.inr (Or.inr (Or.inr ⟨_, _, _, heq⟩))
  · obtain ⟨_, _, _, _, _, prev, shard, _, heq⟩ := h
    exact Or.inr (Or.inr (Or.inl ⟨_, _, heq⟩))
  · exact Or.inr (Or.inl h.2.2.2.2.2.2)

/-- An outcome of `beMaster` whose activation callback failed. -/
theorem beMaster_of_activation_err (r : roler) (shard : Int) (prevAddress : Address)
    (c : Call) (e : Error) (hc : c ∈ (r.beMaster shard prevAddress).calls)
    (he : r.activationErr c = some e) :
    r.beMaster shard prevAddress =
      ⟨0, some e, [Call.ClaimMasterAddress shard r.localNormalAddress prevAddress, c], []⟩ := by
  rw [beMaster_eq] at hc ⊢
  rcases h1 : (r.addresser.ClaimMasterAddress shard r.localNormalAddress prevAddress).2 with
    _ | e1
  · rcases h2 : r.server.Master shard with _ | e2
    · simp only [h1, h2, List.mem_cons, List.mem_singleton, List.mem_nil_iff, or_false] at hc
      rcases hc with rfl | rfl
      · cases he
      · simp [roler.activationErr, h2] at he
    · simp only [h1, h2, List.mem_cons, List.mem_singleton, List.mem_nil_iff, or_false] at hc
      rcases hc with rfl | rfl
      · cases he
      · simp only [roler.activationErr, h2, Option.some.injEq] at he
        subst he
        rfl
  · simp only [h1, List.mem_singleton] at hc
    subst hc
    cases he

/-- An outcome of `beReplica` whose activation callback failed. -/
theorem beReplica_of_activation_err (r : roler) (shard index : Int)
    (prevAddress : Address) (c : Call) (e : Error)
    (hc : c ∈ (r.beReplica shard index prevAddress).calls)
    (he : r.activationErr c = some e) :
    r.beReplica shard index prevAddress =
      ⟨0, some e, [Call.ClaimReplicaAddress shard index r.localNormalAddress prevAddress, c],
        []⟩ := by
  rw [beReplica_eq] at hc ⊢
  rcases h1 : (r.addresser.ClaimReplicaAddress shard index r.localNormalAddress
      prevAddress).2 with _ | e1
  · rcases h2 : r.server.Replica shard with _ | e2
    · simp only [h1, h2, List.mem_cons, List.mem_singleton, List.mem_nil_iff, or_false] at hc
      rcases hc with rfl | rfl
      · cases he
      · simp [roler.activationErr, h2] at he
    · simp only [h1, h2, List.mem_cons, List.mem_singleton, List.mem_nil_iff, or_false] at hc
      rcases hc with rfl | rfl
      · cases he
      · simp only [roler.activationErr, h2, Option.some.injEq] at he
        subst he
        rfl
  · simp only [h1, List.mem_singleton] at hc
    subst hc
    cases he

/-- C11 (server activation failure): for every shard, if the CAS succeeds and
`Server.Master(shard)` (resp. `Server.Replica(shard)`) returns an error `e`,
then `beMaster` (resp. `beReplica`) returns `(0, e)`: the CAS token is not
returned, the only calls are the CAS and the activation callback (no
`HoldMasterAddress`, `HoldReplicaAddress` or `Server.Clear`), and no hold
worker is started; a `findRole` invocation whose activation callback fails
with `e` returns `(0, e)`, after one CAS and that callback, with no worker. -/
theorem activation_failure (r : roler) :
    (∀ shard prevAddress e,
      (r.addresser.ClaimMasterAddress shard r.localNormalAddress prevAddress).2 = none →
      r.server.Master shard = some e →
      r.beMaster shard prevAddress =
        ⟨0, some e, [Call.ClaimMasterAddress shard r.localNormalAddress prevAddress,
          Call.Master shard], []⟩) ∧
    (∀ shard index prevAddress e,
      (r.addresser.ClaimReplicaAddress shard index r.localNormalAddress prevAddress).2 =
        none →
      r.server.Replica shard = some e →
      r.beReplica shard index prevAddress =
        ⟨0, some e, [Call.ClaimReplicaAddress shard index r.localNormalAddress prevAddress,
          Call.Replica shard], []⟩) ∧
    (∀ rand Masters Replicas c e, c ∈ (r.findRole rand Masters Replicas).calls →
      r.activationErr c = some e →
      ∃ claim, claim.isClaim = true ∧
        r.findRole rand Masters Replicas = ⟨0, some e, [claim, c], []⟩) := by
  refine ⟨?_, ?_, ?_⟩
  · intro shard prev e h1 h2
    rw [beMaster_eq, h1, h2]
  · intro shard index prev e h1 h2
    rw [beReplica_eq, h1, h2]
  · intro rand Masters Replicas c e hc he
    rcases findRole_outcome r rand Masters Replicas with h | h | ⟨s, p, h⟩ | ⟨s, i, p, h⟩
    · rw [h] at hc; cases hc
    · rw [h] at hc; cases hc
    · rw [h] at hc ⊢
      exact ⟨Call.ClaimMasterAddress s r.localNormalAddress p, rfl,
        beMaster_of_activation_err r s p c e hc he⟩
    · rw [h] at hc ⊢
      exact ⟨Call.ClaimReplicaAddress s i r.localNormalAddress p, rfl,
        beReplica_of_activation_err r s i p c e hc he⟩

/-- C11 on a server whose activation fails: the CAS of the open master of
shard 0 succeeds with token 7, `Server.Master(0)` fails, and `beMaster`,
`beReplica` and `findRole` return token 0 with the server's error and start no
worker. -/
theorem activation_failure_witness :
    (⟨okAddresser, 1, failServer, "A", 0, false, 1⟩ : roler).beMaster 0 zeroAddress =
      ⟨0, some (Error.Other "activation failed"),
        [Call.ClaimMasterAddress 0 addrA zeroAddress, Call.Master 0], []⟩ ∧
    (⟨okAddresser, 1, failServer, "A", 0, false, 1⟩ : roler).beReplica 0 0 addrB =
      ⟨0, some (Error.Other "activation failed"),
        [Call.ClaimReplicaAddress 0 0 addrA addrB, Call.Replica 0], []⟩ ∧
    (∃ claim, claim.isClaim = true ∧
      (⟨okAddresser, 1, failServer, "A", 0, false, 1⟩ : roler).findRole (idRand 1 1) [] [] =
        ⟨0, some (Error.Other "activation failed"), [claim, Call.Master 0], []⟩) :=
  ⟨(activation_failure ⟨okAddresser, 1, failServer, "A", 0, false, 1⟩).1 0 zeroAddress
      (Error.Other "activation failed") rfl rfl,
    (activation_failure ⟨okAddresser, 1, failServer, "A", 0, false, 1⟩).2.1 0 0 addrB
      (Error.Other "activation failed") rfl rfl,
    (activation_failure ⟨okAddresser, 1, failServer, "A", 0, false, 1⟩).2.2 (idRand 1 1) [] []
      (Call.Master 0) (Error.Other "activation failed") (by decide) rfl⟩

theorem paired_noop (r : roler) : r.Paired noop := by
  refine ⟨?_, ?_, ?_⟩
  · intro c hc; cases hc
  · intro w hw; cases hw
  · intro shard; rfl

theorem paired_logicError (r : roler) : r.Paired logicError := by
  refine ⟨?_, ?_, ?_⟩
  · intro c hc; cases hc
  · intro w hw; cases hw
  · intro shard; rfl

theorem paired_beMaster (r : roler) (shard : Int) (prevAddress : Address) :
    r.Paired (r.beMaster shard prevAddress) := by
  rw [beMaster_eq]
  rcases h1 : (r.addresser.ClaimMasterAddress shard r.localNormalAddress prevAddress).2 with
    _ | e1
  · rcases h2 : r.server.Master shard with _ | e2
    · refine ⟨?_, ?_, ?_⟩
      · intro c hc
        simp only [List.mem_cons, List.mem_singleton, List.mem_nil_iff, or_false] at hc
        rcases hc with rfl | rfl
        · left; rfl
        · right; rfl
      · intro w hw
        simp only [List.mem_singleton] at hw
        exact ⟨shard, Or.inl hw⟩
      · intro s
        by_cases hs : shard = s
        · subst hs
          simp [roler.activated, h2, List.count_cons, List.countP_cons]
        · have hs2 : ¬ s = shard := fun h => hs h.symm
          simp [roler.activated, h2, List.count_cons, List.countP_cons, hs, hs2]
    · refine ⟨?_, ?_, ?_⟩
      · intro c hc
        simp only [List.mem_cons, List.mem_singleton, List.mem_nil_iff, or_false] at hc
        rcases hc with rfl | rfl
        · left; rfl
        · right; rfl
      · intro w hw; cases hw
      · intro s
        simp [roler.activated, h2, List.countP_cons]
  · refine ⟨?_, ?_, ?_⟩
    · intro c hc
      simp only [List.mem_singleton] at hc
      subst hc
      left; rfl
    · intro w hw; cases hw
    · intro s
      simp [roler.activated, List.countP_cons]

theorem paired_beReplica (r : roler) (shard index : Int) (prevAddress : Address) :
    r.Paired (r.beReplica shard index prevAddress) := by
  rw [beReplica_eq]
  rcases h1 : (r.addresser.ClaimReplicaAddress shard index r.localNormalAddress
      prevAddress).2 with _ | e1
  · rcases h2 : r.server.Replica shard with _ | e2
    · refine ⟨?_, ?_, ?_⟩
      · intro c hc
        simp only [List.mem_cons, List.mem_singleton, List.mem_nil_iff, or_false] at hc
        rcases hc with rfl | rfl
        · left; rfl
        · right; rfl
      · intro w hw
        simp only [List.mem_singleton] at hw
        exact ⟨shard, Or.inr ⟨index, hw⟩⟩
      · intro s
        by_cases hs : shard = s
        · subst hs
          simp [roler.activated, h2, List.count_cons, List.countP_cons]
        · have hs2 : ¬ s = shard := fun h => hs h.symm
          simp [roler.activated, h2, List.count_cons, List.countP_cons, hs, hs2]
    · refine ⟨?_, ?_, ?_⟩
      · intro c hc
        simp only [List.mem_cons, List.mem_singleton, List.mem_nil_iff, or_false] at hc
        rcases hc with rfl | rfl
        · left; rfl
        · right; rfl
      · intro w hw; cases hw
      · intro s
        simp [roler.activated, h2, List.countP_cons]
  · refine ⟨?_, ?_, ?_⟩
    · intro c hc
      simp only [List.mem_singleton] at hc
      subst hc
      left; rfl
    · intro w hw; cases hw
    · intro s
      simp [roler.activated, List.countP_cons]

/-- C12 (success path and Clear pairing): for every shard, if the CAS
succeeds with token `t` and `Server.Master(shard)` (resp.
`Server.Replica(shard)`) succeeds, `beMaster` (resp. `beReplica`) returns
`(t, nil)` and starts exactly one hold worker, whose calls are
`HoldMasterAddress(shard, local_normal, cancel)` (resp.
`HoldReplicaAddress(shard, index, local_normal, cancel)`) followed by one
`Server.Clear(shard)`; and in every outcome of `beMaster`, `beReplica` and
`findRole` the calls made before returning contain no hold and no clear, every
worker is such a hold worker, and on every shard the number of `Clear` issued
by the workers is the number of successful activations. -/
theorem success_starts_hold_worker (r : roler) :
    (∀ shard prevAddress,
      (r.addresser.ClaimMasterAddress shard r.localNormalAddress prevAddress).2 = none →
      r.server.Master shard = none →
      r.beMaster shard prevAddress =
        ⟨(r.addresser.ClaimMasterAddress shard r.localNormalAddress prevAddress).1, none,
          [Call.ClaimMasterAddress shard r.localNormalAddress prevAddress, Call.Master shard],
          [[Call.HoldMasterAddress shard ⟨r.localAddress, false⟩, Call.Clear shard]]⟩) ∧
    (∀ shard index prevAddress,
      (r.addresser.ClaimReplicaAddress shard index r.localNormalAddress prevAddress).2 =
        none →
      r.server.Replica shard = none →
      r.beReplica shard index prevAddress =
        ⟨(r.addresser.ClaimReplicaAddress shard index r.localNormalAddress prevAddress).1,
          none,
          [Call.ClaimReplicaAddress shard index r.localNormalAddress prevAddress,
            Call.Replica shard],
          [[Call.HoldReplicaAddress shard index ⟨r.localAddress, false⟩,
            Call.Clear shard]]⟩) ∧
    (∀ shard prevAddress, r.Paired (r.beMaster shard prevAddress)) ∧
    (∀ shard index prevAddress, r.Paired (r.beReplica shard index prevAddress)) ∧
    (∀ rand Masters Replicas, r.Paired (r.findRole rand Masters Replicas)) := by
  refine ⟨?_, ?_, paired_beMaster r, paired_beReplica r, ?_⟩
  · intro shard prev h1 h2
    rw [beMaster_eq, h1, h2]
    rfl
  · intro shard index prev h1 h2
    rw [beReplica_eq, h1, h2]
    rfl
  · intro rand Masters Replicas
    rcases findRole_outcome r rand Masters Replicas with h | h | ⟨s, p, h⟩ | ⟨s, i, p, h⟩
    · rw [h]; exact paired_noop r
    · rw [h]; exact paired_logicError r
    · rw [h]; exact paired_beMaster r s p
    · rw [h]; exact paired_beReplica r s i p

/-- C12 on an addresser and a server that succeed (token 7): `beMaster` and
`beReplica` return the token and start the hold worker of the claimed slot. -/
theorem success_starts_hold_worker_witness :
    (mkRoler "A" 1 1).beMaster 0 zeroAddress =
      ⟨7, none, [Call.ClaimMasterAddress 0 addrA zeroAddress, Call.Master 0],
        [[Call.HoldMasterAddress 0 addrA, Call.Clear 0]]⟩ ∧
    (mkRoler "A" 1 1).beReplica 0 0 addrB =
      ⟨7, none, [Call.ClaimReplicaAddress 0 0 addrA addrB, Call.Replica 0],
        [[Call.HoldReplicaAddress 0 0 addrA, Call.Clear 0]]⟩ :=
  ⟨(success_starts_hold_worker (mkRoler "A" 1 1)).1 0 zeroAddress rfl rfl,
    (success_starts_hold_worker (mkRoler "A" 1 1)).2.1 0 0 addrB rfl rfl⟩

/-! ## The logic-inconsistency error -/

/-- The master steal search fails exactly when the node is master of no shard
on which the local node has no role. -/
theorem randomMasterRole_false_iff (r : roler) (maxAddress : String)
    (Masters : MasterMap) (Replicas : ReplicaMap) (hwf : WF Masters Replicas) :
    (r.randomMasterRole maxAddress Masters Replicas).2.2 = false ↔
      ¬ ∃ shard, isMasterOf maxAddress shard Masters ∧
        ¬ holdsRole r.localAddress shard Masters Replicas := by
  constructor
  · rintro h ⟨shard, ⟨a, hmem, ha⟩, hno⟩
    exact randomMasterRole_false r maxAddress Masters Replicas h shard a hmem
      ⟨ha, (hasRoleForShard_eq_false_iff r shard hwf).2 hno⟩
  · intro h
    by_contra hcon
    have ht : (r.randomMasterRole maxAddress Masters Replicas).2.2 = true := by
      simpa using hcon
    have heq : r.randomMasterRole maxAddress Masters Replicas =
        ((r.randomMasterRole maxAddress Masters Replicas).1,
          (r.randomMasterRole maxAddress Masters Replicas).2.1, true) := by
      rw [← ht]
    obtain ⟨hmem, ha, hrole⟩ := randomMasterRole_true r _ _ _ _ _ heq
    exact h ⟨_, ⟨_, hmem, ha⟩, (hasRoleForShard_eq_false_iff r _ hwf).1 hrole⟩

theorem beMaster_ne_logicError (r : roler) (shard : Int) (prevAddress : Address) :
    r.beMaster shard prevAddress ≠ logicError := by
  intro h
  have h2 := beMaster_claims r shard prevAddress
  rw [h] at h2
  cases h2

theorem beReplica_ne_logicError (r : roler) (shard index : Int) (prevAddress : Address) :
    r.beReplica shard index prevAddress ≠ logicError := by
  intro h
  have h2 := beReplica_claims r shard index prevAddress
  rw [h] at h2
  cases h2

theorem noop_ne_logicError : noop ≠ logicError := by decide

/-- C17 (logic-inconsistency error): on every snapshot, `findRole` returns a
non-nil error with token 0 without having issued any claim call exactly when
it returns the error "Error we need to be able to find a role here." with no
call at all, and that happens exactly when the fairness gate passes, no open
master and no open replica slot is found, the gap condition
`counts[me] + 1 <= max - 1` holds, and the node selected by `maxCount` holds
neither a replica slot nor a master slot on any shard where the local node
holds no role. -/
theorem findRole_logic_error_iff (r : roler) (rand : Rand) (Masters : MasterMap)
    (Replicas : ReplicaMap) (hwf : WF Masters Replicas)
    (hv : rand.Valid r Masters Replicas) :
    (((r.findRole rand Masters Replicas).err ≠ none ∧
        (r.findRole rand Masters Replicas).modifiedIndex = 0 ∧
        (r.findRole rand Masters Replicas).calls.filter Call.isClaim = []) ↔
      r.findRole rand Masters Replicas = logicError) ∧
    (r.findRole rand Masters Replicas = logicError ↔
      (passesGate r Masters Replicas ∧
        (∀ shard, ¬ OpenMaster r shard Masters Replicas) ∧
        (∀ shard, ¬ OpenReplica r shard Masters Replicas) ∧
        roleCount r.localAddress Masters Replicas + 1 ≤
          roleCount (r.maxAddress rand Masters Replicas) Masters Replicas - 1 ∧
        (¬ ∃ shard index,
          isReplicaAt (r.maxAddress rand Masters Replicas) shard index Replicas ∧
          ¬ holdsRole r.localAddress shard Masters Replicas) ∧
        (¬ ∃ shard, isMasterOf (r.maxAddress rand Masters Replicas) shard Masters ∧
          ¬ holdsRole r.localAddress shard Masters Replicas))) := by
  have hyield := not_yields_iff r rand Masters Replicas hv
  have hgapiff := gap_iff r rand Masters Replicas hv
  have hom := openMasterRole_false_iff r Masters Replicas hwf hv.1
  have hor := openReplicaRole_false_iff r Masters Replicas hwf hv.2.1 hv.2.2.1
  have hrr := randomReplicaRole_false_iff r (r.maxAddress rand Masters Replicas) Masters
    Replicas hwf
  have hrm := randomMasterRole_false_iff r (r.maxAddress rand Masters Replicas) Masters
    Replicas hwf
  constructor
  · constructor
    · rintro ⟨herr, _, hclaims⟩
      rcases findRole_outcome r rand Masters Replicas with h | h | ⟨s, p, h⟩ | ⟨s, i, p, h⟩
      · rw [h] at herr; exact absurd rfl herr
      · exact h
      · rw [h, beMaster_claims] at hclaims; cases hclaims
      · rw [h, beReplica_claims] at hclaims; cases hclaims
    · intro h
      rw [h]
      decide
  · constructor
    · intro heq
      rcases findRole_cases r rand Masters Replicas with h | h | h | h | h | h | h
      · rw [h.2] at heq; exact absurd heq noop_ne_logicError
      · obtain ⟨_, s, _, h2⟩ := h
        rw [h2] at heq; exact absurd heq (beMaster_ne_logicError r _ _)
      · obtain ⟨_, _, s, i, _, h2⟩ := h
        rw [h2] at heq; exact absurd heq (beReplica_ne_logicError r _ _ _)
      · rw [h.2.2.2.2] at heq; exact absurd heq noop_ne_logicError
      · obtain ⟨_, _, _, _, p, s, i, _, h2⟩ := h
        rw [h2] at heq; exact absurd heq (beReplica_ne_logicError r _ _ _)
      · obtain ⟨_, _, _, _, _, p, s, _, h2⟩ := h
        rw [h2] at heq; exact absurd heq (beMaster_ne_logicError r _ _)
      · obtain ⟨h1, h2, h3, h4, h5, h6, _⟩ := h
        exact ⟨hyield.1 h1, hom.1 h2, hor.1 h3, hgapiff.1 h4, hrr.1 h5, hrm.1 h6⟩
    · rintro ⟨h1, h2, h3, h4, h5, h6⟩
      have g1 := hyield.2 h1
      have g2 := hom.2 h2
      have g3 := hor.2 h3
      have g4 := hgapiff.2 h4
      have g5 := hrr.2 h5
      have g6 := hrm.2 h6
      rcases findRole_cases r rand Masters Replicas with h | h | h | h | h | h | h
      · exact absurd h.1 g1
      · obtain ⟨_, s, hs, _⟩ := h
        rw [hs] at g2; cases g2
      · obtain ⟨_, _, s, i, hs, _⟩ := h
        rw [hs] at g3; cases g3
      · exact absurd g4 h.2.2.2.1
      · obtain ⟨_, _, _, _, p, s, i, hs, _⟩ := h
        rw [hs] at g5; cases g5
      · obtain ⟨_, _, _, _, _, p, s, hs, _⟩ := h
        rw [hs] at g6; cases g6
      · exact h.2.2.2.2.2.2

/-- C17 at a concrete snapshot: `N = 1`, `R = 3`, master `0:A`, replicas
`0:{0:A, 1:A, 2:B}`, local node `B`. The gap holds (`A:3`, `B:1`), every slot
of `A` is on shard 0 where `B` has a role, and `findRole` returns the error
without any call. -/
theorem findRole_logic_error_iff_witness :
    (mkRoler "B" 1 3).findRole (idRand 1 3) dupMasters dupReplicas = logicError ∧
    (passesGate (mkRoler "B" 1 3) dupMasters dupReplicas ∧
      (∀ shard, ¬ OpenMaster (mkRoler "B" 1 3) shard dupMasters dupReplicas) ∧
      (∀ shard, ¬ OpenReplica (mkRoler "B" 1 3) shard dupMasters dupReplicas) ∧
      roleCount (mkRoler "B" 1 3).localAddress dupMasters dupReplicas + 1 ≤
        roleCount ((mkRoler "B" 1 3).maxAddress (idRand 1 3) dupMasters dupReplicas)
          dupMasters dupReplicas - 1 ∧
      (¬ ∃ shard index,
        isReplicaAt ((mkRoler "B" 1 3).maxAddress (idRand 1 3) dupMasters dupReplicas)
          shard index dupReplicas ∧
        ¬ holdsRole (mkRoler "B" 1 3).localAddress shard dupMasters dupReplicas) ∧
      (¬ ∃ shard,
        isMasterOf ((mkRoler "B" 1 3).maxAddress (idRand 1 3) dupMasters dupReplicas)
          shard dupMasters ∧
        ¬ holdsRole (mkRoler "B" 1 3).localAddress shard dupMasters dupReplicas)) :=
  ⟨by decide,
    (findRole_logic_error_iff (mkRoler "B" 1 3) (idRand 1 3) dupMasters dupReplicas
      (by simp [WF, NodupKeys, dupMasters, dupReplicas]) (idRand_valid "B" 1 3 _ _)).2.1
      (by decide)⟩

/-! ## The balance calculator, as a whole -/

theorem sum_incr (counts : Counts) (address : String) :
    ((incr counts address).map Prod.snd).sum = (counts.map Prod.snd).sum + 1 := by
  induction counts with
  | nil => simp [incr]
  | cons e rest ih =>
    obtain ⟨k, c⟩ := e
    by_cases hk : k = address
    · simp only [incr, hk, if_true, List.map_cons, List.sum_cons]
      ring
    · simp only [incr, hk, if_false, List.map_cons, List.sum_cons, ih]
      ring

theorem sum_foldl_incr {α : Type} (f : α → String) (l : List α) (out : Counts) :
    ((l.foldl (fun out e => incr out (f e)) out).map Prod.snd).sum =
      (out.map Prod.snd).sum + (l.length : Int) := by
  induction l generalizing out with
  | nil => simp
  | cons e l ih =>
    rw [List.foldl_cons, ih, sum_incr, List.length_cons]
    push_cast
    ring

theorem sum_replicaCounts (r : roler) (Replicas : ReplicaMap) (out : Counts) :
    ((r.replicaCounts Replicas out).map Prod.snd).sum =
      (out.map Prod.snd).sum + (((Replicas.map (fun e => e.2.length)).sum : Nat) : Int) := by
  unfold roler.replicaCounts
  induction Replicas generalizing out with
  | nil => simp
  | cons e l ih =>
    rw [List.foldl_cons, ih, sum_foldl_incr (fun a : Int × Address => a.2.Address) e.2 out]
    simp only [List.map_cons, List.sum_cons, Nat.cast_add]
    ring

/-- C18 (balance calculator): for every snapshot, the map produced by
`masterCounts` followed by `replicaCounts` on an empty map gives every node id
its number of master entries plus its number of replica entries, normal and
backfilling alike; the keys of the map, each occurring once, are the nodes with
at least one role (a node without role is absent); and the counts add up to the
number of master and replica entries of the snapshot. -/
theorem counts_is_role_count (r : roler) (Masters : MasterMap) (Replicas : ReplicaMap) :
    (∀ node, getCount (r.replicaCounts Replicas (r.masterCounts Masters [])) node =
      ((Masters.countP (fun e => e.2.Address == node) : Nat) : Int) +
        (((Replicas.map (fun e => e.2.countP (fun a => a.2.Address == node))).sum : Nat) :
          Int)) ∧
    (∀ node, node ∈ (r.replicaCounts Replicas (r.masterCounts Masters [])).map Prod.fst ↔
      0 < roleCount node Masters Replicas) ∧
    ((r.replicaCounts Replicas (r.masterCounts Masters [])).map Prod.fst).Nodup ∧
    ((r.replicaCounts Replicas (r.masterCounts Masters [])).map Prod.snd).sum =
      (Masters.length : Int) + (((Replicas.map (fun e => e.2.length)).sum : Nat) : Int) := by
  refine ⟨fun node => getCount_counts r Masters Replicas node, ?_,
    (countsOK_counts r Masters Replicas).1, ?_⟩
  · intro node
    constructor
    · intro h
      obtain ⟨e, he, rfl⟩ := List.mem_map.1 h
      exact ((mem_counts_iff r Masters Replicas e.1 e.2).1 he).2
    · intro h
      exact List.mem_map_of_mem Prod.fst
        ((mem_counts_iff r Masters Replicas node _).2 ⟨rfl, h⟩)
  · rw [sum_replicaCounts]
    unfold roler.masterCounts
    rw [sum_foldl_incr (fun e : Int × Address => e.2.Address) Masters []]
    simp

/-! ## Cancellation -/

theorem cancelled_Cancel (r : roler) : r.Cancel.cancelled = true := by
  unfold roler.Cancel
  cases hc : r.cancelled <;> simp [hc]

theorem cancel_Cancel (r : roler) (hr : r.cancel = if r.cancelled then 1 else 0) :
    r.Cancel.cancel = 1 := by
  unfold roler.Cancel
  cases hc : r.cancelled
  · simp [hc] at hr
    simp [hr]
  · simp [hc] at hr
    simp [hr]

theorem cancelled_iterate_Cancel (r : roler) (n : Nat) (hn : 1 ≤ n) :
    (roler.Cancel^[n] r).cancelled = true := by
  cases n with
  | zero => omega
  | succ k =>
    rw [Function.iterate_succ_apply']
    exact cancelled_Cancel _

theorem cancel_iterate_Cancel (r : roler) (n : Nat)
    (hr : r.cancel = if r.cancelled then 1 else 0) :
    (roler.Cancel^[n] r).cancel = if (roler.Cancel^[n] r).cancelled then 1 else 0 := by
  induction n with
  | zero => exact hr
  | succ k ih =>
    rw [Function.iterate_succ_apply', cancel_Cancel _ ih, cancelled_Cancel]
    rfl

/-- C19 (Cancel is idempotent): for every roler state, `Cancel` followed by
`Cancel` yields the same state as a single `Cancel`; after any number `n >= 1`
of sequential `Cancel` calls the cancelled flag is true; and on a roler built
by `newRoler`, or in any state in which the channel has been closed once if the
flag is set and never otherwise, the cancel channel has then been closed
exactly once. -/
theorem Cancel_idempotent :
    (∀ r : roler, r.Cancel.Cancel = r.Cancel) ∧
    (∀ (r : roler) (n : Nat), 1 ≤ n → (roler.Cancel^[n] r).cancelled = true) ∧
    (∀ (r : roler) (n : Nat), 1 ≤ n → (r.cancel = if r.cancelled then 1 else 0) →
      (roler.Cancel^[n] r).cancel = 1) ∧
    (∀ addresser sharder server localAddress numReplicas (n : Nat), 1 ≤ n →
      (roler.Cancel^[n] (newRoler addresser sharder server localAddress
        numReplicas)).cancelled = true ∧
      (roler.Cancel^[n] (newRoler addresser sharder server localAddress
        numReplicas)).cancel = 1) := by
  refine ⟨?_, cancelled_iterate_Cancel, ?_, ?_⟩
  · intro r
    unfold roler.Cancel
    cases hc : r.cancelled <;> simp [hc]
  · intro r n hn hr
    have h1 := cancel_iterate_Cancel r n hr
    rw [cancelled_iterate_Cancel r n hn] at h1
    simpa using h1
  · intro addresser sharder server localAddress numReplicas n hn
    refine ⟨cancelled_iterate_Cancel _ n hn, ?_⟩
    have h1 := cancel_iterate_Cancel
      (newRoler addresser sharder server localAddress numReplicas) n rfl
    rw [cancelled_iterate_Cancel _ n hn] at h1
    simpa using h1

/-- C19 on a fresh roler: after three `Cancel` calls the flag is set and the
channel has been closed once. -/
theorem Cancel_idempotent_witness :
    (roler.Cancel^[3] (newRoler okAddresser 4 okServer "A" 1)).cancelled = true ∧
    (roler.Cancel^[3] (newRoler okAddresser 4 okServer "A" 1)).cancel = 1 :=
  Cancel_idempotent.2.2.2 okAddresser 4 okServer "A" 1 3 (by decide)

/-! ## Steady states -/

theorem idRand_valid_of (r : roler) (Masters : MasterMap) (Replicas : ReplicaMap) :
    r.idRand.Valid r Masters Replicas :=
  ⟨List.Perm.refl _, List.Perm.refl _, fun _ => List.Perm.refl _, List.Perm.refl _,
    List.Perm.refl _⟩

theorem beMaster_ne_noop (r : roler) (shard : Int) (prevAddress : Address) :
    r.beMaster shard prevAddress ≠ noop := by
  intro h
  have h2 := beMaster_claims r shard prevAddress
  rw [h] at h2
  cases h2

theorem beReplica_ne_noop (r : roler) (shard index : Int) (prevAddress : Address) :
    r.beReplica shard index prevAddress ≠ noop := by
  intro h
  have h2 := beReplica_claims r shard index prevAddress
  rw [h] at h2
  cases h2

/-- The invocations of `findRole` that do nothing: the local node yields, or
it passes the gate, finds no open slot and fails the gap test. -/
theorem findRole_eq_noop_iff (r : roler) (rand : Rand) (Masters : MasterMap)
    (Replicas : ReplicaMap) :
    r.findRole rand Masters Replicas = noop ↔
      r.yields rand Masters Replicas ∨
      (¬ r.yields rand Masters Replicas ∧
        (r.openMasterRole rand.permMaster Masters Replicas).2 = false ∧
        (r.openReplicaRole rand.permShard rand.permIndex Masters Replicas).2.2 = false ∧
        ¬ r.gap rand Masters Replicas) := by
  constructor
  · intro heq
    rcases findRole_cases r rand Masters Replicas with h | h | h | h | h | h | h
    · exact Or.inl h.1
    · obtain ⟨_, s, _, h2⟩ := h
      rw [h2] at heq; exact absurd heq (beMaster_ne_noop r _ _)
    · obtain ⟨_, _, s, i, _, h2⟩ := h
      rw [h2] at heq; exact absurd heq (beReplica_ne_noop r _ _ _)
    · exact Or.inr ⟨h.1, h.2.1, h.2.2.1, h.2.2.2.1⟩
    · obtain ⟨_, _, _, _, p, s, i, _, h2⟩ := h
      rw [h2] at heq; exact absurd heq (beReplica_ne_noop r _ _ _)
    · obtain ⟨_, _, _, _, _, p, s, _, h2⟩ := h
      rw [h2] at heq; exact absurd heq (beMaster_ne_noop r _ _)
    · rw [h.2.2.2.2.2.2] at heq; exact absurd heq.symm noop_ne_logicError
  · intro hcond
    rcases findRole_cases r rand Masters Replicas with h | h | h | h | h | h | h
    · exact h.2
    · obtain ⟨hy, s, hs, _⟩ := h
      rcases hcond with hc | hc
      · exact absurd hc hy
      · rw [hs] at hc; cases hc.2.1
    · obtain ⟨hy, _, s, i, hs, _⟩ := h
      rcases hcond with hc | hc
      · exact absurd hc hy
      · rw [hs] at hc; cases hc.2.2.1
    · exact h.2.2.2.2
    all_goals
      rcases hcond with hc | hc
      · exact absurd hc h.1
      · exact absurd h.2.2.2.1 hc.2.2.2

/-- The local node does nothing when the gate passes, no slot is open for it
and no node has two roles more. -/
theorem findRole_eq_noop (r : roler) (rand : Rand) (Masters : MasterMap)
    (Replicas : ReplicaMap) (hwf : WF Masters Replicas)
    (hv : rand.Valid r Masters Replicas)
    (hom : ∀ shard, ¬ OpenMaster r shard Masters Replicas)
    (hor : ∀ shard, ¬ OpenReplica r shard Masters Replicas)
    (hngap : ∀ node, roleCount node Masters Replicas - 1 <
      roleCount r.localAddress Masters Replicas + 1) :
    r.findRole rand Masters Replicas = noop := by
  rw [findRole_eq_noop_iff]
  by_cases hy : r.yields rand Masters Replicas
  · exact Or.inl hy
  · exact Or.inr ⟨hy, (openMasterRole_false_iff r Masters Replicas hwf hv.1).2 hom,
      (openReplicaRole_false_iff r Masters Replicas hwf hv.2.1 hv.2.2.1).2 hor,
      (not_gap_iff r rand Masters Replicas hv).2 hngap⟩

/-- C13 (steady states are balanced): for every snapshot whose addresses all
belong to a non-empty set of live nodes and whose counts fit Go's `int`, if
the `findRole` of every live node on that snapshot returns `(0, nil)` without
any call, for every random choice, then the numbers of roles of two live nodes
differ by at most 1, a live node absent from the snapshot counting 0. -/
theorem steady_state_balanced (r : roler) (live : List String) (Masters : MasterMap)
    (Replicas : ReplicaMap) (hfit : Fits Masters Replicas) (hne : live ≠ [])
    (hlive : ∀ node, 0 < roleCount node Masters Replicas → node ∈ live)
    (hsteady : ∀ node ∈ live, ∀ rand, rand.Valid (r.atNode node) Masters Replicas →
      (r.atNode node).findRole rand Masters Replicas = ⟨0, none, [], []⟩) :
    ∀ i ∈ live, ∀ j ∈ live,
      |roleCount i Masters Replicas - roleCount j Masters Replicas| ≤ 1 := by
  have hnonempty : live.toFinset.Nonempty := by
    obtain ⟨x, hx⟩ := List.exists_mem_of_ne_nil live hne
    exact ⟨x, List.mem_toFinset.2 hx⟩
  obtain ⟨n0, hn0, hmin⟩ :=
    Finset.exists_min_image live.toFinset (fun n => roleCount n Masters Replicas) hnonempty
  have hn0l : n0 ∈ live := List.mem_toFinset.1 hn0
  have hmin2 : ∀ node ∈ live, roleCount n0 Masters Replicas ≤ roleCount node Masters Replicas :=
    fun node h => hmin node (List.mem_toFinset.2 h)
  have hv := idRand_valid_of (r.atNode n0) Masters Replicas
  have hnoop := hsteady n0 hn0l _ hv
  have hgate : passesGate (r.atNode n0) Masters Replicas :=
    ⟨hfit n0, fun node hnode => hmin2 node (hlive node hnode)⟩
  have hny := (not_yields_iff (r.atNode n0) _ Masters Replicas hv).2 hgate
  have hbound : ∀ node, roleCount node Masters Replicas ≤
      roleCount n0 Masters Replicas + 1 := by
    rcases (findRole_eq_noop_iff (r.atNode n0) _ Masters Replicas).1 hnoop with h | h
    · exact absurd h hny
    · intro node
      have := (not_gap_iff (r.atNode n0) _ Masters Replicas hv).1 h.2.2.2 node
      have h2 : (r.atNode n0).localAddress = n0 := rfl
      rw [h2] at this
      omega
  intro i hi j hj
  have h1 := hmin2 i hi
  have h2 := hmin2 j hj
  have h3 := hbound i
  have h4 := hbound j
  rw [abs_le]
  constructor <;> omega

theorem roleCount_cross (node : String) :
    roleCount node crossMasters crossReplicas =
      if node = "A" then 2 else if node = "B" then 2 else 0 := by
  by_cases hA : node = "A"
  · subst hA; decide
  · by_cases hB : node = "B"
    · subst hB; decide
    · have hA2 : ¬ "A" = node := fun h => hA h.symm
      have hB2 : ¬ "B" = node := fun h => hB h.symm
      simp [roleCount, crossMasters, crossReplicas, addrA, addrB, hA, hB, hA2, hB2]

/-- The balanced assignment `crossMasters`, `crossReplicas` is steady for both
nodes, whatever the random choices. -/
theorem cross_steady (node : String) (hnode : node = "A" ∨ node = "B") (rand : Rand)
    (hv : rand.Valid ((mkRoler "A" 2 1).atNode node) crossMasters crossReplicas) :
    ((mkRoler "A" 2 1).atNode node).findRole rand crossMasters crossReplicas = noop := by
  have hwf : WF crossMasters crossReplicas := by
    simp [WF, NodupKeys, crossMasters, crossReplicas]
  refine findRole_eq_noop _ rand _ _ hwf hv ?_ ?_ ?_
  · rcases hnode with rfl | rfl
    · exact (openMasterRole_false_iff _ _ _ hwf (List.Perm.refl _)).1 (by decide)
    · exact (openMasterRole_false_iff _ _ _ hwf (List.Perm.refl _)).1 (by decide)
  · rcases hnode with rfl | rfl
    · exact (openReplicaRole_false_iff _ _ _ hwf (List.Perm.refl _)
        (fun _ => List.Perm.refl _)).1 (by decide)
    · exact (openReplicaRole_false_iff _ _ _ hwf (List.Perm.refl _)
        (fun _ => List.Perm.refl _)).1 (by decide)
  · intro n
    have h1 : roleCount ((mkRoler "A" 2 1).atNode node).localAddress crossMasters
        crossReplicas = 2 := by
      rcases hnode with rfl | rfl <;> decide
    rw [h1, roleCount_cross]
    split
    · decide
    · split <;> decide

/-- C13 at the balanced assignment of two live nodes `A` and `B`, masters
`0:A, 1:B`, replicas `0:{0:B}, 1:{0:A}` (`N = 2`, `R = 1`): both nodes do
nothing for every random choice, and their counts are equal. -/
theorem steady_state_balanced_witness :
    |roleCount "A" crossMasters crossReplicas - roleCount "B" crossMasters crossReplicas| ≤ 1 :=
  steady_state_balanced (mkRoler "A" 2 1) ["A", "B"] crossMasters crossReplicas
    (by
      intro node
      rw [roleCount_cross]
      split
      · decide
      · split <;> decide)
    (by simp)
    (by
      intro node h
      rw [roleCount_cross] at h
      by_cases hA : node = "A"
      · simp [hA]
      · by_cases hB : node = "B"
        · simp [hB]
        · simp [hA, hB] at h)
    (by
      intro node h rand hv
      have hn : node = "A" ∨ node = "B" := by simpa using h
      exact cross_steady node hn rand hv)
    "A" (by simp) "B" (by simp)

/-! ## The effect of a steal on the counts -/

/-- The steals of `findRole`: a claim call whose witness is not the zero
Address is issued behind the gap test, on a slot that the snapshot lists with
that witness, which is an address of the node returned by `maxCount`; the new
address is the local normal address. -/
theorem findRole_steal_spec (r : roler) (rand : Rand) (Masters : MasterMap)
    (Replicas : ReplicaMap) (c : Call) (hc : c ∈ (r.findRole rand Masters Replicas).calls)
    (hsteal : c.isSteal = true) :
    r.gap rand Masters Replicas ∧
    ((∃ shard prev, c = Call.ClaimMasterAddress shard r.localNormalAddress prev ∧
        (shard, prev) ∈ Masters ∧ prev.Address = r.maxAddress rand Masters Replicas) ∨
      (∃ shard index prev addresses,
        c = Call.ClaimReplicaAddress shard index r.localNormalAddress prev ∧
        (shard, addresses) ∈ Replicas ∧ (index, prev) ∈ addresses ∧
        prev.Address = r.maxAddress rand Masters Replicas)) := by
  have hzero : (zeroAddress != zeroAddress) = false := by decide
  rcases findRole_cases r rand Masters Replicas with h | h | h | h | h | h | h
  · rw [h.2] at hc; cases hc
  · obtain ⟨_, shard, _, heq⟩ := h
    rw [heq] at hc
    rcases mem_beMaster_calls r _ _ c hc with rfl | rfl
    · simp [Call.isSteal, hzero] at hsteal
    · simp [Call.isSteal] at hsteal
  · obtain ⟨_, _, shard, index, _, heq⟩ := h
    rw [heq] at hc
    rcases mem_beReplica_calls r _ _ _ c hc with rfl | rfl
    · simp [Call.isSteal, hzero] at hsteal
    · simp [Call.isSteal] at hsteal
  · rw [h.2.2.2.2] at hc; cases hc
  · obtain ⟨_, _, _, hg, prev, shard, index, hs, heq⟩ := h
    rw [heq] at hc
    rcases mem_beReplica_calls r _ _ _ c hc with rfl | rfl
    · obtain ⟨⟨addresses, hmem, hia⟩, ha, _⟩ := randomReplicaRole_true r _ _ _ _ _ _ hs
      exact ⟨hg, Or.inr ⟨shard, index, prev, addresses, rfl, hmem, hia, ha⟩⟩
    · simp [Call.isSteal] at hsteal
  · obtain ⟨_, _, _, hg, _, prev, shard, hs, heq⟩ := h
    rw [heq] at hc
    rcases mem_beMaster_calls r _ _ c hc with rfl | rfl
    · obtain ⟨hmem, ha, _⟩ := randomMasterRole_true r _ _ _ _ _ hs
      exact ⟨hg, Or.inl ⟨shard, prev, rfl, hmem, ha⟩⟩
    · simp [Call.isSteal] at hsteal
  · rw [h.2.2.2.2.2.2] at hc; cases hc

/-- Overwriting an entry of a map changes a sum over the entries by the
difference of the two terms. -/
theorem sum_setSlot_replace {ν : Type} (g : Int × ν → Nat) {m : List (Int × ν)}
    (hnd : NodupKeys m) {k : Int} {old : ν} (hmem : (k, old) ∈ m) (v : ν) :
    ((setSlot m k v).map g).sum + g (k, old) = (m.map g).sum + g (k, v) := by
  induction m with
  | nil => cases hmem
  | cons e rest ih =>
    obtain ⟨a, b⟩ := e
    have hnd2 : a ∉ rest.map Prod.fst ∧ NodupKeys rest := by
      simpa [NodupKeys] using hnd
    by_cases ha : a = k
    · subst ha
      have hb : old = b := by
        rcases List.mem_cons.1 hmem with h | h
        · exact (Prod.mk.inj h).2
        · exact absurd (List.mem_map_of_mem Prod.fst h) hnd2.1
      subst hb
      simp only [setSlot, if_true, List.map_cons, List.sum_cons]
      omega
    · have hmem2 : (k, old) ∈ rest := by
        rcases List.mem_cons.1 hmem with h | h
        · exact absurd (Prod.mk.inj h).1.symm ha
        · exact h
      have := ih hnd2.2 hmem2
      simp only [setSlot, ha, if_false, List.map_cons, List.sum_cons]
      omega

theorem countP_eq_sum {α : Type} (p : α → Bool) (l : List α) :
    l.countP p = (l.map (fun e => if p e then 1 else 0)).sum := by
  induction l with
  | nil => rfl
  | cons e l ih =>
    rw [List.countP_cons, ih, List.map_cons, List.sum_cons]
    split <;> omega

/-- Overwriting an entry of a map changes a count over the entries by the
difference of the two indicators. -/
theorem countP_setSlot_replace {ν : Type} (p : Int × ν → Bool) {m : List (Int × ν)}
    (hnd : NodupKeys m) {k : Int} {old : ν} (hmem : (k, old) ∈ m) (v : ν) :
    (setSlot m k v).countP p + (if p (k, old) then 1 else 0) =
      m.countP p + (if p (k, v) then 1 else 0) := by
  rw [countP_eq_sum, countP_eq_sum]
  exact sum_setSlot_replace (fun e => if p e then 1 else 0) hnd hmem v

/-- A master steal moves one role from the node of the stored address to the
node of the new address. -/
theorem roleCount_steal_master {Masters : MasterMap} (Replicas : ReplicaMap)
    (hnd : NodupKeys Masters) {shard : Int} {old : Address} (hmem : (shard, old) ∈ Masters)
    (new : Address) (node : String) :
    roleCount node (setSlot Masters shard new) Replicas +
        (if old.Address = node then 1 else 0) =
      roleCount node Masters Replicas + (if new.Address = node then 1 else 0) := by
  have h := countP_setSlot_replace (fun e : Int × Address => e.2.Address == node) hnd hmem new
  simp only [beq_iff_eq] at h
  unfold roleCount
  split at h <;> split at h <;> simp_all <;> omega

/-- A replica steal moves one role from the node of the stored address to the
node of the new address. -/
theorem roleCount_steal_replica (Masters : MasterMap) {Replicas : ReplicaMap}
    (hwf : WF Masters Replicas) {shard index : Int} {addresses : List (Int × Address)}
    {old : Address} (hs : (shard, addresses) ∈ Replicas) (hi : (index, old) ∈ addresses)
    (new : Address) (node : String) :
    roleCount node Masters
        (setSlot Replicas shard (setSlot (replicasOf Replicas shard) index new)) +
        (if old.Address = node then 1 else 0) =
      roleCount node Masters Replicas + (if new.Address = node then 1 else 0) := by
  rw [replicasOf_eq_of_mem hwf.2.1 hs]
  have h1 := sum_setSlot_replace
    (fun e : Int × List (Int × Address) => e.2.countP (fun a => a.2.Address == node))
    hwf.2.1 hs (setSlot addresses index new)
  have h2 := countP_setSlot_replace (fun e : Int × Address => e.2.Address == node)
    (hwf.2.2 _ hs) hi new
  simp only [beq_iff_eq] at h2
  simp only at h1
  have hnat : (List.map (fun e : Int × List (Int × Address) =>
        e.2.countP (fun a => a.2.Address == node))
        (setSlot Replicas shard (setSlot addresses index new))).sum +
        (if old.Address = node then 1 else 0) =
      (List.map (fun e : Int × List (Int × Address) =>
        e.2.countP (fun a => a.2.Address == node)) Replicas).sum +
        (if new.Address = node then 1 else 0) := by
    omega
  have hint := congrArg (Nat.cast : Nat → Int) hnat
  simp only [Nat.cast_add, Nat.cast_ite, Nat.cast_one, Nat.cast_zero] at hint
  unfold roleCount
  omega

/-- The counts after a successful steal of `findRole`: the witness of the
steal is an address of the node returned by `maxCount`, the gap test holds,
and the steal moves one role from that node to the local node. -/
theorem roleCount_after_steal (r : roler) (rand : Rand) (Masters : MasterMap)
    (Replicas : ReplicaMap) (hwf : WF Masters Replicas) (c : Call)
    (hc : c ∈ (r.findRole rand Masters Replicas).calls) (hsteal : c.isSteal = true) :
    ∃ victim, c.witnessAddress = some victim ∧
      victim.Address = r.maxAddress rand Masters Replicas ∧ r.gap rand Masters Replicas ∧
      ∀ node,
        roleCount node (applyClaim c Masters Replicas).1 (applyClaim c Masters Replicas).2 +
            (if victim.Address = node then 1 else 0) =
          roleCount node Masters Replicas + (if r.localAddress = node then 1 else 0) := by
  obtain ⟨hg, h | h⟩ := findRole_steal_spec r rand Masters Replicas c hc hsteal
  · obtain ⟨shard, prev, rfl, hmem, ha⟩ := h
    refine ⟨prev, rfl, ha, hg, fun node => ?_⟩
    exact roleCount_steal_master Replicas hwf.1 hmem r.localNormalAddress node
  · obtain ⟨shard, index, prev, addresses, rfl, hs, hi, ha⟩ := h
    refine ⟨prev, rfl, ha, hg, fun node => ?_⟩
    exact roleCount_steal_replica Masters hwf hs hi r.localNormalAddress node

/-! ## Counting roles shard by shard -/

/-- A sum over the entries of a map, taken key by key over a set of keys that
contains the keys of the map. -/
theorem sum_lookup_eq {β : Type} (w : β → Nat) {m : List (Int × β)} (hnd : NodupKeys m)
    (K : Finset Int) (hK : ∀ e ∈ m, e.1 ∈ K) :
    Finset.sum K (fun s => ((m.lookup s).map w).getD 0) = (m.map (fun e => w e.2)).sum := by
  induction m with
  | nil => simp
  | cons e rest ih =>
    obtain ⟨a, b⟩ := e
    have hnd2 : a ∉ rest.map Prod.fst ∧ NodupKeys rest := by
      simpa [NodupKeys] using hnd
    have hrest : rest.lookup a = none := by
      rw [lookup_eq_none_iff]
      intro v hv
      exact hnd2.1 (List.mem_map_of_mem Prod.fst hv)
    have ha : a ∈ K := hK (a, b) (List.mem_cons_self _ _)
    have hpoint : ∀ s, ((((a, b) :: rest).lookup s).map w).getD 0 =
        (if a = s then w b else 0) + ((rest.lookup s).map w).getD 0 := by
      intro s
      rw [List.lookup_cons]
      by_cases hs : s = a
      · subst hs
        simp [hrest]
      · have hb : (s == a) = false := by simpa using hs
        have hs2 : ¬ a = s := fun h => hs h.symm
        simp [hb, hs2]
    simp only [hpoint]
    rw [Finset.sum_add_distrib, ih hnd2.2 (fun e he => hK e (List.mem_cons_of_mem _ he)),
      Finset.sum_ite_eq]
    simp [ha]

/-- The number of roles of a node is the sum, over the shards of the snapshot,
of its numbers of roles on the shard. -/
theorem roleCount_eq_sum (node : String) {Masters : MasterMap} {Replicas : ReplicaMap}
    (hwf : WF Masters Replicas) :
    roleCount node Masters Replicas =
      ((Finset.sum (Masters.map Prod.fst ++ Replicas.map Prod.fst).toFinset
        (fun s => rolesOnShard node s Masters Replicas) : Nat) : Int) := by
  have hM := sum_lookup_eq (fun a : Address => if a.Address = node then 1 else 0) hwf.1
    (Masters.map Prod.fst ++ Replicas.map Prod.fst).toFinset (by
      intro e he
      simp only [List.mem_toFinset, List.mem_append]
      exact Or.inl (List.mem_map_of_mem Prod.fst he))
  have hR := sum_lookup_eq
    (fun l : List (Int × Address) => l.countP (fun a => a.2.Address == node)) hwf.2.1
    (Masters.map Prod.fst ++ Replicas.map Prod.fst).toFinset (by
      intro e he
      simp only [List.mem_toFinset, List.mem_append]
      exact Or.inr (List.mem_map_of_mem Prod.fst he))
  have hpoint : ∀ s, rolesOnShard node s Masters Replicas =
      ((Masters.lookup s).map (fun a : Address => if a.Address = node then 1 else 0)).getD 0 +
      ((Replicas.lookup s).map
        (fun l : List (Int × Address) => l.countP (fun a => a.2.Address == node))).getD 0 := by
    intro s
    unfold rolesOnShard replicasOf
    cases Replicas.lookup s <;> cases Masters.lookup s <;> rfl
  simp only [hpoint]
  rw [Finset.sum_add_distrib, hM, hR]
  unfold roleCount
  rw [countP_eq_sum]
  simp only [beq_iff_eq, decide_eq_true_eq]
  push_cast
  rfl

/-- A node for which `hasRoleForShard` is true has a role on the shard. -/
theorem rolesOnShard_pos (r : roler) (shard : Int) (Masters : MasterMap)
    (Replicas : ReplicaMap) (h : r.hasRoleForShard shard Masters Replicas = true) :
    1 ≤ rolesOnShard r.localAddress shard Masters Replicas := by
  unfold roler.hasRoleForShard at h
  unfold rolesOnShard replicasOf
  cases hm : Masters.lookup shard with
  | some a =>
    by_cases ha : a.Address = r.localAddress
    · simp [ha]
    · simp only [hm, beq_iff_eq, ha, decide_False, Bool.false_eq_true, if_false] at h
      cases hr : Replicas.lookup shard with
      | none => simp [hr] at h
      | some addresses =>
        simp only [hr] at h
        have : 0 < addresses.countP (fun a => a.2.Address == r.localAddress) := by
          rw [List.countP_pos_iff]
          rw [List.any_eq_true] at h
          exact h
        simp only [Option.getD_some]
        omega
  | none =>
    simp only [hm, Bool.false_eq_true, if_false] at h
    cases hr : Replicas.lookup shard with
    | none => simp [hr] at h
    | some addresses =>
      simp only [hr] at h
      have : 0 < addresses.countP (fun a => a.2.Address == r.localAddress) := by
        rw [List.countP_pos_iff]
        rw [List.any_eq_true] at h
        exact h
      simp only [Option.getD_some]
      omega

theorem mem_of_lookup_eq_some {κ ν : Type} [BEq κ] [LawfulBEq κ] {m : List (κ × ν)} {k : κ}
    {v : ν} (h : m.lookup k = some v) : (k, v) ∈ m := by
  induction m with
  | nil => simp at h
  | cons e rest ih =>
    obtain ⟨a, b⟩ := e
    rw [List.lookup_cons] at h
    by_cases hk : k = a
    · subst hk
      simp only [beq_self_eq_true, Option.some.injEq] at h
      subst h
      exact List.mem_cons_self _ _
    · have hb : (k == a) = false := by simpa using hk
      simp only [hb] at h
      exact List.mem_cons_of_mem _ (ih h)

/-- When both steal searches fail for the node `node`, the local node has a
role on every shard on which `node` has one. -/
theorem rolesOnShard_le_of_searches_fail (r : roler) (node : String)
    (Masters : MasterMap) (Replicas : ReplicaMap) (hno : NoSelfDup Masters Replicas)
    (hrr : (r.randomReplicaRole node Masters Replicas).2.2.2 = false)
    (hrm : (r.randomMasterRole node Masters Replicas).2.2 = false) (shard : Int) :
    rolesOnShard node shard Masters Replicas ≤
      rolesOnShard r.localAddress shard Masters Replicas := by
  have h1 := hno node shard
  by_cases h0 : rolesOnShard node shard Masters Replicas = 0
  · omega
  · have hrole : r.hasRoleForShard shard Masters Replicas = true := by
      by_contra hcon
      have hf : r.hasRoleForShard shard Masters Replicas = false := by simpa using hcon
      apply h0
      unfold rolesOnShard replicasOf
      have hmaster : (match Masters.lookup shard with
          | some a => if a.Address = node then 1 else 0
          | none => 0) = 0 := by
        cases hm : Masters.lookup shard with
        | none => rfl
        | some a =>
          by_cases ha : a.Address = node
          · exact absurd ⟨ha, hf⟩
              (randomMasterRole_false r node Masters Replicas hrm shard a
                (mem_of_lookup_eq_some hm))
          · simp [ha]
      have hrep : ((Replicas.lookup shard).getD []).countP
          (fun a => a.2.Address == node) = 0 := by
        cases hr : Replicas.lookup shard with
        | none => rfl
        | some addresses =>
          simp only [Option.getD_some, List.countP_eq_zero, beq_iff_eq]
          intro a ha hnode
          exact randomReplicaRole_false r node Masters Replicas hrr shard addresses a.1 a.2
            (mem_of_lookup_eq_some hr) ha ⟨hnode, hf⟩
      rw [hmaster, hrep]
    have := rolesOnShard_pos r shard Masters Replicas hrole
    omega

/-! ## The logic-inconsistency error on well-formed snapshots -/

/-- C20 (the logic-inconsistency error is unreachable on well-formed
snapshots): on every snapshot in which no node holds more than one role on the
same shard, for every random choice and tie-break of `maxCount`, `findRole`
does not take the return with the error "Error we need to be able to find a
role here.": whenever the gap condition `counts[me] + 1 <= max - 1` holds, the
node selected by `maxCount` owns a replica or a master slot on some shard where
the local node holds no role. Without the hypothesis the error is reachable:
with `R = 3`, master `0:A`, replicas `0:{0:A, 1:A, 2:B}` and local node `B`,
node `A` holds three roles on shard 0 and `findRole` returns the error. -/
theorem logic_error_unreachable :
    (∀ (r : roler) (rand : Rand) (Masters : MasterMap) (Replicas : ReplicaMap),
      WF Masters Replicas → NoSelfDup Masters Replicas → rand.Valid r Masters Replicas →
      r.findRole rand Masters Replicas ≠ logicError ∧
      (roleCount r.localAddress Masters Replicas + 1 ≤
          roleCount (r.maxAddress rand Masters Replicas) Masters Replicas - 1 →
        (∃ shard index,
          isReplicaAt (r.maxAddress rand Masters Replicas) shard index Replicas ∧
          ¬ holdsRole r.localAddress shard Masters Replicas) ∨
        (∃ shard, isMasterOf (r.maxAddress rand Masters Replicas) shard Masters ∧
          ¬ holdsRole r.localAddress shard Masters Replicas))) ∧
    (¬ NoSelfDup dupMasters dupReplicas ∧
      (mkRoler "B" 1 3).findRole (idRand 1 3) dupMasters dupReplicas = logicError) := by
  constructor
  · intro r rand Masters Replicas hwf hno hv
    have hkey : roleCount r.localAddress Masters Replicas + 1 ≤
        roleCount (r.maxAddress rand Masters Replicas) Masters Replicas - 1 →
        ¬ ((r.randomReplicaRole (r.maxAddress rand Masters Replicas) Masters
            Replicas).2.2.2 = false ∧
          (r.randomMasterRole (r.maxAddress rand Masters Replicas) Masters
            Replicas).2.2 = false) := by
      rintro hgap ⟨hrr, hrm⟩
      have hle : roleCount (r.maxAddress rand Masters Replicas) Masters Replicas ≤
          roleCount r.localAddress Masters Replicas := by
        rw [roleCount_eq_sum _ hwf, roleCount_eq_sum _ hwf]
        exact_mod_cast Finset.sum_le_sum (fun s _ =>
          rolesOnShard_le_of_searches_fail r _ Masters Replicas hno hrr hrm s)
      omega
    constructor
    · intro heq
      rcases findRole_cases r rand Masters Replicas with h | h | h | h | h | h | h
      · rw [h.2] at heq; exact absurd heq noop_ne_logicError
      · obtain ⟨_, s, _, h2⟩ := h
        rw [h2] at heq; exact absurd heq (beMaster_ne_logicError r _ _)
      · obtain ⟨_, _, s, i, _, h2⟩ := h
        rw [h2] at heq; exact absurd heq (beReplica_ne_logicError r _ _ _)
      · rw [h.2.2.2.2] at heq; exact absurd heq noop_ne_logicError
      · obtain ⟨_, _, _, _, p, s, i, _, h2⟩ := h
        rw [h2] at heq; exact absurd heq (beReplica_ne_logicError r _ _ _)
      · obtain ⟨_, _, _, _, _, p, s, _, h2⟩ := h
        rw [h2] at heq; exact absurd heq (beMaster_ne_logicError r _ _)
      · exact hkey ((gap_iff r rand Masters Replicas hv).1 h.2.2.2.1) ⟨h.2.2.2.2.1, h.2.2.2.2.2.1⟩
    · intro hgap
      by_contra hcon
      push_neg at hcon
      apply hkey hgap
      constructor
      · rw [randomReplicaRole_false_iff r _ Masters Replicas hwf]
        rintro ⟨shard, index, h1, h2⟩
        exact h2 (hcon.1 shard index h1)
      · rw [randomMasterRole_false_iff r _ Masters Replicas hwf]
        rintro ⟨shard, h1, h2⟩
        exact h2 (hcon.2 shard h1)
  · constructor
    · intro h
      have := h "A" 0
      revert this
      decide
    · decide

/-- C20 at a concrete snapshot: masters `0:A, 1:A, 2:A` (`N = 3`, `R = 0`), no
node twice on a shard, local node `B` without role. The gap holds, `A` is
master of a shard where `B` has no role, and `findRole` does not return the
error. -/
theorem logic_error_unreachable_witness :
    (mkRoler "B" 3 0).findRole (idRand 3 0) allA [] ≠ logicError ∧
    ((∃ shard index,
        isReplicaAt ((mkRoler "B" 3 0).maxAddress (idRand 3 0) allA []) shard index [] ∧
        ¬ holdsRole (mkRoler "B" 3 0).localAddress shard allA []) ∨
      (∃ shard, isMasterOf ((mkRoler "B" 3 0).maxAddress (idRand 3 0) allA []) shard allA ∧
        ¬ holdsRole (mkRoler "B" 3 0).localAddress shard allA [])) :=
  ⟨(logic_error_unreachable.1 (mkRoler "B" 3 0) (idRand 3 0) allA []
      (by simp [WF, NodupKeys, allA]) (noSelfDup_no_replicas _)
      (idRand_valid "B" 3 0 _ _)).1,
    (logic_error_unreachable.1 (mkRoler "B" 3 0) (idRand 3 0) allA []
      (by simp [WF, NodupKeys, allA]) (noSelfDup_no_replicas _)
      (idRand_valid "B" 3 0 _ _)).2 (by decide)⟩

/-! ## Snapshots of a store -/

theorem sameReplicas_refl (Replicas : ReplicaMap) : SameReplicas Replicas Replicas := by
  refine ⟨Replicas, ?_, List.Perm.refl _⟩
  induction Replicas with
  | nil => exact List.Forall₂.nil
  | cons e l ih => exact List.Forall₂.cons ⟨rfl, List.Perm.refl _⟩ ih

theorem isSnapshot_refl (store : Store) : IsSnapshot store store.1 store.2 :=
  ⟨List.Perm.refl _, sameReplicas_refl _⟩

theorem sameReplicas_nil {Replicas : ReplicaMap} (h : SameReplicas [] Replicas) :
    Replicas = [] := by
  obtain ⟨mid, h1, h2⟩ := h
  cases h1
  exact List.Perm.nil_eq h2 |>.symm

theorem setSlot_of_not_mem {ν : Type} (m : List (Int × ν)) (k : Int) (v : ν)
    (h : k ∉ m.map Prod.fst) : setSlot m k v = m ++ [(k, v)] := by
  induction m with
  | nil => rfl
  | cons e rest ih =>
    obtain ⟨a, b⟩ := e
    simp only [List.map_cons, List.mem_cons, not_or] at h
    have ha : ¬ a = k := fun h2 => h.1 h2.symm
    simp only [setSlot, ha, if_false, List.cons_append, ih h.2]

/-- The step of any node is possible in every state of the cluster. -/
theorem step_exists (N : Nat) (R : Int) (nodes : List String) (store : Store)
    (node : String) (hnode : node ∈ nodes) :
    ∃ calls next, Step N R nodes store calls next :=
  ⟨_, _, Step.mk store node hnode store.1 store.2 (isSnapshot_refl store)
    (nodeRoler store node N R).idRand (idRand_valid_of _ _ _)⟩

/-- Runs of every length exist. -/
theorem run_exists (N : Nat) (R : Int) (nodes : List String) (store : Store)
    (node : String) (hnode : node ∈ nodes) (k : Nat) :
    ∃ trace final, Run N R nodes store trace final ∧ trace.length = k := by
  induction k with
  | zero => exact ⟨[], store, Run.nil store, rfl⟩
  | succ k ih =>
    obtain ⟨trace, final, hrun, hlen⟩ := ih
    obtain ⟨calls, next, hstep⟩ := step_exists N R nodes final node hnode
    exact ⟨trace ++ [calls], next, Run.snoc store trace final calls next hrun hstep, by
      simp [hlen]⟩

/-- When the gate passes and a master slot is open, `findRole` returns what
`beMaster` returns on an open master slot, with the zero witness. -/
theorem findRole_of_open_master (r : roler) (rand : Rand) (Masters : MasterMap)
    (Replicas : ReplicaMap) (hwf : WF Masters Replicas)
    (hv : rand.Valid r Masters Replicas) (hgate : passesGate r Masters Replicas)
    (hex : ∃ shard, OpenMaster r shard Masters Replicas) :
    ∃ shard, OpenMaster r shard Masters Replicas ∧
      r.findRole rand Masters Replicas = r.beMaster shard zeroAddress := by
  obtain ⟨shard, hs⟩ := hex
  have hny := (not_yields_iff r rand Masters Replicas hv).2 hgate
  have hiff := openMasterRole_false_iff r Masters Replicas hwf hv.1
  rcases findRole_cases r rand Masters Replicas with h | h | h | h | h | h | h
  · exact absurd h.1 hny
  · obtain ⟨_, s, hsome, heq⟩ := h
    exact ⟨s, (openMaster_iff r _ hwf hv.1).2 (openMasterRole_true r _ _ _ _ hsome), heq⟩
  all_goals exact absurd hs (hiff.1 h.2.1 shard)

/-! ## Scenario S1: a single node -/

theorem map_fst_map_pair {ν : Type} (v : ν) (shards : List Int) :
    (shards.map (fun s => (s, v))).map Prod.fst = shards := by
  induction shards with
  | nil => rfl
  | cons s l ih => simp [ih]

/-- The facts about a snapshot of the store of a single node `a` that holds
the masters of the shards `shards` and nothing else. -/
theorem single_snapshot (a : String) (shards : List Int) (hnd : shards.Nodup)
    (Masters : MasterMap) (Replicas : ReplicaMap)
    (hsnap : IsSnapshot (shards.map (fun s => (s, (⟨a, false⟩ : Address))), [])
      Masters Replicas) :
    Replicas = [] ∧ WF Masters [] ∧
    (∀ s x, (s, x) ∈ Masters ↔ s ∈ shards ∧ x = ⟨a, false⟩) ∧
    roleCount a Masters [] = shards.length ∧
    (∀ node, roleCount node Masters [] ≤ roleCount a Masters []) ∧
    (∀ node, 0 < roleCount node Masters [] → node = a) := by
  have hRp : Replicas = [] := sameReplicas_nil hsnap.2
  have hM : Masters.Perm (shards.map (fun s => (s, (⟨a, false⟩ : Address)))) := hsnap.1
  have hmem : ∀ s x, (s, x) ∈ Masters ↔ s ∈ shards ∧ x = ⟨a, false⟩ := by
    intro s x
    rw [hM.mem_iff, List.mem_map]
    constructor
    · rintro ⟨s2, hs2, heq⟩
      simp only [Prod.mk.injEq] at heq
      obtain ⟨rfl, rfl⟩ := heq
      exact ⟨hs2, rfl⟩
    · rintro ⟨hs, rfl⟩
      exact ⟨s, hs, rfl⟩
  have hkeys : (Masters.map Prod.fst).Perm shards := by
    have h := hM.map Prod.fst
    rwa [map_fst_map_pair] at h
  have hwf : WF Masters [] :=
    ⟨hkeys.nodup_iff.2 hnd, by simp [NodupKeys], by simp⟩
  have hlen : Masters.length = shards.length := by
    rw [hM.length_eq, List.length_map]
  have hall : ∀ e ∈ Masters, e.2.Address = a := by
    intro e he
    have := (hmem e.1 e.2).1 he
    rw [this.2]
  have hrcA : roleCount a Masters [] = shards.length := by
    unfold roleCount
    have : Masters.countP (fun e => e.2.Address == a) = Masters.length := by
      rw [List.countP_eq_length]
      intro e he
      simp [hall e he]
    simp [this, hlen]
  have hle : ∀ node, roleCount node Masters [] ≤ roleCount a Masters [] := by
    intro node
    rw [hrcA]
    unfold roleCount
    have := @List.countP_le_length _ (fun e : Int × Address => e.2.Address == node) Masters
    simp only [List.map_nil, List.sum_nil, Nat.cast_zero, add_zero]
    omega
  have hpos : ∀ node, 0 < roleCount node Masters [] → node = a := by
    intro node h
    unfold roleCount at h
    simp only [List.map_nil, List.sum_nil, Nat.cast_zero, add_zero, Nat.cast_pos] at h
    rw [List.countP_pos_iff] at h
    obtain ⟨e, he, hp⟩ := h
    simp only [beq_iff_eq] at hp
    rw [← hp, hall e he]
  exact ⟨hRp, hwf, hmem, hrcA, hle, hpos⟩

/-- A list of `n` distinct shards of `[0, N)` misses a shard when `n < N` and
lists them all when `N <= n`. -/
theorem shards_pigeonhole (N : Nat) (shards : List Int) (hnd : shards.Nodup)
    (hrange : ∀ s ∈ shards, 0 ≤ s ∧ s < (N : Int)) :
    shards.length ≤ N ∧
    (shards.length < N → ∃ s, (0 ≤ s ∧ s < (N : Int)) ∧ s ∉ shards) ∧
    (N ≤ shards.length → ∀ s, 0 ≤ s → s < (N : Int) → s ∈ shards) := by
  have hsub : shards ⊆ intRange N := fun s hs => (mem_intRange N s).2 (hrange s hs)
  have hsp := List.subperm_of_subset hnd hsub
  have hle : shards.length ≤ N := by
    have := hsp.length_le
    rwa [length_intRange] at this
  refine ⟨hle, ?_, ?_⟩
  · intro hlt
    by_contra hcon
    push_neg at hcon
    have hsub2 : intRange N ⊆ shards := fun s hs => hcon s ((mem_intRange N s).1 hs)
    have := (List.subperm_of_subset (nodup_intRange N) hsub2).length_le
    rw [length_intRange] at this
    omega
  · intro hge s h0 hN
    have hperm : shards.Perm (intRange N) :=
      hsp.perm_of_length_le (by rw [length_intRange]; exact hge)
    exact hperm.mem_iff.2 ((mem_intRange N s).2 ⟨h0, hN⟩)

/-- One watch update of a single node `a` that holds the masters of `shards`:
while a shard of `[0, N)` is missing, the node claims the master of a missing
shard with the zero witness, the CAS succeeds and `Server.Master` is called;
once all are held, the node does nothing. -/
theorem single_step (a : String) (N : Nat) (R : Int) (hN : (N : Int) ≤ MaxInt64)
    (shards : List Int) (hnd : shards.Nodup)
    (hrange : ∀ s ∈ shards, 0 ≤ s ∧ s < (N : Int)) (calls : List Call) (next : Store)
    (hstep : Step N R [a] (shards.map (fun s => (s, (⟨a, false⟩ : Address))), [])
      calls next) :
    (shards.length < N → ∃ s, s ∉ shards ∧ (0 ≤ s ∧ s < (N : Int)) ∧
      calls = masterClaim a s ∧
      next = ((shards ++ [s]).map (fun s => (s, (⟨a, false⟩ : Address))), [])) ∧
    (N ≤ shards.length → calls = [] ∧
      next = (shards.map (fun s => (s, (⟨a, false⟩ : Address))), [])) := by
  obtain ⟨node, hnode, Masters, Replicas, hsnap, rand, hv⟩ := hstep
  have hnode2 : node = a := by simpa using hnode
  subst hnode2
  obtain ⟨hRp, hwf, hmem, hrcA, hle, hpos⟩ :=
    single_snapshot node shards hnd Masters Replicas hsnap
  subst hRp
  obtain ⟨hlen, hmiss, hfull⟩ := shards_pigeonhole N shards hnd hrange
  have hmaster : ∀ s, s ∈ shards →
      isMasterOf node s Masters := fun s hs => ⟨⟨node, false⟩, (hmem s _).2 ⟨hs, rfl⟩, rfl⟩
  constructor
  · intro hlt
    obtain ⟨s0, hs0, hs0n⟩ := hmiss hlt
    have hgate : passesGate
        (nodeRoler (shards.map (fun s => (s, (⟨node, false⟩ : Address))), []) node N R)
        Masters [] := by
      refine ⟨?_, fun n hn => ?_⟩
      · show roleCount node Masters [] ≤ MaxInt64
        rw [hrcA]
        have : ((shards.length : Nat) : Int) ≤ (N : Int) := by exact_mod_cast hlen
        omega
      · show roleCount node Masters [] ≤ roleCount n Masters []
        rw [hpos n hn]
    have hopen : OpenMaster
        (nodeRoler (shards.map (fun s => (s, (⟨node, false⟩ : Address))), []) node N R)
        s0 Masters [] := by
      refine ⟨hs0, fun x hx => hs0n ((hmem s0 x).1 hx).1, ?_⟩
      rintro (⟨x, hx, _⟩ | ⟨i, l, x, hl, _⟩)
      · exact hs0n ((hmem s0 x).1 hx).1
      · cases hl
    obtain ⟨s, hs, heq⟩ := findRole_of_open_master _ rand Masters [] hwf hv hgate ⟨s0, hopen⟩
    have hsn : s ∉ shards := fun h => hs.2.1 _ ((hmem s _).2 ⟨h, rfl⟩)
    have hlook : (shards.map (fun s => (s, (⟨node, false⟩ : Address)))).lookup s = none := by
      rw [lookup_eq_none_iff]
      intro v hv2
      rw [List.mem_map] at hv2
      obtain ⟨s2, hs2, heq2⟩ := hv2
      simp only [Prod.mk.injEq] at heq2
      exact hsn (heq2.1 ▸ hs2)
    have hcas : casOK (shards.map (fun s => (s, (⟨node, false⟩ : Address))), [])
        (Call.ClaimMasterAddress s ⟨node, false⟩ zeroAddress) = true := by
      simp [casOK, hlook]
    have hcalls : ((nodeRoler (shards.map (fun s => (s, (⟨node, false⟩ : Address))), [])
        node N R).findRole rand Masters []).calls = masterClaim node s := by
      rw [heq, beMaster_eq]
      simp [nodeRoler, memAddresser, roler.localNormalAddress, hcas, okServer, masterClaim]
    refine ⟨s, hsn, hs.1, hcalls, ?_⟩
    rw [hcalls]
    have hkey : s ∉ (shards.map (fun s => (s, (⟨node, false⟩ : Address)))).map Prod.fst := by
      rw [map_fst_map_pair]
      exact hsn
    simp only [commit, masterClaim, List.foldl_cons, List.foldl_nil, hcas, if_true, applyClaim]
    simp [casOK, setSlot_of_not_mem _ _ _ hkey]
  · intro hge
    have hin := hfull hge
    have hnoop : (nodeRoler (shards.map (fun s => (s, (⟨node, false⟩ : Address))), [])
        node N R).findRole rand Masters [] = noop := by
      apply findRole_eq_noop _ rand Masters [] hwf hv
      · rintro s ⟨⟨h0, h1⟩, hno, _⟩
        exact hno _ ((hmem s _).2 ⟨hin s h0 h1, rfl⟩)
      · rintro s ⟨⟨h0, h1⟩, _, hno⟩
        exact hno (Or.inl (hmaster s (hin s h0 h1)))
      · intro n
        have := hle n
        show roleCount n Masters [] - 1 < roleCount node Masters [] + 1
        omega
    rw [hnoop]
    exact ⟨rfl, rfl⟩

/-- A single node that holds the masters of all the shards of `[0, N)` does
nothing, on every snapshot and for every random choice. -/
theorem single_full_noop (a : String) (N : Nat) (R : Int) (shards : List Int)
    (hnd : shards.Nodup) (hfull : ∀ s, 0 ≤ s → s < (N : Int) → s ∈ shards)
    (Masters : MasterMap) (Replicas : ReplicaMap) (rand : Rand)
    (hsnap : IsSnapshot (shards.map (fun s => (s, (⟨a, false⟩ : Address))), [])
      Masters Replicas)
    (hv : rand.Valid
      (nodeRoler (shards.map (fun s => (s, (⟨a, false⟩ : Address))), []) a N R)
      Masters Replicas) :
    (nodeRoler (shards.map (fun s => (s, (⟨a, false⟩ : Address))), []) a N R).findRole rand
      Masters Replicas = noop := by
  obtain ⟨hRp, hwf, hmem, hrcA, hle, hpos⟩ :=
    single_snapshot a shards hnd Masters Replicas hsnap
  subst hRp
  apply findRole_eq_noop _ rand Masters [] hwf hv
  · rintro s ⟨⟨h0, h1⟩, hno, _⟩
    exact hno _ ((hmem s _).2 ⟨hfull s h0 h1, rfl⟩)
  · rintro s ⟨⟨h0, h1⟩, _, hno⟩
    exact hno (Or.inl ⟨⟨a, false⟩, (hmem s _).2 ⟨hfull s h0 h1, rfl⟩, rfl⟩)
  · intro n
    have := hle n
    show roleCount n Masters [] - 1 < roleCount a Masters [] + 1
    omega

/-- The runs of a single node `a` from the empty addresser: a sequence of
successful open master claims on distinct shards, followed by idle updates
once the masters of all the shards are held. -/
theorem single_run (a : String) (N : Nat) (R : Int) (hN : (N : Int) ≤ MaxInt64)
    (start : Store) (trace : List (List Call)) (store : Store)
    (hrun : Run N R [a] start trace store) (hstart : start = ([], [])) :
    ∃ (shards : List Int) (idle : Nat), shards.Nodup ∧
      (∀ s ∈ shards, 0 ≤ s ∧ s < (N : Int)) ∧
      trace = shards.map (masterClaim a) ++ List.replicate idle [] ∧
      store = (shards.map (fun s => (s, (⟨a, false⟩ : Address))), []) ∧
      (0 < idle → shards.length = N) := by
  induction hrun with
  | nil =>
    subst hstart
    refine ⟨[], 0, List.nodup_nil, ?_, rfl, rfl, ?_⟩
    · intro s hs
      cases hs
    · intro h
      omega
  | snoc trace store calls next _ hstep ih =>
    obtain ⟨shards, idle, hnd, hrange, htrace, hstore, hidle⟩ := ih
    subst hstore
    obtain ⟨h1, h2⟩ := single_step a N R hN shards hnd hrange calls next hstep
    by_cases hlt : shards.length < N
    · obtain ⟨s, hsn, hs, hcalls, hnext⟩ := h1 hlt
      have hidle0 : idle = 0 := by
        by_contra h
        have := hidle (Nat.pos_of_ne_zero h)
        omega
      subst hidle0
      refine ⟨shards ++ [s], 0, ?_, ?_, ?_, hnext, fun h => by omega⟩
      · exact List.Nodup.append hnd (List.nodup_singleton _) (by
          intro x hx hx2
          simp only [List.mem_singleton] at hx2
          subst hx2
          exact hsn hx)
      · intro x hx
        rcases List.mem_append.1 hx with h | h
        · exact hrange x h
        · simp only [List.mem_singleton] at h
          subst h
          exact hs
      · rw [htrace, hcalls]
        simp
    · obtain ⟨hcalls, hnext⟩ := h2 (by omega)
      have hlen := (shards_pigeonhole N shards hnd hrange).1
      refine ⟨shards, idle + 1, hnd, hrange, ?_, hnext, fun _ => by omega⟩
      rw [htrace, hcalls, List.replicate_succ', List.append_assoc]

/-- C16 (scenario S1 generalised, single node): for every `N` (an `int`, so at
most `math.MaxInt64`) and `R`, with one live node `a`, an initially empty
addresser that accepts every CAS whose witness matches and a server whose
callbacks succeed, every run of watch updates is a sequence of
`ClaimMasterAddress` with the zero witness on distinct shards of `[0, N)`,
each followed by `Server.Master` on that shard, then idle updates; there are
`min(k, N)` claims in a run of `k` updates, the assignment is the claimed
masters with no replica, and after `N` updates or more it is
`{s -> a for every s in [0, N)}`, on which `findRole` returns `(0, nil)`
without any call. Runs of every length exist. -/
theorem single_node_converges (a : String) (N : Nat) (R : Int)
    (hN : (N : Int) ≤ MaxInt64) :
    (∀ trace store, Run N R [a] ([], []) trace store →
      ∃ (shards : List Int) (idle : Nat), shards.Nodup ∧
        (∀ s ∈ shards, 0 ≤ s ∧ s < (N : Int)) ∧
        trace = shards.map (masterClaim a) ++ List.replicate idle [] ∧
        store = (shards.map (fun s => (s, (⟨a, false⟩ : Address))), []) ∧
        shards.length = min trace.length N ∧
        (N ≤ trace.length →
          (∀ s x, (s, x) ∈ store.1 ↔ (0 ≤ s ∧ s < (N : Int)) ∧ x = ⟨a, false⟩) ∧
          ∀ Masters Replicas rand, IsSnapshot store Masters Replicas →
            rand.Valid (nodeRoler store a N R) Masters Replicas →
            (nodeRoler store a N R).findRole rand Masters Replicas = ⟨0, none, [], []⟩)) ∧
    (∀ k, ∃ trace store, Run N R [a] ([], []) trace store ∧ trace.length = k) := by
  constructor
  · intro trace store hrun
    obtain ⟨shards, idle, hnd, hrange, htrace, hstore, hidle⟩ :=
      single_run a N R hN _ trace store hrun rfl
    obtain ⟨hlen, _, hfull⟩ := shards_pigeonhole N shards hnd hrange
    have htl : trace.length = shards.length + idle := by
      rw [htrace]
      simp
    have hmin : shards.length = min trace.length N := by
      by_cases h0 : idle = 0
      · subst h0
        omega
      · have := hidle (Nat.pos_of_ne_zero h0)
        omega
    refine ⟨shards, idle, hnd, hrange, htrace, hstore, hmin, ?_⟩
    intro hge
    have hge2 : N ≤ shards.length := by omega
    have hin := hfull hge2
    subst hstore
    constructor
    · intro s x
      simp only [List.mem_map, Prod.mk.injEq]
      constructor
      · rintro ⟨s2, hs2, rfl, rfl⟩
        exact ⟨hrange s2 hs2, rfl⟩
      · rintro ⟨⟨h0, h1⟩, rfl⟩
        exact ⟨s, hin s h0 h1, rfl, rfl⟩
    · intro Masters Replicas rand hsnap hv
      exact single_full_noop a N R shards hnd hin Masters Replicas rand hsnap hv
  · intro k
    exact run_exists N R [a] ([], []) a (by simp) k

/-- C16 at `N = 4`, `R = 1`, node `A`: a run of four watch updates exists, and
it ends with the masters `{0:A, 1:A, 2:A, 3:A}` and no replica. -/
theorem single_node_converges_witness :
    ∃ trace store, Run 4 1 ["A"] ([], []) trace store ∧ trace.length = 4 ∧
      (∀ s x, (s, x) ∈ store.1 ↔ (0 ≤ s ∧ s < ((4 : Nat) : Int)) ∧ x = ⟨"A", false⟩) ∧
      store.2 = [] := by
  obtain ⟨trace, store, hrun, hlen⟩ := (single_node_converges "A" 4 1 (by decide)).2 4
  obtain ⟨shards, idle, _, _, _, hstore, _, hfinal⟩ :=
    (single_node_converges "A" 4 1 (by decide)).1 trace store hrun
  exact ⟨trace, store, hrun, hlen, (hfinal (by omega)).1, by rw [hstore]⟩

/-! ## Snapshots and the entries of the store -/

theorem forall2_mem_right {α β : Type} {R : α → β → Prop} {l1 : List α} {l2 : List β}
    (h : List.Forall₂ R l1 l2) {b : β} (hb : b ∈ l2) : ∃ a ∈ l1, R a b := by
  induction h with
  | nil => cases hb
  | cons hr _ ih =>
    rcases List.mem_cons.1 hb with rfl | hb2
    · exact ⟨_, List.mem_cons_self _ _, hr⟩
    · obtain ⟨a, ha, hab⟩ := ih hb2
      exact ⟨a, List.mem_cons_of_mem _ ha, hab⟩

theorem forall2_mem_left {α β : Type} {R : α → β → Prop} {l1 : List α} {l2 : List β}
    (h : List.Forall₂ R l1 l2) {a : α} (ha : a ∈ l1) : ∃ b ∈ l2, R a b := by
  induction h with
  | nil => cases ha
  | cons hr _ ih =>
    rcases List.mem_cons.1 ha with rfl | ha2
    · exact ⟨_, List.mem_cons_self _ _, hr⟩
    · obtain ⟨b, hb, hab⟩ := ih ha2
      exact ⟨b, List.mem_cons_of_mem _ hb, hab⟩

/-- An entry of a snapshot of the replicas is an entry of the store, its inner
map listed in some order. -/
theorem sameReplicas_mem_right {Replicas Replicas2 : ReplicaMap}
    (h : SameReplicas Replicas Replicas2) {s : Int} {l2 : List (Int × Address)}
    (hmem : (s, l2) ∈ Replicas2) : ∃ l, (s, l) ∈ Replicas ∧ l.Perm l2 := by
  obtain ⟨mid, h1, h2⟩ := h
  obtain ⟨e, he, hk, hp⟩ := forall2_mem_right h1 (h2.mem_iff.2 hmem)
  exact ⟨e.2, by rw [← show e.1 = s from hk]; exact he, hp⟩

/-- An entry of the store is an entry of every snapshot, its inner map listed
in some order. -/
theorem sameReplicas_mem_left {Replicas Replicas2 : ReplicaMap}
    (h : SameReplicas Replicas Replicas2) {s : Int} {l : List (Int × Address)}
    (hmem : (s, l) ∈ Replicas) : ∃ l2, (s, l2) ∈ Replicas2 ∧ l.Perm l2 := by
  obtain ⟨mid, h1, h2⟩ := h
  obtain ⟨e, he, hk, hp⟩ := forall2_mem_left h1 hmem
  refine ⟨e.2, ?_, hp⟩
  have : (s, e.2) = e := by
    simp only at hk
    rw [hk]
  rw [this]
  exact h2.mem_iff.1 he

theorem forall2_map_eq {α β γ : Type} {R : α → β → Prop} (f : α → γ) (g : β → γ)
    (hfg : ∀ a b, R a b → f a = g b) {l1 : List α} {l2 : List β}
    (h : List.Forall₂ R l1 l2) : l1.map f = l2.map g := by
  induction h with
  | nil => rfl
  | cons hr _ ih => simp [hfg _ _ hr, ih]

/-- A snapshot of a store of maps is a pair of maps. -/
theorem wf_snapshot {store : Store} (hwf : WF store.1 store.2) {Masters : MasterMap}
    {Replicas : ReplicaMap} (hsnap : IsSnapshot store Masters Replicas) :
    WF Masters Replicas := by
  obtain ⟨hM, mid, h1, h2⟩ := hsnap
  refine ⟨?_, ?_, ?_⟩
  · exact (hM.map Prod.fst).nodup_iff.2 hwf.1
  · have hkeys : store.2.map Prod.fst = mid.map Prod.fst :=
      forall2_map_eq Prod.fst Prod.fst (fun a b hab => hab.1) h1
    have : (mid.map Prod.fst).Nodup := by
      rw [← hkeys]
      exact hwf.2.1
    exact (h2.map Prod.fst).nodup_iff.1 this
  · intro e he
    obtain ⟨e0, he0, _, hp⟩ := forall2_mem_right h1 (h2.mem_iff.2 he)
    exact (hp.map Prod.fst).nodup_iff.1 (hwf.2.2 e0 he0)

/-- The counts of a snapshot are the counts of the store. -/
theorem roleCount_snapshot (node : String) {store : Store} {Masters : MasterMap}
    {Replicas : ReplicaMap} (hsnap : IsSnapshot store Masters Replicas) :
    roleCount node Masters Replicas = roleCount node store.1 store.2 := by
  obtain ⟨hM, mid, h1, h2⟩ := hsnap
  unfold roleCount
  rw [hM.countP_eq]
  have hmid : store.2.map (fun e => e.2.countP (fun a => a.2.Address == node)) =
      mid.map (fun e => e.2.countP (fun a => a.2.Address == node)) :=
    forall2_map_eq _ _ (fun a b hab => hab.2.countP_eq _) h1
  have hsum := (h2.map (fun e : Int × List (Int × Address) =>
    e.2.countP (fun a => a.2.Address == node))).sum_eq
  rw [hmid, hsum]

/-! ## Scenario S2: node `B` joins node `A` -/

theorem mem_masters4 (s : Int) (a : Address) :
    (s, a) ∈ masters4 ↔ (0 ≤ s ∧ s < 4) ∧ a = addrA := by
  simp only [masters4, List.mem_cons, Prod.mk.injEq, List.mem_nil_iff, or_false]
  constructor
  · rintro (⟨rfl, rfl⟩ | ⟨rfl, rfl⟩ | ⟨rfl, rfl⟩ | ⟨rfl, rfl⟩) <;> exact ⟨by decide, rfl⟩
  · rintro ⟨⟨h0, h4⟩, rfl⟩
    have : s = 0 ∨ s = 1 ∨ s = 2 ∨ s = 3 := by omega
    rcases this with rfl | rfl | rfl | rfl <;> simp

theorem s2Inv_start (M0 : MasterMap) (h : M0.Perm masters4) : S2Inv (M0, []) := by
  refine ⟨⟨?_, by simp [NodupKeys], by simp⟩, ?_, ?_⟩
  · exact (h.map Prod.fst).nodup_iff.2 (by decide)
  · intro s a
    rw [h.mem_iff]
    exact mem_masters4 s a
  · intro s l i a hl
    cases hl

/-- The entries of a snapshot of an assignment of scenario S2. -/
theorem s2Inv_snapshot {store : Store} (hinv : S2Inv store) {Masters : MasterMap}
    {Replicas : ReplicaMap} (hsnap : IsSnapshot store Masters Replicas) :
    S2Inv (Masters, Replicas) := by
  refine ⟨wf_snapshot hinv.1 hsnap, ?_, ?_⟩
  · intro s a
    show (s, a) ∈ Masters ↔ _
    rw [hsnap.1.mem_iff]
    exact hinv.2.1 s a
  · intro s l2 i a hl hi
    obtain ⟨l, hmem, hp⟩ := sameReplicas_mem_right hsnap.2 hl
    exact hinv.2.2 s l i a hmem (hp.mem_iff.2 hi)

/-- In scenario S2 the only claims are open replica claims of `B` on slot 0
of one of the four shards. -/
theorem s2_claims (store : Store) (node : String) (hnode : node = "A" ∨ node = "B")
    (Masters : MasterMap) (Replicas : ReplicaMap) (hinv : S2Inv (Masters, Replicas))
    (rand : Rand) (hv : rand.Valid (nodeRoler store node 4 1) Masters Replicas) (c : Call)
    (hc : c ∈ ((nodeRoler store node 4 1).findRole rand Masters Replicas).calls)
    (hclaim : c.isClaim = true) :
    ∃ s, (0 ≤ s ∧ s < 4) ∧ c = replicaClaimB s := by
  obtain ⟨hwf, hM, hR⟩ := hinv
  have hwf : WF Masters Replicas := hwf
  have hroleA : ∀ s, 0 ≤ s → s < 4 →
      (nodeRoler store "A" 4 1).hasRoleForShard s Masters Replicas = true := by
    intro s h0 h4
    rw [hasRoleForShard_iff _ s hwf]
    exact Or.inl ⟨addrA, (hM s addrA).2 ⟨⟨h0, h4⟩, rfl⟩, rfl⟩
  have hroleB : ∀ s l i a, (s, l) ∈ Replicas → (i, a) ∈ l →
      (nodeRoler store "B" 4 1).hasRoleForShard s Masters Replicas = true := by
    intro s l i a hl hi
    rw [hasRoleForShard_iff _ s hwf]
    have := (hR s l i a hl hi).2.2
    exact Or.inr ⟨i, l, a, hl, hi, by rw [this]; rfl⟩
  have hrange : ∀ s, s ∈ intRange 4 → 0 ≤ s ∧ s < 4 := by
    intro s hs
    have := (mem_intRange 4 s).1 hs
    exact ⟨this.1, by exact_mod_cast this.2⟩
  rcases findRole_cases (nodeRoler store node 4 1) rand Masters Replicas with
    h | h | h | h | h | h | h
  · rw [h.2] at hc; cases hc
  · obtain ⟨_, s, hs, _⟩ := h
    obtain ⟨hperm, hlook, _⟩ := openMasterRole_true _ _ _ _ _ hs
    have hr := hrange s (hv.1.mem_iff.1 hperm)
    exact absurd ((hM s addrA).2 ⟨hr, rfl⟩) ((lookup_eq_none_iff _ _).1 hlook addrA)
  · obtain ⟨_, _, s, i, hs, heq⟩ := h
    obtain ⟨hperm, _, hrole, hidx, _⟩ := openReplicaRole_true _ _ _ _ _ _ _ hs
    have hr := hrange s (hv.2.1.mem_iff.1 hperm)
    rcases hnode with rfl | rfl
    · rw [hroleA s hr.1 hr.2] at hrole
      cases hrole
    · have hi : i = 0 := by
        have := (hv.2.2.1 s).mem_iff.1 hidx
        have h1 : i ∈ intRange 1 := this
        have := (mem_intRange 1 i).1 h1
        omega
      subst hi
      rw [heq] at hc
      rcases mem_beReplica_calls _ _ _ _ c hc with rfl | rfl
      · exact ⟨s, hr, rfl⟩
      · simp [Call.isClaim] at hclaim
  · rw [h.2.2.2.2] at hc; cases hc
  · obtain ⟨_, _, _, _, prev, s, i, hs, _⟩ := h
    obtain ⟨⟨l, hl, hi⟩, _, hrole⟩ := randomReplicaRole_true _ _ _ _ _ _ _ hs
    have hr := (hR s l i prev hl hi).1
    rcases hnode with rfl | rfl
    · rw [hroleA s hr.1 hr.2] at hrole
      cases hrole
    · rw [hroleB s l i prev hl hi] at hrole
      cases hrole
  · obtain ⟨_, _, hor, _, _, prev, s, hs, _⟩ := h
    obtain ⟨hmem, _, hrole⟩ := randomMasterRole_true _ _ _ _ _ _ hs
    have hr := ((hM s prev).1 hmem).1
    rcases hnode with rfl | rfl
    · rw [hroleA s hr.1 hr.2] at hrole
      cases hrole
    · have hsperm : s ∈ rand.permShard :=
        hv.2.1.mem_iff.2 ((mem_intRange 4 s).2 ⟨hr.1, by exact_mod_cast hr.2⟩)
      have hfalse := openReplicaRole_false _ _ _ _ _ hv.2.2.1 hor s hsperm
      have hlen : ¬ (((replicasOf Replicas s).length : Int) < 1) := by
        intro hlt
        exact hfalse ⟨hlt, hrole⟩
      have hpos : 0 < (replicasOf Replicas s).length := by omega
      obtain ⟨e, he⟩ := List.exists_mem_of_length_pos hpos
      have hlook : Replicas.lookup s = some (replicasOf Replicas s) := by
        unfold replicasOf at he ⊢
        cases hl : Replicas.lookup s with
        | none => rw [hl] at he; cases he
        | some l => rfl
      rw [hroleB s _ e.1 e.2 (mem_of_lookup_eq_some hlook) he] at hrole
      cases hrole
  · rw [h.2.2.2.2.2.2] at hc; cases hc

/-- Writing an open replica claim of `B` keeps the assignment within those of
scenario S2. -/
theorem s2Inv_applyClaim {store : Store} (hinv : S2Inv store) (s : Int)
    (hs : 0 ≤ s ∧ s < 4) :
    S2Inv (applyClaim (replicaClaimB s) store.1 store.2) := by
  obtain ⟨hwf, hM, hR⟩ := hinv
  refine ⟨wf_applyClaim (replicaClaimB s) hwf, hM, ?_⟩
  intro s2 l i a hl hi
  have hl2 : (s2, l) ∈ setSlot store.2 s (setSlot (replicasOf store.2 s) 0 addrB) := hl
  rcases mem_setSlot _ _ _ _ hl2 with h | h
  · exact hR s2 l i a h hi
  · simp only [Prod.mk.injEq] at h
    obtain ⟨rfl, rfl⟩ := h
    rcases mem_setSlot _ _ _ _ hi with h2 | h2
    · unfold replicasOf at h2
      cases hlook : store.2.lookup s2 with
      | none => rw [hlook] at h2; cases h2
      | some l0 =>
        rw [hlook] at h2
        exact hR s2 l0 i a (mem_of_lookup_eq_some hlook) h2
    · simp only [Prod.mk.injEq] at h2
      exact ⟨hs, h2.1, h2.2⟩

theorem casOK_isClaim (store : Store) (c : Call) (h : casOK store c = true) :
    c.isClaim = true := by
  cases c <;> simp [casOK] at h <;> rfl

/-- Committing calls whose claims are open replica claims of `B` keeps the
assignment within those of scenario S2. -/
theorem s2Inv_commit (calls : List Call) {store : Store} (hinv : S2Inv store)
    (hcalls : ∀ c ∈ calls, c.isClaim = true → ∃ s, (0 ≤ s ∧ s < 4) ∧ c = replicaClaimB s) :
    S2Inv (commit store calls) := by
  unfold commit
  induction calls generalizing store with
  | nil => exact hinv
  | cons c rest ih =>
    rw [List.foldl_cons]
    apply ih
    · by_cases hcas : casOK store c = true
      · rw [if_pos hcas]
        obtain ⟨s, hs, rfl⟩ :=
          hcalls c (List.mem_cons_self _ _) (casOK_isClaim store c hcas)
        exact s2Inv_applyClaim hinv s hs
      · rw [if_neg hcas]
        exact hinv
    · intro c2 hc2
      exact hcalls c2 (List.mem_cons_of_mem _ hc2)

/-- Every run of scenario S2 stays within the assignments `S2Inv`, and its
only claims are open replica claims of `B`. -/
theorem s2_run (start : Store) (trace : List (List Call)) (store : Store)
    (hrun : Run 4 1 ["A", "B"] start trace store) (hstart : S2Inv start) :
    S2Inv store ∧
    ∀ calls ∈ trace, ∀ c ∈ calls, c.isClaim = true →
      ∃ s, (0 ≤ s ∧ s < 4) ∧ c = replicaClaimB s := by
  induction hrun with
  | nil => exact ⟨hstart, fun calls h => by cases h⟩
  | snoc trace store calls next _ hstep ih =>
    obtain ⟨hinv, htrace⟩ := ih
    obtain ⟨node, hnode, Masters, Replicas, hsnap, rand, hv⟩ := hstep
    have hnode2 : node = "A" ∨ node = "B" := by simpa using hnode
    have hclaims := s2_claims store node hnode2 Masters Replicas
      (s2Inv_snapshot hinv hsnap) rand hv
    refine ⟨s2Inv_commit _ hinv hclaims, ?_⟩
    intro calls2 h2
    rcases List.mem_append.1 h2 with h3 | h3
    · exact htrace calls2 h3
    · simp only [List.mem_singleton] at h3
      subst h3
      exact hclaims

theorem isSteal_isClaim (c : Call) (h : c.isSteal = true) : c.isClaim = true := by
  cases c <;> simp [Call.isSteal] at h <;> rfl

/-- In an assignment of scenario S2, `A` holds four masters and no replica,
`B` holds no master, and no node is master and replica of the same shard. -/
theorem s2Inv_counts {store : Store} (hinv : S2Inv store) :
    masterCount "A" store.1 = 4 ∧ masterCount "B" store.1 = 0 ∧
    replicaCount "A" store.2 = 0 ∧
    (∀ s node, ¬ (isMasterOf node s store.1 ∧ ∃ i, isReplicaAt node s i store.2)) := by
  obtain ⟨hwf, hM, hR⟩ := hinv
  have hperm : store.1.Perm masters4 := by
    have hnd1 : store.1.Nodup := List.Nodup.of_map Prod.fst hwf.1
    rw [List.perm_ext_iff_of_nodup hnd1 (by decide)]
    intro e
    rw [show e = (e.1, e.2) from rfl, hM, mem_masters4]
  refine ⟨?_, ?_, ?_, ?_⟩
  · unfold masterCount
    rw [hperm.countP_eq]
    decide
  · unfold masterCount
    rw [hperm.countP_eq]
    decide
  · unfold replicaCount
    apply List.sum_eq_zero
    intro n hn
    obtain ⟨e, he, rfl⟩ := List.mem_map.1 hn
    rw [List.countP_eq_zero]
    intro a ha
    have := (hR e.1 e.2 a.1 a.2 he ha).2.2
    rw [this]
    decide
  · rintro s node ⟨⟨a, ha, han⟩, i, l, b, hl, hb, hbn⟩
    have h1 := ((hM s a).1 ha).2
    have h2 := (hR s l i b hl hb).2.2
    rw [h1] at han
    rw [h2] at hbn
    rw [← han] at hbn
    revert hbn
    decide

/-- C15, as stated, fails: in scenario S2 (`N = 4`, `R = 1`, node `B` joining
node `A` that holds the four masters), no run reaches an assignment in which
`A` and `B` hold two masters and two replicas each, since `B` never holds a
master, and no run contains a steal. -/
theorem s2_never_two_masters_each :
    (¬ ∃ trace store, Run 4 1 ["A", "B"] s2Start trace store ∧
      masterCount "A" store.1 = 2 ∧ masterCount "B" store.1 = 2 ∧
      replicaCount "A" store.2 = 2 ∧ replicaCount "B" store.2 = 2) ∧
    (¬ ∃ trace store, Run 4 1 ["A", "B"] s2Start trace store ∧
      ∃ calls ∈ trace, ∃ c ∈ calls, c.isSteal = true) := by
  constructor
  · rintro ⟨trace, store, hrun, h, _⟩
    obtain ⟨hinv, _⟩ :=
      s2_run s2Start trace store hrun (s2Inv_start masters4 (List.Perm.refl _))
    obtain ⟨hA, _, _, _⟩ := s2Inv_counts hinv
    omega
  · rintro ⟨trace, store, hrun, calls, hcalls, c, hc, hsteal⟩
    obtain ⟨_, hclaims⟩ :=
      s2_run s2Start trace store hrun (s2Inv_start masters4 (List.Perm.refl _))
    obtain ⟨s, _, rfl⟩ := hclaims calls hcalls c hc (isSteal_isClaim c hsteal)
    have hzero : (zeroAddress != zeroAddress) = false := by decide
    simp [replicaClaimB, Call.isSteal, hzero] at hsteal

/-! ## Scenario S2: counting the replicas of `B` -/

theorem length_le_one_of_keys_zero (l : List (Int × Address)) (hnd : NodupKeys l)
    (h : ∀ e ∈ l, e.1 = 0) : l.length ≤ 1 := by
  have hsub : l.map Prod.fst ⊆ [0] := by
    intro k hk
    obtain ⟨e, he, rfl⟩ := List.mem_map.1 hk
    simp [h e he]
  have := (List.subperm_of_subset hnd hsub).length_le
  simpa using this

/-- The roles of `B` on a shard in an assignment of scenario S2: at most one,
none outside the four shards, one when the slot 0 of the shard is held. -/
theorem s2_rolesOnShard_B {Masters : MasterMap} {Replicas : ReplicaMap}
    (hinv : S2Inv (Masters, Replicas)) (s : Int) :
    rolesOnShard "B" s Masters Replicas ≤ 1 ∧
    (¬ (0 ≤ s ∧ s < 4) → rolesOnShard "B" s Masters Replicas = 0) ∧
    ((∃ l, (s, l) ∈ Replicas ∧ (0, addrB) ∈ l) → rolesOnShard "B" s Masters Replicas = 1) := by
  obtain ⟨hwf, hM, hR⟩ := hinv
  have hwf : WF Masters Replicas := hwf
  have hmaster : (match Masters.lookup s with
      | some a => if a.Address = "B" then 1 else 0
      | none => 0) = 0 := by
    cases hl : Masters.lookup s with
    | none => rfl
    | some a =>
      have := ((hM s a).1 (mem_of_lookup_eq_some hl)).2
      rw [this]
      decide
  have hrep : ∀ e ∈ replicasOf Replicas s, (0 ≤ s ∧ s < 4) ∧ e.1 = 0 ∧ e.2 = addrB := by
    intro e he
    unfold replicasOf at he
    cases hl : Replicas.lookup s with
    | none => rw [hl] at he; cases he
    | some l =>
      rw [hl] at he
      exact hR s l e.1 e.2 (mem_of_lookup_eq_some hl) he
  have hcount : (replicasOf Replicas s).countP (fun a => a.2.Address == "B") =
      (replicasOf Replicas s).length := by
    rw [List.countP_eq_length]
    intro e he
    rw [(hrep e he).2.2]
    decide
  have hlen : (replicasOf Replicas s).length ≤ 1 :=
    length_le_one_of_keys_zero _ (nodupKeys_replicasOf hwf.2.2 s) (fun e he => (hrep e he).2.1)
  unfold rolesOnShard
  rw [hmaster, hcount, zero_add]
  refine ⟨hlen, ?_, ?_⟩
  · intro hout
    rw [List.length_eq_zero]
    by_contra hne
    obtain ⟨e, he⟩ := List.exists_mem_of_ne_nil _ hne
    exact hout (hrep e he).1
  · rintro ⟨l, hl, h0⟩
    rw [replicasOf_eq_of_mem hwf.2.1 hl]
    have : 0 < l.length := List.length_pos_of_mem h0
    rw [replicasOf_eq_of_mem hwf.2.1 hl] at hlen
    omega

/-- The number of roles of `B` in an assignment of scenario S2 is the number
of shards, among the four, on which it has a role. -/
theorem s2_roleCount_B {Masters : MasterMap} {Replicas : ReplicaMap}
    (hinv : S2Inv (Masters, Replicas)) :
    roleCount "B" Masters Replicas =
      ((rolesOnShard "B" 0 Masters Replicas + rolesOnShard "B" 1 Masters Replicas +
        rolesOnShard "B" 2 Masters Replicas + rolesOnShard "B" 3 Masters Replicas : Nat) :
        Int) := by
  have hwf : WF Masters Replicas := hinv.1
  rw [roleCount_eq_sum "B" hwf]
  have hsub : ({0, 1, 2, 3} : Finset Int) ⊆
      (Masters.map Prod.fst ++ Replicas.map Prod.fst).toFinset := by
    intro s hs
    simp only [Finset.mem_insert, Finset.mem_singleton] at hs
    simp only [List.mem_toFinset, List.mem_append]
    left
    have hr : 0 ≤ s ∧ s < 4 := by omega
    exact List.mem_map_of_mem Prod.fst ((hinv.2.1 s addrA).2 ⟨hr, rfl⟩)
  rw [← Finset.sum_subset hsub (by
    intro s _ hs
    apply (s2_rolesOnShard_B hinv s).2.1
    intro hr
    apply hs
    simp only [Finset.mem_insert, Finset.mem_singleton]
    omega)]
  simp [Finset.sum_insert]
  ring

/-- The counts of an assignment of scenario S2: `A` has four roles, `B` at
most four, and exactly four when every shard has its replica; no other node
has a role. -/
theorem s2_roleCounts {Masters : MasterMap} {Replicas : ReplicaMap}
    (hinv : S2Inv (Masters, Replicas)) :
    roleCount "A" Masters Replicas = 4 ∧ roleCount "B" Masters Replicas ≤ 4 ∧
    (S2Full (Masters, Replicas) → roleCount "B" Masters Replicas = 4) ∧
    (∀ node, node ≠ "A" → node ≠ "B" → roleCount node Masters Replicas = 0) := by
  obtain ⟨hA, _, hRA, _⟩ := s2Inv_counts hinv
  refine ⟨?_, ?_, ?_, ?_⟩
  · unfold masterCount at hA
    unfold replicaCount at hRA
    unfold roleCount
    simp only at hA hRA
    rw [hA, hRA]
    rfl
  · rw [s2_roleCount_B hinv]
    have h0 := (s2_rolesOnShard_B hinv 0).1
    have h1 := (s2_rolesOnShard_B hinv 1).1
    have h2 := (s2_rolesOnShard_B hinv 2).1
    have h3 := (s2_rolesOnShard_B hinv 3).1
    omega
  · intro hfull
    rw [s2_roleCount_B hinv]
    have h0 := (s2_rolesOnShard_B hinv 0).2.2 (hfull 0 (by decide) (by decide))
    have h1 := (s2_rolesOnShard_B hinv 1).2.2 (hfull 1 (by decide) (by decide))
    have h2 := (s2_rolesOnShard_B hinv 2).2.2 (hfull 2 (by decide) (by decide))
    have h3 := (s2_rolesOnShard_B hinv 3).2.2 (hfull 3 (by decide) (by decide))
    rw [h0, h1, h2, h3]
    rfl
  · intro node hA2 hB2
    obtain ⟨_, hM, hR⟩ := hinv
    unfold roleCount
    have h1 : Masters.countP (fun e => e.2.Address == node) = 0 := by
      rw [List.countP_eq_zero]
      intro e he
      have := ((hM e.1 e.2).1 he).2
      rw [this]
      simp only [beq_iff_eq]
      exact fun h => hA2 h.symm
    have h2 : (Replicas.map (fun e => e.2.countP (fun a => a.2.Address == node))).sum = 0 := by
      apply List.sum_eq_zero
      intro n hn
      obtain ⟨e, he, rfl⟩ := List.mem_map.1 hn
      rw [List.countP_eq_zero]
      intro a ha
      have := (hR e.1 e.2 a.1 a.2 he ha).2.2
      rw [this]
      simp only [beq_iff_eq]
      exact fun h => hB2 h.symm
    rw [h1, h2]
    rfl

/-! ## Scenario S2: progress and rest -/

/-- When the gate passes, no master slot is open and a replica slot is,
`findRole` returns what `beReplica` returns on an open replica slot, with the
zero witness. -/
theorem findRole_of_open_replica (r : roler) (rand : Rand) (Masters : MasterMap)
    (Replicas : ReplicaMap) (hwf : WF Masters Replicas)
    (hv : rand.Valid r Masters Replicas) (hgate : passesGate r Masters Replicas)
    (hom : ∀ shard, ¬ OpenMaster r shard Masters Replicas)
    (hex : ∃ shard, OpenReplica r shard Masters Replicas) :
    ∃ shard index, OpenReplica r shard Masters Replicas ∧
      (0 ≤ index ∧ index < r.numReplicas) ∧
      (∀ a, (index, a) ∉ replicasOf Replicas shard) ∧
      r.findRole rand Masters Replicas = r.beReplica shard index zeroAddress := by
  obtain ⟨shard, hs⟩ := hex
  have hny := (not_yields_iff r rand Masters Replicas hv).2 hgate
  have hiff := openReplicaRole_false_iff r Masters Replicas hwf hv.2.1 hv.2.2.1
  rcases findRole_cases r rand Masters Replicas with h | h | h | h | h | h | h
  · exact absurd h.1 hny
  · obtain ⟨_, s, hsome, _⟩ := h
    exact absurd ((openMaster_iff r _ hwf hv.1).2 (openMasterRole_true r _ _ _ _ hsome))
      (hom s)
  · obtain ⟨_, _, s, i, hsome, heq⟩ := h
    obtain ⟨h1, h2, h3⟩ :=
      openReplicaRole_slot r Masters Replicas hwf hv.2.1 hv.2.2.1 s i hsome
    exact ⟨s, i, h1, h2, h3, heq⟩
  all_goals exact absurd hs (hiff.1 h.2.2.1 shard)

/-- A shard without replica slot in the store has none in a snapshot. -/
theorem replicasOf_snapshot_nil {store : Store}
    {Masters : MasterMap} {Replicas : ReplicaMap}
    (hsnap : IsSnapshot store Masters Replicas) (s : Int)
    (h : ∀ l i a, (s, l) ∈ store.2 → (i, a) ∉ l) : replicasOf Replicas s = [] := by
  by_contra hne
  obtain ⟨e, he⟩ := List.exists_mem_of_ne_nil _ hne
  have hlook : Replicas.lookup s = some (replicasOf Replicas s) := by
    unfold replicasOf at he ⊢
    cases hl : Replicas.lookup s with
    | none => rw [hl] at he; cases he
    | some l => rfl
  obtain ⟨l, hl, hp⟩ := sameReplicas_mem_right hsnap.2 (mem_of_lookup_eq_some hlook)
  exact h l e.1 e.2 hl (hp.mem_iff.2 he)

/-- Progress in scenario S2: while a shard has no replica, every watch update
of `B`, on every snapshot and for every random choice, claims the slot 0 of
such a shard with the zero witness, the CAS succeeds and `Server.Replica` is
called. -/
theorem s2_progress (store : Store) (hinv : S2Inv store) (hnot : ¬ S2Full store)
    (Masters : MasterMap) (Replicas : ReplicaMap)
    (hsnap : IsSnapshot store Masters Replicas) (rand : Rand)
    (hv : rand.Valid (nodeRoler store "B" 4 1) Masters Replicas) :
    ∃ s, (0 ≤ s ∧ s < 4) ∧ (∀ l i a, (s, l) ∈ store.2 → (i, a) ∉ l) ∧
      ((nodeRoler store "B" 4 1).findRole rand Masters Replicas).calls =
        [replicaClaimB s, Call.Replica s] ∧
      commit store ((nodeRoler store "B" 4 1).findRole rand Masters Replicas).calls =
        applyClaim (replicaClaimB s) store.1 store.2 := by
  have hsinv := s2Inv_snapshot hinv hsnap
  have hwf : WF Masters Replicas := hsinv.1
  obtain ⟨hrA, hrB, _, hrO⟩ := s2_roleCounts hsinv
  -- a shard without replica
  have hmissing : ∃ s0, (0 ≤ s0 ∧ s0 < 4) ∧ ∀ l i a, (s0, l) ∈ store.2 → (i, a) ∉ l := by
    unfold S2Full at hnot
    push_neg at hnot
    obtain ⟨s0, h0, h4, hno⟩ := hnot
    refine ⟨s0, ⟨h0, h4⟩, ?_⟩
    intro l i a hl hi
    have := hinv.2.2 s0 l i a hl hi
    obtain ⟨_, rfl, rfl⟩ := this
    exact hno l hl hi
  obtain ⟨s0, hs0, hno0⟩ := hmissing
  have hgate : passesGate (nodeRoler store "B" 4 1) Masters Replicas := by
    refine ⟨?_, fun n hn => ?_⟩
    · show roleCount "B" Masters Replicas ≤ MaxInt64
      have : (4 : Int) ≤ MaxInt64 := by decide
      omega
    · show roleCount "B" Masters Replicas ≤ roleCount n Masters Replicas
      by_cases hA : n = "A"
      · rw [hA, hrA]; exact hrB
      · by_cases hB : n = "B"
        · rw [hB]
        · rw [hrO n hA hB] at hn
          omega
  have hom : ∀ shard, ¬ OpenMaster (nodeRoler store "B" 4 1) shard Masters Replicas := by
    rintro shard ⟨hr, hno, _⟩
    have hr2 : 0 ≤ shard ∧ shard < 4 := ⟨hr.1, by exact_mod_cast hr.2⟩
    exact hno addrA ((hsinv.2.1 shard addrA).2 ⟨hr2, rfl⟩)
  have hnil0 := replicasOf_snapshot_nil hsnap s0 hno0
  have hopen : OpenReplica (nodeRoler store "B" 4 1) s0 Masters Replicas := by
    refine ⟨⟨hs0.1, by exact_mod_cast hs0.2⟩, ?_, ?_⟩
    · rw [hnil0]
      show (([] : List (Int × Address)).length : Int) < (1 : Int)
      decide
    · rintro (⟨a, ha, han⟩ | ⟨i, l, a, hl, hi, _⟩)
      · have := ((hsinv.2.1 s0 a).1 ha).2
        rw [this] at han
        have han2 : ("A" : String) = "B" := han
        revert han2
        decide
      · rw [← replicasOf_eq_of_mem hwf.2.1 hl, hnil0] at hi
        cases hi
  obtain ⟨s, i, hs, hi, habs, heq⟩ :=
    findRole_of_open_replica _ rand Masters Replicas hwf hv hgate hom ⟨s0, hopen⟩
  have hi0 : i = 0 := by
    have h1 : i < 1 := hi.2
    omega
  subst hi0
  have hsr : 0 ≤ s ∧ s < 4 := ⟨hs.1.1, by exact_mod_cast hs.1.2⟩
  -- the shard has no slot at all: its inner map is empty in the snapshot
  have hnilS : replicasOf Replicas s = [] := by
    have hlen : ((replicasOf Replicas s).length : Int) < 1 := hs.2.1
    rw [← List.length_eq_zero]
    omega
  have hnoS : ∀ l i a, (s, l) ∈ store.2 → (i, a) ∉ l := by
    intro l i a hl hia
    obtain ⟨l2, hl2, hp⟩ := sameReplicas_mem_left hsnap.2 hl
    rw [← replicasOf_eq_of_mem hwf.2.1 hl2, hnilS] at hp
    have := hp.mem_iff.1 hia
    cases this
  have hstoreNil : (replicasOf store.2 s).lookup 0 = none := by
    rw [lookup_eq_none_iff]
    intro a ha
    unfold replicasOf at ha
    cases hl : store.2.lookup s with
    | none => rw [hl] at ha; cases ha
    | some l =>
      rw [hl] at ha
      exact hnoS l 0 a (mem_of_lookup_eq_some hl) ha
  have hcas : casOK store (replicaClaimB s) = true := by
    simp [casOK, replicaClaimB, hstoreNil]
  have hcalls : ((nodeRoler store "B" 4 1).findRole rand Masters Replicas).calls =
      [replicaClaimB s, Call.Replica s] := by
    rw [heq, beReplica_eq]
    have hcas2 : casOK store (Call.ClaimReplicaAddress s 0 ⟨"B", false⟩ zeroAddress) = true :=
      hcas
    simp [nodeRoler, memAddresser, roler.localNormalAddress, hcas2, okServer, replicaClaimB,
      addrB]
  refine ⟨s, hsr, hnoS, hcalls, ?_⟩
  rw [hcalls]
  have h2 : ∀ X, casOK X (Call.Replica s) = false := fun _ => rfl
  unfold commit
  rw [List.foldl_cons, if_pos hcas, List.foldl_cons, List.foldl_nil, h2]
  rfl

/-- Rest in scenario S2: once every shard has its replica, no node does
anything, on every snapshot and for every random choice. -/
theorem s2_rest (store : Store) (hinv : S2Inv store) (hfull : S2Full store)
    (node : String) (hnode : node = "A" ∨ node = "B") (Masters : MasterMap)
    (Replicas : ReplicaMap) (hsnap : IsSnapshot store Masters Replicas) (rand : Rand)
    (hv : rand.Valid (nodeRoler store node 4 1) Masters Replicas) :
    (nodeRoler store node 4 1).findRole rand Masters Replicas = noop := by
  have hsinv := s2Inv_snapshot hinv hsnap
  have hwf : WF Masters Replicas := hsinv.1
  have hsfull : S2Full (Masters, Replicas) := by
    intro s h0 h4
    obtain ⟨l, hl, hb⟩ := hfull s h0 h4
    obtain ⟨l2, hl2, hp⟩ := sameReplicas_mem_left hsnap.2 hl
    exact ⟨l2, hl2, hp.mem_iff.1 hb⟩
  obtain ⟨hrA, _, hrB, hrO⟩ := s2_roleCounts hsinv
  have hrB := hrB hsfull
  apply findRole_eq_noop _ rand Masters Replicas hwf hv
  · rintro shard ⟨hr, hno, _⟩
    have hr2 : 0 ≤ shard ∧ shard < 4 := ⟨hr.1, by exact_mod_cast hr.2⟩
    exact hno addrA ((hsinv.2.1 shard addrA).2 ⟨hr2, rfl⟩)
  · rintro shard ⟨hr, _, hno⟩
    have hr2 : 0 ≤ shard ∧ shard < 4 := ⟨hr.1, by exact_mod_cast hr.2⟩
    apply hno
    rcases hnode with rfl | rfl
    · exact Or.inl ⟨addrA, (hsinv.2.1 shard addrA).2 ⟨hr2, rfl⟩, rfl⟩
    · obtain ⟨l, hl, hb⟩ := hsfull shard hr2.1 hr2.2
      exact Or.inr ⟨0, l, addrB, hl, hb, rfl⟩
  · intro n
    have hme : roleCount (nodeRoler store node 4 1).localAddress Masters Replicas = 4 := by
      rcases hnode with rfl | rfl
      · exact hrA
      · exact hrB
    rw [hme]
    by_cases hA : n = "A"
    · rw [hA, hrA]; decide
    · by_cases hB : n = "B"
      · rw [hB, hrB]; decide
      · rw [hrO n hA hB]; decide

/-- A watch update given by the calls and the assignment it produces. -/
theorem step_of_eq (N : Nat) (R : Int) (nodes : List String) (store : Store) (node : String)
    (hnode : node ∈ nodes) (rand : Rand)
    (hv : rand.Valid (nodeRoler store node N R) store.1 store.2) (calls : List Call)
    (next : Store)
    (hcalls : ((nodeRoler store node N R).findRole rand store.1 store.2).calls = calls)
    (hnext : commit store calls = next) : Step N R nodes store calls next := by
  subst hcalls
  subst hnext
  exact Step.mk store node hnode store.1 store.2 (isSnapshot_refl store) rand hv

/-- The run of scenario S2 in which `B` receives four watch updates and scans
the shards in the order `0, 1, 2, 3`. -/
theorem s2_run_to_final :
    Run 4 1 ["A", "B"] s2Start
      [[replicaClaimB 0, Call.Replica 0], [replicaClaimB 1, Call.Replica 1],
        [replicaClaimB 2, Call.Replica 2], [replicaClaimB 3, Call.Replica 3]] s2Final := by
  have h0 : Run 4 1 ["A", "B"] s2Start [] s2Start := Run.nil _
  have h1 := Run.snoc _ _ _ _ _ h0 (step_of_eq 4 1 ["A", "B"] s2Start "B" (by simp)
    (nodeRoler s2Start "B" 4 1).idRand (idRand_valid_of _ _ _)
    [replicaClaimB 0, Call.Replica 0] (masters4, [(0, [(0, addrB)])]) (by decide) (by decide))
  have h2 := Run.snoc _ _ _ _ _ h1 (step_of_eq 4 1 ["A", "B"] _ "B" (by simp)
    (nodeRoler (masters4, [(0, [(0, addrB)])]) "B" 4 1).idRand (idRand_valid_of _ _ _)
    [replicaClaimB 1, Call.Replica 1] (masters4, [(0, [(0, addrB)]), (1, [(0, addrB)])])
    (by decide) (by decide))
  have h3 := Run.snoc _ _ _ _ _ h2 (step_of_eq 4 1 ["A", "B"] _ "B" (by simp)
    (nodeRoler (masters4, [(0, [(0, addrB)]), (1, [(0, addrB)])]) "B" 4 1).idRand
    (idRand_valid_of _ _ _)
    [replicaClaimB 2, Call.Replica 2]
    (masters4, [(0, [(0, addrB)]), (1, [(0, addrB)]), (2, [(0, addrB)])])
    (by decide) (by decide))
  have h4 := Run.snoc _ _ _ _ _ h3 (step_of_eq 4 1 ["A", "B"] _ "B" (by simp)
    (nodeRoler (masters4, [(0, [(0, addrB)]), (1, [(0, addrB)]), (2, [(0, addrB)])]) "B" 4
      1).idRand (idRand_valid_of _ _ _)
    [replicaClaimB 3, Call.Replica 3] s2Final (by decide) (by decide))
  exact h4

theorem s2Full_final : S2Full s2Final := by
  intro s h0 h4
  have : s = 0 ∨ s = 1 ∨ s = 2 ∨ s = 3 := by omega
  rcases this with rfl | rfl | rfl | rfl <;>
    exact ⟨[(0, addrB)], by simp [s2Final], by simp⟩

/-- C15, amended (scenario S2: two nodes, `N = 4`, `R = 1`, an addresser that
accepts every CAS whose witness matches): after node `A` has converged alone
and node `B` joins, in every run the only claims are open replica claims of
`B` on slot 0 of a shard, with the zero witness, and no steal is issued; `A`
keeps the four masters, `B` holds no master and `A` no replica, and no shard
has its master and a replica on the same node; while a shard has no replica,
every watch update of `B` claims one with success; once every shard has its
replica, `A` and `B` hold four roles each and neither does anything. The
assignment `A`: masters 0 to 3, `B`: replicas 0 to 3 is reached by four watch
updates of `B`. -/
theorem s2_converges :
    (∀ M0 trace store, M0.Perm masters4 → Run 4 1 ["A", "B"] (M0, []) trace store →
      (∀ calls ∈ trace, ∀ c ∈ calls, c.isClaim = true →
        ∃ s, (0 ≤ s ∧ s < 4) ∧ c = Call.ClaimReplicaAddress s 0 addrB zeroAddress) ∧
      (∀ calls ∈ trace, ∀ c ∈ calls, c.isSteal = false) ∧
      (∀ s a, (s, a) ∈ store.1 ↔ (0 ≤ s ∧ s < 4) ∧ a = addrA) ∧
      masterCount "A" store.1 = 4 ∧ masterCount "B" store.1 = 0 ∧
      replicaCount "A" store.2 = 0 ∧
      (∀ s node, ¬ (isMasterOf node s store.1 ∧ ∃ i, isReplicaAt node s i store.2)) ∧
      (¬ S2Full store → ∀ Masters Replicas rand, IsSnapshot store Masters Replicas →
        rand.Valid (nodeRoler store "B" 4 1) Masters Replicas →
        ∃ s, (0 ≤ s ∧ s < 4) ∧ (∀ l i a, (s, l) ∈ store.2 → (i, a) ∉ l) ∧
          ((nodeRoler store "B" 4 1).findRole rand Masters Replicas).calls =
            [Call.ClaimReplicaAddress s 0 addrB zeroAddress, Call.Replica s] ∧
          commit store ((nodeRoler store "B" 4 1).findRole rand Masters Replicas).calls =
            applyClaim (Call.ClaimReplicaAddress s 0 addrB zeroAddress) store.1 store.2) ∧
      (S2Full store →
        roleCount "A" store.1 store.2 = 4 ∧ roleCount "B" store.1 store.2 = 4 ∧
        ∀ node ∈ ["A", "B"], ∀ Masters Replicas rand, IsSnapshot store Masters Replicas →
          rand.Valid (nodeRoler store node 4 1) Masters Replicas →
          (nodeRoler store node 4 1).findRole rand Masters Replicas = ⟨0, none, [], []⟩)) ∧
    (∃ trace, Run 4 1 ["A", "B"] s2Start trace s2Final ∧ trace.length = 4 ∧
      S2Full s2Final) := by
  constructor
  · intro M0 trace store hM0 hrun
    obtain ⟨hinv, hclaims⟩ := s2_run (M0, []) trace store hrun (s2Inv_start M0 hM0)
    obtain ⟨hA, hB, hRA, hdis⟩ := s2Inv_counts hinv
    refine ⟨hclaims, ?_, hinv.2.1, hA, hB, hRA, hdis, ?_, ?_⟩
    · intro calls hcalls c hc
      by_contra hcon
      have hsteal : c.isSteal = true := by simpa using hcon
      obtain ⟨s, _, rfl⟩ := hclaims calls hcalls c hc (isSteal_isClaim c hsteal)
      have hzero : (zeroAddress != zeroAddress) = false := by decide
      simp [replicaClaimB, Call.isSteal, hzero] at hsteal
    · intro hnot Masters Replicas rand hsnap hv
      exact s2_progress store hinv hnot Masters Replicas hsnap rand hv
    · intro hfull
      have hinv2 : S2Inv (store.1, store.2) := hinv
      obtain ⟨hrA, _, hrB, _⟩ := s2_roleCounts hinv2
      refine ⟨hrA, hrB hfull, ?_⟩
      intro node hnode Masters Replicas rand hsnap hv
      have hn : node = "A" ∨ node = "B" := by simpa using hnode
      exact s2_rest store hinv hfull node hn Masters Replicas hsnap rand hv
  · exact ⟨_, s2_run_to_final, rfl, s2Full_final⟩

/-- C15, amended, on the run in which `B` receives four watch updates: it
ends in the assignment where `A` holds the four masters and `B` the four
replicas, four roles each, and there both nodes do nothing. -/
theorem s2_converges_witness :
    masterCount "A" s2Final.1 = 4 ∧ masterCount "B" s2Final.1 = 0 ∧
    replicaCount "A" s2Final.2 = 0 ∧ replicaCount "B" s2Final.2 = 4 ∧
    roleCount "A" s2Final.1 s2Final.2 = 4 ∧ roleCount "B" s2Final.1 s2Final.2 = 4 ∧
    (∀ node ∈ ["A", "B"], ∀ Masters Replicas rand, IsSnapshot s2Final Masters Replicas →
      rand.Valid (nodeRoler s2Final node 4 1) Masters Replicas →
      (nodeRoler s2Final node 4 1).findRole rand Masters Replicas = ⟨0, none, [], []⟩) := by
  obtain ⟨trace, hrun, _, hfull⟩ := s2_converges.2
  obtain ⟨_, _, _, hA, hB, hRA, _, _, hrest⟩ :=
    s2_converges.1 masters4 trace s2Final (List.Perm.refl _) hrun
  obtain ⟨hrA, hrB, hnoop⟩ := hrest hfull
  exact ⟨hA, hB, hRA, by decide, hrA, hrB, hnoop⟩

/-! ## Steals reduce the imbalance -/

/-- A node with a role occurs in the snapshot. -/
theorem mem_nodesOf_of_roleCount_ne_zero (node : String) (Masters : MasterMap)
    (Replicas : ReplicaMap) (h : roleCount node Masters Replicas ≠ 0) :
    node ∈ nodesOf Masters Replicas := by
  by_contra hn
  apply h
  simp only [nodesOf, List.mem_append, List.mem_map, List.mem_flatten, not_or, not_exists,
    not_and] at hn
  obtain ⟨h1, h2⟩ := hn
  have hM : Masters.countP (fun e => e.2.Address == node) = 0 := by
    rw [List.countP_eq_zero]
    intro e he
    simp only [beq_iff_eq]
    exact h1 e he
  have hR : (Replicas.map (fun e => e.2.countP (fun a => a.2.Address == node))).sum = 0 := by
    apply List.sum_eq_zero
    intro n hn2
    obtain ⟨e, he, rfl⟩ := List.mem_map.1 hn2
    rw [List.countP_eq_zero]
    intro a ha
    simp only [beq_iff_eq]
    intro hcon
    exact h2 _ ⟨e, he, rfl⟩ (List.mem_map.2 ⟨a, ha, hcon⟩)
  unfold roleCount
  rw [hM, hR]
  rfl

/-- The imbalance is the sum of the squared counts over any finite set of
nodes that contains the nodes of the snapshot. -/
theorem imbalance_eq_sum (Masters : MasterMap) (Replicas : ReplicaMap) (S : Finset String)
    (hS : ∀ n ∈ nodesOf Masters Replicas, n ∈ S) :
    imbalance Masters Replicas = Finset.sum S (fun n => roleCount n Masters Replicas ^ 2) := by
  unfold imbalance
  rw [← List.sum_toFinset _ (List.nodup_dedup _)]
  apply Finset.sum_subset
  · intro n hn
    rw [List.mem_toFinset, List.mem_dedup] at hn
    exact hS n hn
  · intro n _ hn
    rw [List.mem_toFinset, List.mem_dedup] at hn
    have : roleCount n Masters Replicas = 0 := by
      by_contra hne
      exact hn (mem_nodesOf_of_roleCount_ne_zero n Masters Replicas hne)
    rw [this]
    rfl

theorem imbalance_nonneg (Masters : MasterMap) (Replicas : ReplicaMap) :
    0 ≤ imbalance Masters Replicas := by
  unfold imbalance
  apply List.sum_nonneg
  intro x hx
  obtain ⟨n, _, rfl⟩ := List.mem_map.1 hx
  exact sq_nonneg _

/-- Moving one role from a node `V` to a node `T` that has at least two roles
fewer lowers the sum of the squared counts, over any set of nodes that
contains `T` and `V`, by at least 2. -/
theorem sum_sq_move (Masters : MasterMap) (Replicas : ReplicaMap) (Masters2 : MasterMap)
    (Replicas2 : ReplicaMap) (T V : String)
    (hmove : ∀ n, roleCount n Masters2 Replicas2 + (if V = n then 1 else 0) =
      roleCount n Masters Replicas + (if T = n then 1 else 0))
    (hgap : roleCount T Masters Replicas + 1 ≤ roleCount V Masters Replicas - 1)
    (S : Finset String) (hT : T ∈ S) (hVS : V ∈ S) :
    Finset.sum S (fun n => roleCount n Masters2 Replicas2 ^ 2) + 2 ≤
      Finset.sum S (fun n => roleCount n Masters Replicas ^ 2) := by
  have hne : T ≠ V := by
    intro h
    rw [h] at hgap
    omega
  have hV : V ∈ S.erase T := by
    rw [Finset.mem_erase]
    exact ⟨fun h => hne h.symm, hVS⟩
  rw [← Finset.add_sum_erase S _ hT, ← Finset.add_sum_erase (S.erase T) _ hV,
    ← Finset.add_sum_erase S (fun n => roleCount n Masters Replicas ^ 2) hT,
    ← Finset.add_sum_erase (S.erase T) (fun n => roleCount n Masters Replicas ^ 2) hV]
  have hrest : Finset.sum ((S.erase T).erase V) (fun n => roleCount n Masters2 Replicas2 ^ 2) =
      Finset.sum ((S.erase T).erase V) (fun n => roleCount n Masters Replicas ^ 2) := by
    apply Finset.sum_congr rfl
    intro n hn
    rw [Finset.mem_erase, Finset.mem_erase] at hn
    have h := hmove n
    have h1 : ¬ V = n := fun h => hn.1 h.symm
    have h2 : ¬ T = n := fun h => hn.2.1 h.symm
    simp only [h1, h2, if_false, add_zero] at h
    rw [h]
  rw [hrest]
  have hTm := hmove T
  have hVm := hmove V
  have hne2 : ¬ V = T := fun h => hne h.symm
  simp only [hne, hne2, if_false, if_true, add_zero] at hTm hVm
  have hV2 : roleCount V Masters2 Replicas2 = roleCount V Masters Replicas - 1 := by omega
  rw [hTm, hV2]
  nlinarith

/-- Moving one role from a node `V` to a node `T` that has at least two roles
fewer lowers the imbalance by at least 2. -/
theorem imbalance_move (Masters : MasterMap) (Replicas : ReplicaMap) (Masters2 : MasterMap)
    (Replicas2 : ReplicaMap) (T V : String)
    (hmove : ∀ n, roleCount n Masters2 Replicas2 + (if V = n then 1 else 0) =
      roleCount n Masters Replicas + (if T = n then 1 else 0))
    (hgap : roleCount T Masters Replicas + 1 ≤ roleCount V Masters Replicas - 1) :
    imbalance Masters2 Replicas2 + 2 ≤ imbalance Masters Replicas := by
  obtain ⟨S, hSdef⟩ : ∃ S : Finset String, S =
      (nodesOf Masters Replicas).toFinset ∪ (nodesOf Masters2 Replicas2).toFinset ∪ {T, V} :=
    ⟨_, rfl⟩
  have hS1 : ∀ n ∈ nodesOf Masters Replicas, n ∈ S := by
    intro n hn
    rw [hSdef]
    simp [hn]
  have hS2 : ∀ n ∈ nodesOf Masters2 Replicas2, n ∈ S := by
    intro n hn
    rw [hSdef]
    simp [hn]
  rw [imbalance_eq_sum Masters Replicas S hS1, imbalance_eq_sum Masters2 Replicas2 S hS2]
  exact sum_sq_move Masters Replicas Masters2 Replicas2 T V hmove hgap S
    (by rw [hSdef]; simp) (by rw [hSdef]; simp)

theorem length_setSlot_of_mem {ν : Type} (m : List (Int × ν)) (k : Int) (old v : ν)
    (h : (k, old) ∈ m) : (setSlot m k v).length = m.length := by
  induction m with
  | nil => cases h
  | cons e rest ih =>
    obtain ⟨a, b⟩ := e
    by_cases ha : a = k
    · simp [setSlot, ha]
    · have hmem : (k, old) ∈ rest := by
        rcases List.mem_cons.1 h with h2 | h2
        · exact absurd (Prod.mk.inj h2).1.symm ha
        · exact h2
      simp [setSlot, ha, ih hmem]

/-- A master steal leaves the number of role entries unchanged. -/
theorem totalRoles_steal_master (Masters : MasterMap) (Replicas : ReplicaMap) (shard : Int)
    (old new : Address) (hmem : (shard, old) ∈ Masters) :
    totalRoles (setSlot Masters shard new) Replicas = totalRoles Masters Replicas := by
  unfold totalRoles
  rw [length_setSlot_of_mem Masters shard old new hmem]

/-- A replica steal leaves the number of role entries unchanged. -/
theorem totalRoles_steal_replica (Masters : MasterMap) {Replicas : ReplicaMap}
    (hwf : WF Masters Replicas) {shard index : Int} {addresses : List (Int × Address)}
    {old : Address} (hs : (shard, addresses) ∈ Replicas) (hi : (index, old) ∈ addresses)
    (new : Address) :
    totalRoles Masters
        (setSlot Replicas shard (setSlot (replicasOf Replicas shard) index new)) =
      totalRoles Masters Replicas := by
  rw [replicasOf_eq_of_mem hwf.2.1 hs]
  have h1 := sum_setSlot_replace (fun e : Int × List (Int × Address) => e.2.length)
    hwf.2.1 hs (setSlot addresses index new)
  simp only at h1
  rw [length_setSlot_of_mem addresses index old new hi] at h1
  unfold totalRoles
  omega

/-- A steal of `findRole` on a snapshot leaves the number of role entries
unchanged. -/
theorem totalRoles_after_steal (r : roler) (rand : Rand) (Masters : MasterMap)
    (Replicas : ReplicaMap) (hwf : WF Masters Replicas) (c : Call)
    (hc : c ∈ (r.findRole rand Masters Replicas).calls) (hsteal : c.isSteal = true) :
    totalRoles (applyClaim c Masters Replicas).1 (applyClaim c Masters Replicas).2 =
      totalRoles Masters Replicas := by
  obtain ⟨_, h | h⟩ := findRole_steal_spec r rand Masters Replicas c hc hsteal
  · obtain ⟨shard, prev, rfl, hmem, _⟩ := h
    exact totalRoles_steal_master Masters Replicas shard prev _ hmem
  · obtain ⟨shard, index, prev, addresses, rfl, hs, hi, _⟩ := h
    exact totalRoles_steal_replica Masters hwf hs hi _

/-- The movement of one successful steal: one role goes from the victim `V`
to the thief `T`, which had at least two roles fewer, and the number of role
entries is unchanged. -/
theorem stealStep_move (s t : Store) (hwf : WF s.1 s.2) (h : StealStep s t) :
    WF t.1 t.2 ∧ totalRoles t.1 t.2 = totalRoles s.1 s.2 ∧ ∃ T V : String,
      (∀ n, roleCount n t.1 t.2 + (if V = n then 1 else 0) =
        roleCount n s.1 s.2 + (if T = n then 1 else 0)) ∧
      roleCount T s.1 s.2 + 1 ≤ roleCount V s.1 s.2 - 1 := by
  obtain ⟨r, rand, Masters, Replicas, c, hsnap, hv, hc, hsteal, hcas, rfl⟩ := h
  refine ⟨wf_applyClaim c hwf, ?_⟩
  obtain ⟨hg, hform⟩ := findRole_steal_spec r rand Masters Replicas c hc hsteal
  have hgap := (gap_spec r rand Masters Replicas hv hg).2
  rw [roleCount_snapshot _ hsnap, roleCount_snapshot _ hsnap] at hgap
  rcases hform with hform | hform
  · obtain ⟨shard, prev, rfl, _, ha⟩ := hform
    have hne : prev ≠ zeroAddress := by simpa [Call.isSteal] using hsteal
    have hlook : s.1.lookup shard = some prev := by simpa [casOK, hne] using hcas
    have hmem := mem_of_lookup_eq_some hlook
    refine ⟨totalRoles_steal_master s.1 s.2 shard prev _ hmem, r.localAddress,
      prev.Address, ?_, ?_⟩
    · intro n
      exact roleCount_steal_master s.2 hwf.1 hmem r.localNormalAddress n
    · rw [ha]
      exact hgap
  · obtain ⟨shard, index, prev, _, rfl, _, _, ha⟩ := hform
    have hne : prev ≠ zeroAddress := by simpa [Call.isSteal] using hsteal
    have hlook : (replicasOf s.2 shard).lookup index = some prev := by
      simpa [casOK, hne] using hcas
    have hi := mem_of_lookup_eq_some hlook
    have hs : (shard, replicasOf s.2 shard) ∈ s.2 := by
      cases hl : s.2.lookup shard with
      | none =>
        rw [replicasOf, hl] at hlook
        simp at hlook
      | some l =>
        have : replicasOf s.2 shard = l := by rw [replicasOf, hl]; rfl
        rw [this]
        exact mem_of_lookup_eq_some hl
    refine ⟨totalRoles_steal_replica s.1 hwf hs hi _, r.localAddress, prev.Address, ?_, ?_⟩
    · intro n
      exact roleCount_steal_replica s.1 hwf hs hi r.localNormalAddress n
    · rw [ha]
      exact hgap

/-- One successful steal keeps the assignment well formed, keeps the number
of role entries and lowers the imbalance by at least 2. -/
theorem stealStep_spec (s t : Store) (hwf : WF s.1 s.2) (h : StealStep s t) :
    WF t.1 t.2 ∧ totalRoles t.1 t.2 = totalRoles s.1 s.2 ∧
      imbalance t.1 t.2 + 2 ≤ imbalance s.1 s.2 := by
  obtain ⟨hwf2, htot, T, V, hmove, hgap⟩ := stealStep_move s t hwf h
  exact ⟨hwf2, htot, imbalance_move s.1 s.2 t.1 t.2 T V hmove hgap⟩

/-- After `k` successful steals in a row the imbalance has dropped by at
least `2 * k`. -/
theorem stealChain_bound (f : Nat → Store) (hwf : WF (f 0).1 (f 0).2) (k : Nat)
    (h : ∀ n, n < k → StealStep (f n) (f (n + 1))) :
    WF (f k).1 (f k).2 ∧ totalRoles (f k).1 (f k).2 = totalRoles (f 0).1 (f 0).2 ∧
      imbalance (f k).1 (f k).2 + 2 * (k : Int) ≤ imbalance (f 0).1 (f 0).2 := by
  induction k with
  | zero => exact ⟨hwf, rfl, by simp⟩
  | succ k ih =>
    obtain ⟨hwfk, htot, himb⟩ := ih (fun n hn => h n (Nat.lt_succ_of_lt hn))
    obtain ⟨hwf2, htot2, himb2⟩ := stealStep_spec (f k) (f (k + 1)) hwfk (h k (Nat.lt_succ_self k))
    refine ⟨hwf2, htot2.trans htot, ?_⟩
    push_cast
    omega

/-! ## Steals on the current assignment and on an older snapshot -/

/-- The movement of a steal whose CAS succeeds on the assignment `s`, whatever
snapshot `findRole` has computed it on: the number of role entries of `s` is
unchanged and one role goes from the victim, the node selected by `maxCount`
on the snapshot, to the local node. -/
theorem steal_cas_move (r : roler) (rand : Rand) (Masters : MasterMap)
    (Replicas : ReplicaMap) (s : Store) (hwf : WF s.1 s.2) (c : Call)
    (hc : c ∈ (r.findRole rand Masters Replicas).calls) (hsteal : c.isSteal = true)
    (hcas : casOK s c = true) :
    ∃ victim, c.witnessAddress = some victim ∧
      victim.Address = r.maxAddress rand Masters Replicas ∧ r.gap rand Masters Replicas ∧
      totalRoles (applyClaim c s.1 s.2).1 (applyClaim c s.1 s.2).2 = totalRoles s.1 s.2 ∧
      ∀ n, roleCount n (applyClaim c s.1 s.2).1 (applyClaim c s.1 s.2).2 +
          (if victim.Address = n then 1 else 0) =
        roleCount n s.1 s.2 + (if r.localAddress = n then 1 else 0) := by
  obtain ⟨hg, hform⟩ := findRole_steal_spec r rand Masters Replicas c hc hsteal
  rcases hform with hform | hform
  · obtain ⟨shard, prev, rfl, _, ha⟩ := hform
    have hne : prev ≠ zeroAddress := by simpa [Call.isSteal] using hsteal
    have hlook : s.1.lookup shard = some prev := by simpa [casOK, hne] using hcas
    have hmem := mem_of_lookup_eq_some hlook
    refine ⟨prev, rfl, ha, hg, totalRoles_steal_master s.1 s.2 shard prev _ hmem, ?_⟩
    intro n
    exact roleCount_steal_master s.2 hwf.1 hmem r.localNormalAddress n
  · obtain ⟨shard, index, prev, _, rfl, _, _, ha⟩ := hform
    have hne : prev ≠ zeroAddress := by simpa [Call.isSteal] using hsteal
    have hlook : (replicasOf s.2 shard).lookup index = some prev := by
      simpa [casOK, hne] using hcas
    have hi := mem_of_lookup_eq_some hlook
    have hs : (shard, replicasOf s.2 shard) ∈ s.2 := by
      cases hl : s.2.lookup shard with
      | none =>
        rw [replicasOf, hl] at hlook
        simp at hlook
      | some l =>
        have : replicasOf s.2 shard = l := by rw [replicasOf, hl]; rfl
        rw [this]
        exact mem_of_lookup_eq_some hl
    refine ⟨prev, rfl, ha, hg, totalRoles_steal_replica s.1 hwf hs hi _, ?_⟩
    intro n
    exact roleCount_steal_replica s.1 hwf hs hi r.localNormalAddress n

/-- A steal computed on a snapshot of the assignment the CAS is applied to. -/
theorem stealStep_iff_stealOn (s t : Store) : StealStep s t ↔ StealOn s s t := Iff.rfl

/-- Node `C` steals the master of shard 1 on the assignment `race0`. -/
theorem stealOn_race1 : StealOn (race0, []) (race0, []) (race1, []) :=
  ⟨mkRoler "C" 6 0, idRand 6 0,
    [(1, addrA), (0, addrA), (2, addrA), (3, addrB), (4, addrC), (5, addrD)], [],
    Call.ClaimMasterAddress 1 addrC addrA,
    ⟨by decide, sameReplicas_refl []⟩, idRand_valid "C" 6 0 _ _, by decide, rfl, by decide,
    by decide⟩

/-- Node `D` has computed the steal of the master of shard 2 on the assignment
`race0`; the CAS succeeds on `race1`. -/
theorem stealOn_race2 : StealOn (race0, []) (race1, []) (race2, []) :=
  ⟨mkRoler "D" 6 0, idRand 6 0,
    [(2, addrA), (0, addrA), (1, addrA), (3, addrB), (4, addrC), (5, addrD)], [],
    Call.ClaimMasterAddress 2 addrD addrA,
    ⟨by decide, sameReplicas_refl []⟩, idRand_valid "D" 6 0 _ _, by decide, rfl, by decide,
    by decide⟩

/-- Node `B` has computed the steal of the master of shard 0 on the assignment
`race0`; the CAS succeeds on `race2`. -/
theorem stealOn_race3 : StealOn (race0, []) (race2, []) (race3, []) :=
  ⟨mkRoler "B" 6 0, idRand 6 0, race0, [], Call.ClaimMasterAddress 0 addrB addrA,
    ⟨List.Perm.refl _, sameReplicas_refl []⟩, idRand_valid "B" 6 0 _ _, by decide, rfl,
    by decide, by decide⟩

/-! ## No ping-pong -/

/-- C14 (no ping-pong, amended): for every assignment `s` and every snapshot
of `s` on which the `findRole` of node `T` steals a role from a victim `V`, if
the CAS succeeds on `s` itself, then in the assignment after the CAS
`count[T] <= count[V]`, the gap condition of `V` towards `T`,
`count[V] + 1 <= count[T] - 1`, is false, and no `findRole` invocation of `V`
on a snapshot of that assignment, whatever the listing order and the random
choices, issues a steal whose witness is an address of `T`. -/
theorem no_ping_pong (rT : roler) (rand : Rand) (s : Store) (Masters : MasterMap)
    (Replicas : ReplicaMap) (hwf : WF s.1 s.2) (hsnap : IsSnapshot s Masters Replicas)
    (hv : rand.Valid rT Masters Replicas) (c : Call)
    (hc : c ∈ (rT.findRole rand Masters Replicas).calls) (hsteal : c.isSteal = true)
    (hcas : casOK s c = true) (victim : Address) (hvictim : c.witnessAddress = some victim) :
    roleCount rT.localAddress (applyClaim c s.1 s.2).1 (applyClaim c s.1 s.2).2 ≤
      roleCount victim.Address (applyClaim c s.1 s.2).1 (applyClaim c s.1 s.2).2 ∧
    ¬ (roleCount victim.Address (applyClaim c s.1 s.2).1 (applyClaim c s.1 s.2).2 + 1 ≤
        roleCount rT.localAddress (applyClaim c s.1 s.2).1 (applyClaim c s.1 s.2).2 - 1) ∧
    ∀ (rV : roler) (rand2 : Rand) (Masters2 : MasterMap) (Replicas2 : ReplicaMap),
      rV.localAddress = victim.Address →
      IsSnapshot (applyClaim c s.1 s.2) Masters2 Replicas2 →
      rand2.Valid rV Masters2 Replicas2 →
      ∀ c2 ∈ (rV.findRole rand2 Masters2 Replicas2).calls,
        c2.isSteal = true → ∀ a2, c2.witnessAddress = some a2 →
          a2.Address ≠ rT.localAddress := by
  obtain ⟨v, hw, hmax, hg, _, hcount⟩ :=
    steal_cas_move rT rand Masters Replicas s hwf c hc hsteal hcas
  have hvv : v = victim := by
    rw [hw] at hvictim
    exact Option.some.inj hvictim
  subst hvv
  have hgap := (gap_spec rT rand Masters Replicas hv hg).2
  rw [← hmax, roleCount_snapshot _ hsnap, roleCount_snapshot _ hsnap] at hgap
  have hne : v.Address ≠ rT.localAddress := by
    intro h
    rw [h] at hgap
    omega
  have hT := hcount rT.localAddress
  have hV := hcount v.Address
  simp only [hne, if_false, if_true, add_zero] at hT
  have hne2 : ¬ rT.localAddress = v.Address := fun h => hne h.symm
  simp only [hne2, if_false, if_true, add_zero] at hV
  have hle : roleCount rT.localAddress (applyClaim c s.1 s.2).1 (applyClaim c s.1 s.2).2 ≤
      roleCount v.Address (applyClaim c s.1 s.2).1 (applyClaim c s.1 s.2).2 := by
    omega
  refine ⟨hle, by omega, ?_⟩
  intro rV rand2 Masters2 Replicas2 hlocal hsnap2 hv2 c2 hc2 hsteal2 a2 ha2 hcon
  obtain ⟨hg2, h | h⟩ := findRole_steal_spec rV rand2 _ _ c2 hc2 hsteal2
  · obtain ⟨shard, prev, rfl, _, ha⟩ := h
    have : prev = a2 := Option.some.inj ha2
    subst this
    have hgap2 := (gap_spec rV rand2 _ _ hv2 hg2).2
    rw [← ha, hcon, hlocal, roleCount_snapshot _ hsnap2, roleCount_snapshot _ hsnap2] at hgap2
    omega
  · obtain ⟨shard, index, prev, addresses, rfl, _, _, ha⟩ := h
    have : prev = a2 := Option.some.inj ha2
    subst this
    have hgap2 := (gap_spec rV rand2 _ _ hv2 hg2).2
    rw [← ha, hcon, hlocal, roleCount_snapshot _ hsnap2, roleCount_snapshot _ hsnap2] at hgap2
    omega

/-- C14 at a concrete assignment: masters `0:A, 1:A, 2:A` (`N = 3`, `R = 0`),
`B` steals the master of shard 0 from `A` on a snapshot of that assignment. In
the assignment `0:B, 1:A, 2:A` the count of `B`, 1, is below the count of `A`,
2, and `A` never steals from `B`. -/
theorem no_ping_pong_witness :
    roleCount "B" [(0, addrB), (1, addrA), (2, addrA)] [] ≤
      roleCount "A" [(0, addrB), (1, addrA), (2, addrA)] [] ∧
    ¬ (roleCount "A" [(0, addrB), (1, addrA), (2, addrA)] [] + 1 ≤
      roleCount "B" [(0, addrB), (1, addrA), (2, addrA)] [] - 1) ∧
    ∀ (rV : roler) (rand2 : Rand) (Masters2 : MasterMap) (Replicas2 : ReplicaMap),
      rV.localAddress = "A" →
      IsSnapshot ([(0, addrB), (1, addrA), (2, addrA)], []) Masters2 Replicas2 →
      rand2.Valid rV Masters2 Replicas2 →
      ∀ c2 ∈ (rV.findRole rand2 Masters2 Replicas2).calls,
        c2.isSteal = true → ∀ a2, c2.witnessAddress = some a2 → a2.Address ≠ "B" :=
  no_ping_pong (mkRoler "B" 3 0) (idRand 3 0) (allA, []) allA []
    (by simp [WF, NodupKeys, allA]) (isSnapshot_refl (allA, [])) (idRand_valid "B" 3 0 _ _)
    (Call.ClaimMasterAddress 0 addrB addrA) (by decide) rfl (by decide) addrA rfl

/-- C14, as stated, fails when the CAS succeeds on an assignment
that other thieves have changed since the snapshot. On the assignment `race0`
(`A`: shards 0, 1, 2; `B`, `C`, `D`: one shard each; `N = 6`, `R = 0`) the
nodes `B`, `C`, `D` all see `1 + 1 <= 3 - 1` and steal from `A`: `C` shard 1,
`D` shard 2, `B` shard 0. Each CAS compares one slot and succeeds. After the
CAS of `B` the counts are `B`: 2, `A`: 0, the gap condition of `A` towards `B`,
`0 + 1 <= 2 - 1`, holds, and the `findRole` of `A` issues
`ClaimMasterAddress(0, A, B)`: the role goes back. -/
theorem stale_steal_ping_pong :
    (StealOn (race0, []) (race0, []) (race1, []) ∧
      StealOn (race0, []) (race1, []) (race2, [])) ∧
    (Call.ClaimMasterAddress 0 addrB addrA ∈
        ((mkRoler "B" 6 0).findRole (idRand 6 0) race0 []).calls ∧
      (Call.ClaimMasterAddress 0 addrB addrA).isSteal = true ∧
      (Call.ClaimMasterAddress 0 addrB addrA).witnessAddress = some addrA ∧
      casOK (race2, []) (Call.ClaimMasterAddress 0 addrB addrA) = true ∧
      applyClaim (Call.ClaimMasterAddress 0 addrB addrA) race2 [] = (race3, [])) ∧
    (roleCount "B" race3 [] = 2 ∧ roleCount "A" race3 [] = 0 ∧
      ¬ roleCount "B" race3 [] ≤ roleCount "A" race3 [] ∧
      roleCount "A" race3 [] + 1 ≤ roleCount "B" race3 [] - 1) ∧
    (Call.ClaimMasterAddress 0 addrA addrB ∈
        ((mkRoler "A" 6 0).findRole (idRand 6 0) race3 []).calls ∧
      (Call.ClaimMasterAddress 0 addrA addrB).isSteal = true ∧
      (Call.ClaimMasterAddress 0 addrA addrB).witnessAddress = some addrB) := by
  refine ⟨⟨stealOn_race1, stealOn_race2⟩, ⟨?_, rfl, rfl, ?_, ?_⟩, ⟨?_, ?_, ?_, ?_⟩,
    ⟨?_, rfl, rfl⟩⟩ <;> decide

/-! ## Steals and the sum of squares -/

/-- C21 (steals reduce the imbalance, amended): on every snapshot on which
`findRole` issues a steal, with `victim` the witness of the CAS, in the
assignment after the successful CAS on that snapshot the total number of role
entries is unchanged, the count of the thief has risen by 1, the count of the
victim has fallen by 1, the count of every other node is unchanged, and the
sum of `count^2`, over the nodes of the assignment as over any set of nodes
that contains thief and victim, has dropped by at least 2. When the CAS
succeeds on an assignment `s` that is not the one of the snapshot, the number
of entries of `s` is still unchanged and one role still goes from the victim
to the thief. The drop of the sum of `count^2` holds for every successful steal
computed on a snapshot of the assignment the CAS is applied to (`StealStep`:
any node, any listing order, any random choices). Hence `k` such steals in a
row, with no other change of the assignment, need `2 * k <= sum of count^2` at
the start, and there is no infinite sequence of them. -/
theorem steal_reduces_imbalance :
    (∀ (r : roler) (rand : Rand) (Masters : MasterMap) (Replicas : ReplicaMap) (c : Call)
        (victim : Address),
      WF Masters Replicas → rand.Valid r Masters Replicas →
      c ∈ (r.findRole rand Masters Replicas).calls → c.isSteal = true →
      c.witnessAddress = some victim →
      totalRoles (applyClaim c Masters Replicas).1 (applyClaim c Masters Replicas).2 =
        totalRoles Masters Replicas ∧
      roleCount r.localAddress (applyClaim c Masters Replicas).1
          (applyClaim c Masters Replicas).2 =
        roleCount r.localAddress Masters Replicas + 1 ∧
      roleCount victim.Address (applyClaim c Masters Replicas).1
          (applyClaim c Masters Replicas).2 =
        roleCount victim.Address Masters Replicas - 1 ∧
      (∀ node, node ≠ r.localAddress → node ≠ victim.Address →
        roleCount node (applyClaim c Masters Replicas).1 (applyClaim c Masters Replicas).2 =
          roleCount node Masters Replicas) ∧
      imbalance (applyClaim c Masters Replicas).1 (applyClaim c Masters Replicas).2 + 2 ≤
        imbalance Masters Replicas ∧
      (∀ S : Finset String, r.localAddress ∈ S → victim.Address ∈ S →
        Finset.sum S (fun n => roleCount n (applyClaim c Masters Replicas).1
            (applyClaim c Masters Replicas).2 ^ 2) + 2 ≤
          Finset.sum S (fun n => roleCount n Masters Replicas ^ 2))) ∧
    (∀ (r : roler) (rand : Rand) (Masters : MasterMap) (Replicas : ReplicaMap) (s : Store)
        (c : Call) (victim : Address),
      WF s.1 s.2 → rand.Valid r Masters Replicas →
      c ∈ (r.findRole rand Masters Replicas).calls → c.isSteal = true →
      casOK s c = true → c.witnessAddress = some victim →
      totalRoles (applyClaim c s.1 s.2).1 (applyClaim c s.1 s.2).2 = totalRoles s.1 s.2 ∧
      roleCount r.localAddress (applyClaim c s.1 s.2).1 (applyClaim c s.1 s.2).2 =
        roleCount r.localAddress s.1 s.2 + 1 ∧
      roleCount victim.Address (applyClaim c s.1 s.2).1 (applyClaim c s.1 s.2).2 =
        roleCount victim.Address s.1 s.2 - 1 ∧
      (∀ node, node ≠ r.localAddress → node ≠ victim.Address →
        roleCount node (applyClaim c s.1 s.2).1 (applyClaim c s.1 s.2).2 =
          roleCount node s.1 s.2)) ∧
    (∀ s t : Store, WF s.1 s.2 → StealStep s t →
      WF t.1 t.2 ∧ totalRoles t.1 t.2 = totalRoles s.1 s.2 ∧
      imbalance t.1 t.2 + 2 ≤ imbalance s.1 s.2) ∧
    (∀ (f : Nat → Store) (k : Nat), WF (f 0).1 (f 0).2 →
      (∀ n, n < k → StealStep (f n) (f (n + 1))) →
      2 * (k : Int) ≤ imbalance (f 0).1 (f 0).2) ∧
    (∀ f : Nat → Store, WF (f 0).1 (f 0).2 → ¬ ∀ n, StealStep (f n) (f (n + 1))) := by
  refine ⟨?_, ?_, stealStep_spec, ?_, ?_⟩
  · intro r rand Masters Replicas c victim hwf hv hc hsteal hvictim
    obtain ⟨v, hw, ha, hg, hmove⟩ :=
      roleCount_after_steal r rand Masters Replicas hwf c hc hsteal
    rw [hvictim] at hw
    cases hw
    have hgap := (gap_spec r rand Masters Replicas hv hg).2
    rw [← ha] at hgap
    have hne : r.localAddress ≠ victim.Address := by
      intro h
      rw [h] at hgap
      omega
    have hmove2 : ∀ n, roleCount n (applyClaim c Masters Replicas).1
        (applyClaim c Masters Replicas).2 + (if victim.Address = n then 1 else 0) =
        roleCount n Masters Replicas + (if r.localAddress = n then 1 else 0) := hmove
    refine ⟨totalRoles_after_steal r rand Masters Replicas hwf c hc hsteal, ?_, ?_, ?_,
      imbalance_move _ _ _ _ _ _ hmove2 hgap,
      fun S hT hV => sum_sq_move _ _ _ _ _ _ hmove2 hgap S hT hV⟩
    · have h := hmove r.localAddress
      have hne2 : ¬ victim.Address = r.localAddress := fun h => hne h.symm
      rw [if_neg hne2, if_pos rfl] at h
      omega
    · have h := hmove victim.Address
      rw [if_pos rfl, if_neg hne] at h
      omega
    · intro node h1 h2
      have h := hmove node
      have h3 : ¬ victim.Address = node := fun h => h2 h.symm
      have h4 : ¬ r.localAddress = node := fun h => h1 h.symm
      rw [if_neg h3, if_neg h4] at h
      omega
  · intro r rand Masters Replicas s c victim hwf hv hc hsteal hcas hvictim
    obtain ⟨v, hw, ha, hg, htot, hmove⟩ :=
      steal_cas_move r rand Masters Replicas s hwf c hc hsteal hcas
    rw [hvictim] at hw
    cases hw
    have hgap := (gap_spec r rand Masters Replicas hv hg).2
    rw [← ha] at hgap
    have hne : r.localAddress ≠ victim.Address := by
      intro h
      rw [h] at hgap
      omega
    refine ⟨htot, ?_, ?_, ?_⟩
    · have h := hmove r.localAddress
      have hne2 : ¬ victim.Address = r.localAddress := fun h => hne h.symm
      rw [if_neg hne2, if_pos rfl] at h
      omega
    · have h := hmove victim.Address
      rw [if_pos rfl, if_neg hne] at h
      omega
    · intro node h1 h2
      have h := hmove node
      have h3 : ¬ victim.Address = node := fun h => h2 h.symm
      have h4 : ¬ r.localAddress = node := fun h => h1 h.symm
      rw [if_neg h3, if_neg h4] at h
      omega
  · intro f k hwf h
    have hb := (stealChain_bound f hwf k h).2.2
    have h0 := imbalance_nonneg (f k).1 (f k).2
    omega
  · intro f hwf h
    have h0 := imbalance_nonneg (f 0).1 (f 0).2
    have hb := (stealChain_bound f hwf ((imbalance (f 0).1 (f 0).2).toNat + 1)
      (fun n _ => h n)).2.2
    have h1 := imbalance_nonneg (f ((imbalance (f 0).1 (f 0).2).toNat + 1)).1
      (f ((imbalance (f 0).1 (f 0).2).toNat + 1)).2
    have h2 := Int.toNat_of_nonneg h0
    push_cast at hb
    omega

/-- C21 at a concrete snapshot: masters `0:A, 1:A, 2:A` (`N = 3`, `R = 0`),
`B` steals the master of shard 0 from `A`. The assignment `0:B, 1:A, 2:A` has
3 role entries as before, `B` has 1 role instead of 0, `A` has 2 instead of 3,
and the sum of `count^2` is 5 instead of 9. -/
theorem steal_reduces_imbalance_witness :
    (totalRoles [(0, addrB), (1, addrA), (2, addrA)] [] = totalRoles allA [] ∧
      roleCount "B" [(0, addrB), (1, addrA), (2, addrA)] [] = roleCount "B" allA [] + 1 ∧
      roleCount "A" [(0, addrB), (1, addrA), (2, addrA)] [] = roleCount "A" allA [] - 1 ∧
      imbalance [(0, addrB), (1, addrA), (2, addrA)] [] + 2 ≤ imbalance allA []) ∧
    imbalance allA [] = 9 ∧ imbalance [(0, addrB), (1, addrA), (2, addrA)] [] = 5 :=
  ⟨⟨(steal_reduces_imbalance.1 (mkRoler "B" 3 0) (idRand 3 0) allA []
        (Call.ClaimMasterAddress 0 addrB addrA) addrA (by simp [WF, NodupKeys, allA])
        (idRand_valid "B" 3 0 _ _) (by decide) rfl rfl).1,
      (steal_reduces_imbalance.1 (mkRoler "B" 3 0) (idRand 3 0) allA []
        (Call.ClaimMasterAddress 0 addrB addrA) addrA (by simp [WF, NodupKeys, allA])
        (idRand_valid "B" 3 0 _ _) (by decide) rfl rfl).2.1,
      (steal_reduces_imbalance.1 (mkRoler "B" 3 0) (idRand 3 0) allA []
        (Call.ClaimMasterAddress 0 addrB addrA) addrA (by simp [WF, NodupKeys, allA])
        (idRand_valid "B" 3 0 _ _) (by decide) rfl rfl).2.2.1,
      (steal_reduces_imbalance.1 (mkRoler "B" 3 0) (idRand 3 0) allA []
        (Call.ClaimMasterAddress 0 addrB addrA) addrA (by simp [WF, NodupKeys, allA])
        (idRand_valid "B" 3 0 _ _) (by decide) rfl rfl).2.2.2.2.1⟩,
    by decide, by decide⟩

/-- C21, as stated, fails when the CAS succeeds on an assignment
that other thieves have changed since the snapshot. On the assignment `race0`
(`A`: shards 0, 1, 2; `B`, `C`, `D`: one shard each; `N = 6`, `R = 0`) the
nodes `C`, `D`, `B` all see `1 + 1 <= 3 - 1` and steal a different shard from
`A`; each CAS compares one slot and succeeds. The sum of `count^2` goes
12, 10, 10, 12: the steal of `D` does not lower it and the steal of `B` raises
it by 2. -/
theorem stale_steal_raises_imbalance :
    (StealOn (race0, []) (race0, []) (race1, []) ∧
      StealOn (race0, []) (race1, []) (race2, []) ∧
      StealOn (race0, []) (race2, []) (race3, [])) ∧
    (WF race0 [] ∧ WF race1 [] ∧ WF race2 [] ∧ WF race3 []) ∧
    (imbalance race0 [] = 12 ∧ imbalance race1 [] = 10 ∧ imbalance race2 [] = 10 ∧
      imbalance race3 [] = 12) ∧
    (¬ ∀ s0 s t : Store, WF s.1 s.2 → StealOn s0 s t →
      imbalance t.1 t.2 + 2 ≤ imbalance s.1 s.2) := by
  have hwf2 : WF race2 [] := by simp [WF, NodupKeys, race2]
  refine ⟨⟨stealOn_race1, stealOn_race2, stealOn_race3⟩,
    ⟨by simp [WF, NodupKeys, race0], by simp [WF, NodupKeys, race1], hwf2,
      by simp [WF, NodupKeys, race3]⟩,
    ⟨by decide, by decide, by decide, by decide⟩, ?_⟩
  intro h
  have h2 := h (race0, []) (race2, []) (race3, []) hwf2 stealOn_race3
  revert h2
  decide

end Role
